import Mathlib

/-!
# Spike-train store and simulation kernel of the reduced Hodgkin-Huxley network

A shallow embedding of `SourceCode/SpikeTrain_allP.cpp` and of
`double/HH_BBT2017_doubleP.cpp`: the neuron model, the simulation loop and the
reading of the command line.

Conventions of the embedding:

* a C++ `double` is an exact rational number (`ℚ`): rounding, infinities and
  NaN are outside the model, with two exceptions: the values `strtod` returns
  to `parseParameters`, which are compared before any arithmetic is done with
  them and are kept as a `ParsedDouble` (a number, an infinity or NaN), and
  the product of line 313, which is rounded to the nearest `double`
  (`roundDouble`) because its integer part is the size of a partition;
* an `unsigned int` is a natural number, reduced modulo `2^32` where the code
  can wrap;
* `std::vector::operator[]` outside the vector is undefined behaviour: the
  embedded function returns `none` there;
* text written to `cerr` by the spike-train class is kept as a list of
  `Diagnostic` values; output to `cout` and to files is left out;
* a quotient is the quotient of `ℚ`, in which `x / 0 = 0`: where the divisor
  can be zero (`dt`, `nNeurons`, `nExcNeurons`, `nInhNeurons`, the
  denominators of `am` and `an`) the embedded value is not the `inf` or NaN of
  the source;
* the library functions are arguments: `exp` of `<cmath>` is the field `exp` of
  `Config`, the odeint stepper is a `Stepper`, and `runge_kutta4_do_step` is
  the classical scheme that `runge_kutta4` implements.
-/

/-! ## SpikeTrain_allP.cpp -/

/-- Messages the spike-train class writes to `cerr`. -/
inductive Diagnostic where
  | constructorParameterWrong
  | neuronIndexOutOfRange
  | lastSpikeTimeNotBefore
deriving DecidableEq, Repr

/-- The class `SpikeTrain`: `nNeurons` and one vector of spike times per
neuron (`vector<vector<double>> mSpikeTrain`). -/
structure SpikeTrain where
  nNeurons : Nat
  mSpikeTrain : List (List ℚ)
deriving DecidableEq, Repr

/-- The constructor `SpikeTrain::SpikeTrain(n)`: `exit(-1)` (here `none`) when
`n <= 0`, otherwise `n` empty vectors pushed one after the other. -/
def SpikeTrain.new (n : Nat) : Option SpikeTrain :=
  if n ≤ 0 then none
  else some
    { nNeurons := n
      mSpikeTrain := (List.range n).foldl (fun buf _ => buf ++ [[]]) [] }

/-- The method `SpikeTrain::addSpikeTimeToNeuron(n, t)`. The result is the text
written to `cerr` and the store after the call; the store is `none` when the
call reads `mSpikeTrain[n]` outside the vector (the range test only prints, it
does not return). -/
def SpikeTrain.addSpikeTimeToNeuron (st : SpikeTrain) (n : Nat) (t : ℚ) :
    List Diagnostic × Option SpikeTrain :=
  let log : List Diagnostic :=
    if n ≥ st.mSpikeTrain.length then [Diagnostic.neuronIndexOutOfRange] else []
  match st.mSpikeTrain[n]? with
  | none => (log, none)
  | some row =>
    if h : row.length = 0 then
      (log, some { st with mSpikeTrain := st.mSpikeTrain.set n (row ++ [t]) })
    else
      let lastTime : ℚ := row.get ⟨row.length - 1, by omega⟩
      if lastTime < t then
        (log, some { st with mSpikeTrain := st.mSpikeTrain.set n (row ++ [t]) })
      else
        (log ++ [Diagnostic.lastSpikeTimeNotBefore], some st)

/-- A finite sequence of `addSpikeTimeToNeuron` calls, in order; `none` as soon
as one of them leaves the vector. -/
def SpikeTrain.addSpikeTimes (st : SpikeTrain) : List (Nat × ℚ) → Option SpikeTrain
  | [] => some st
  | c :: cs =>
    match (st.addSpikeTimeToNeuron c.1 c.2).2 with
    | none => none
    | some st' => st'.addSpikeTimes cs

/-- The invariant of the store: every row is strictly increasing. -/
def SpikeTrain.Increasing (st : SpikeTrain) : Prop :=
  ∀ row ∈ st.mSpikeTrain, row.Chain' (· < ·)

/-! ## HH_BBT2017_doubleP.cpp: constants and the neuron model -/

/-- The type `boost::array<double, 4>`, which the source names
`NeuronState_v_n_a_s` (order: v, n, a, s) and `myArrayDouble4`; `x0` to `x3`
are the elements `[0]` to `[3]`. -/
structure myArrayDouble4 where
  x0 : ℚ
  x1 : ℚ
  x2 : ℚ
  x3 : ℚ
deriving DecidableEq, Repr

abbrev NeuronState_v_n_a_s := myArrayDouble4

/-- Size of `unsigned int`: arithmetic on it is modulo `2^32`. -/
def UINT_SIZE : Nat := 2 ^ 32

def thA : ℚ := 0.1730
def thDA : ℚ := 0.1490
def vna : ℚ := 115
def vl : ℚ := 10.6
def gnabar : ℚ := 36
def gkbar : ℚ := 12
def gl : ℚ := 0.1
def h0 : ℚ := 0.8
def vExc : ℚ := 70
def vk : ℚ := -12
def taus : ℚ := 10
def tauf : ℚ := 1
def alphad : ℚ := 0.0015
def betad : ℚ := 0.12
def Vthresh : ℚ := 40
def kv : ℚ := 1

/-- What the simulation is run with. `nNeurons`, `dt` and `maxTimeSimulation`
are compile-time constants of the source (100, 0.01 and 8000), `pExcNeurons`,
`maxNumBurst` and `vInh` are the globals `parseParameters` may overwrite,
`iapp` is the table filled by `initRandIappValues` (read at indices below
`nNeurons`), and `exp` is the library function `exp` of `<cmath>`. The number
of neurons is one that line 313 can cast to `int` (`nNeurons_int`), as the 100
of the source is. -/
structure Config where
  nNeurons : Nat
  nNeurons_int : nNeurons < 2 ^ 31
  dt : ℚ
  maxTimeSimulation : ℚ
  pExcNeurons : ℚ
  maxNumBurst : Nat
  vInh : ℚ
  iapp : Nat → ℚ
  exp : ℚ → ℚ

/-- Conversion of a `double` to `unsigned int`: the fractional part is
discarded. (The conversion of a value outside the range of `unsigned int` is
undefined in the source; here a value below 0 gives 0.) -/
def toUnsigned (x : ℚ) : Nat := ⌊x⌋.toNat

/-- The cast `(int) n` of an `unsigned int`: the value itself below `2^31`,
and `2^32` less from there on. -/
def toInt (n : Nat) : Int :=
  if n % UINT_SIZE < 2 ^ 31 then ((n % UINT_SIZE : Nat) : Int)
  else ((n % UINT_SIZE : Nat) : Int) - (UINT_SIZE : Int)

/-- Rounding of a rational number to an integer, a tie going to the even
neighbour. -/
def roundHalfEven (z : ℚ) : Int :=
  let f := ⌊z⌋
  if z - f < 1 / 2 then f
  else if 1 / 2 < z - f then f + 1
  else if f % 2 = 0 then f else f + 1

/-- The number of halvings that bring `n` below 2, at most `fuel` of them: the
integer part of the binary logarithm of `n` when `n <= fuel`. -/
def log2Fuel : Nat → Nat → Nat
  | 0, _ => 0
  | fuel + 1, n => if n < 2 then 0 else log2Fuel fuel (n / 2) + 1

/-- The binary exponent of a non-zero rational number `x`: the integer `e` with
`2^e <= |x| < 2^(e+1)`. -/
def binaryExponent (x : ℚ) : Int :=
  let d : Int := (log2Fuel x.num.natAbs x.num.natAbs : Int) - (log2Fuel x.den x.den : Int)
  if (2 : ℚ) ^ d ≤ |x| then d else d - 1

/-- The result of an arithmetic operation on `double` whose exact value is
`x`: the nearest number with 53 significant binary digits, a tie going to the
even one (IEEE 754 binary64, the default rounding), with the spacing `2^-1074`
of the subnormal numbers as the finest one. Overflow to an infinity is outside
the model. -/
def roundDouble (x : ℚ) : ℚ :=
  if x = 0 then 0
  else
    let q : Int := max (binaryExponent x - 52) (-1074)
    (roundHalfEven (x / (2 : ℚ) ^ q) : ℚ) * (2 : ℚ) ^ q

/-- Line 313, `nExcNeurons = (int) nNeurons*pExcNeurons`: the cast applies to
`nNeurons`, the product is a product of two `double`, rounded, and the
assignment to the `unsigned int` discards its fractional part. -/
def Config.nExcNeurons (cfg : Config) : Nat :=
  toUnsigned (roundDouble (((toInt cfg.nNeurons : Int) : ℚ) * cfg.pExcNeurons))

/-- Line 314, `nInhNeurons = nNeurons-nExcNeurons` on `unsigned int`. -/
def Config.nInhNeurons (cfg : Config) : Nat :=
  (cfg.nNeurons + UINT_SIZE - cfg.nExcNeurons) % UINT_SIZE

/-- The constant `gsyn=3.6/nNeurons`. -/
def Config.gsyn (cfg : Config) : ℚ := 3.6 / (cfg.nNeurons : ℚ)

def am (exp : ℚ → ℚ) (v : ℚ) : ℚ := 0.1 * (25 - v) / (exp (0.1 * (25 - v)) - 1)

def bm (exp : ℚ → ℚ) (v : ℚ) : ℚ := 4.0 * exp (-v / 18)

def minf (exp : ℚ → ℚ) (v : ℚ) : ℚ := am exp v / (am exp v + bm exp v)

def bn (exp : ℚ → ℚ) (v : ℚ) : ℚ := 0.125 * exp (-v / 80)

def an (exp : ℚ → ℚ) (v : ℚ) : ℚ := 0.01 * (10 - v) / (exp (0.1 * (10 - v)) - 1.0)

def fsyn (exp : ℚ → ℚ) (v : ℚ) : ℚ := 1.0 / (1 + exp (Vthresh - v))

/-- The right-hand side `HH_NeuronModel(x, dxdt, t)`. The globals `atotExcj`,
`atotInhj` and `iappj` it reads are arguments here; the result is `dxdt`. -/
def HH_NeuronModel (cfg : Config) (atotExcj atotInhj iappj : ℚ)
    (x : NeuronState_v_n_a_s) (_t : ℚ) : NeuronState_v_n_a_s :=
  let vj := x.x0
  let nj := x.x1
  let aj := x.x2
  let sj := x.x3
  { x0 := -gl * (vj - vl)
          - gnabar * (minf cfg.exp vj) ^ 3 * (h0 - nj) * (vj - vna)
          - gkbar * nj ^ 4 * (vj - vk)
          - cfg.gsyn * atotExcj * (vj - vExc)
          - cfg.gsyn * atotInhj * (vj - cfg.vInh)
          + iappj
    x1 := an cfg.exp vj - (an cfg.exp vj + bn cfg.exp vj) * nj
    x2 := fsyn cfg.exp vj * (1 - aj) / tauf - aj / taus
    x3 := alphad * (1 - sj) - betad * fsyn cfg.exp vj * sj }

/-- A stepper of the odeint library: `do_step(system, x, t, dt)` gives the new
value of `x`. -/
abbrev Stepper :=
  (NeuronState_v_n_a_s → ℚ → NeuronState_v_n_a_s) → NeuronState_v_n_a_s → ℚ → ℚ →
    NeuronState_v_n_a_s

/-- The value `x + c * k` on arrays of four. -/
def myArrayDouble4.axpy (x : myArrayDouble4) (c : ℚ) (k : myArrayDouble4) : myArrayDouble4 :=
  { x0 := x.x0 + c * k.x0, x1 := x.x1 + c * k.x1, x2 := x.x2 + c * k.x2, x3 := x.x3 + c * k.x3 }

/-- The stepper `runge_kutta4` of odeint (library code): the classical
four-stage Runge-Kutta scheme. -/
def runge_kutta4_do_step : Stepper := fun system x t dt =>
  let k1 := system x t
  let k2 := system (x.axpy (dt / 2) k1) (t + dt / 2)
  let k3 := system (x.axpy (dt / 2) k2) (t + dt / 2)
  let k4 := system (x.axpy dt k3) (t + dt)
  (((x.axpy (dt / 6) k1).axpy (dt / 3) k2).axpy (dt / 3) k3).axpy (dt / 6) k4

/-! ## HH_BBT2017_doubleP.cpp: the simulation loop -/

/-- Integral promotion of a `bool`. -/
def boolToInt (b : Bool) : Int := if b then 1 else 0

/-- An `int` used as the condition of an `if`: taken when it is not zero. -/
def intCond (x : Int) : Bool := x != 0

/-- Lines 379-381, `~depolarization[n] & network[n][0]>=Vthresh &
(network[n][0]-v_1)/dt>0`, on `int` as the compiler evaluates it. -/
def depolarizationTest (depol : Bool) (v v_1 dt : ℚ) : Bool :=
  intCond (Int.land (Int.land (Int.not (boolToInt depol)) (boolToInt (decide (v ≥ Vthresh))))
    (boolToInt (decide ((v - v_1) / dt > 0))))

/-- Lines 386-388, `depolarization[n] & network[n][0]<=Vthresh &
(network[n][0]-v_1)/dt<0`. -/
def repolarizationTest (depol : Bool) (v v_1 dt : ℚ) : Bool :=
  intCond (Int.land (Int.land (boolToInt depol) (boolToInt (decide (v ≤ Vthresh))))
    (boolToInt (decide ((v - v_1) / dt < 0))))

/-- Lines 419-421, `~activePhase & sN[2]>=thA & (sN[2]-sN_1[2])/dt>thDA`. -/
def episodeStartTest (activePhase : Bool) (sN2 sN_1_2 dt : ℚ) : Bool :=
  intCond (Int.land (Int.land (Int.not (boolToInt activePhase)) (boolToInt (decide (sN2 ≥ thA))))
    (boolToInt (decide ((sN2 - sN_1_2) / dt > thDA))))

/-- Lines 430-431, `activePhase & sN[2]<thA`. -/
def episodeEndTest (activePhase : Bool) (sN2 : ℚ) : Bool :=
  intCond (Int.land (boolToInt activePhase) (boolToInt (decide (sN2 < thA))))

/-- Lines 377-391 for one neuron: the two tests in sequence. The result is the
new value of `depolarization[n]` and whether `addSpikeTimeToNeuron(n,t)` is
called. (`s_t`, written in the first branch, is never read.) -/
def detectSpike (depol : Bool) (v v_1 dt : ℚ) : Bool × Bool :=
  let depol1 := if depolarizationTest depol v v_1 dt then true else depol
  if repolarizationTest depol1 v v_1 dt then (false, true) else (depol1, false)

/-- The loop `for (n = lo; n < hi; n++)` with a body that may leave a vector. -/
def forRange {σ : Type} (body : Nat → σ → Option σ) (lo hi : Nat) (s : σ) : Option σ :=
  (List.range' lo (hi - lo)).foldlM (fun acc n => body n acc) s

/-- Lines 338-344: `acc += network[n][3]*network[n][2]` for `lo <= n < hi`. -/
def sumDrive (network : List NeuronState_v_n_a_s) (lo hi : Nat) : Option ℚ :=
  forRange (fun n acc => (network[n]?).map (fun x => acc + x.x3 * x.x2)) lo hi 0

/-- Lines 405-415: `acc += network[n][2]` for `lo <= n < hi` (the sums
`sTotalExc` and `sTotalInh` of the same loops are never read). -/
def sumActivity (network : List NeuronState_v_n_a_s) (lo hi : Nat) : Option ℚ :=
  forRange (fun n acc => (network[n]?).map (fun x => acc + x.x2)) lo hi 0

def myArrayDouble4.add (s x : myArrayDouble4) : myArrayDouble4 :=
  { x0 := s.x0 + x.x0, x1 := s.x1 + x.x1, x2 := s.x2 + x.x2, x3 := s.x3 + x.x3 }

/-- Lines 354 and 401: every element divided by `nNeurons`. -/
def myArrayDouble4.divN (s : myArrayDouble4) (n : Nat) : myArrayDouble4 :=
  { x0 := s.x0 / (n : ℚ), x1 := s.x1 / (n : ℚ), x2 := s.x2 / (n : ℚ), x3 := s.x3 / (n : ℚ) }

/-- Lines 347-354: the mean state `sN_1` of the network before the step. -/
def previousMean (nNeurons : Nat) (network : List NeuronState_v_n_a_s) :
    Option NeuronState_v_n_a_s :=
  (forRange (fun n (acc : NeuronState_v_n_a_s) => (network[n]?).map (fun x => acc.add x))
    0 nNeurons { x0 := 0, x1 := 0, x2 := 0, x3 := 0 }).map (fun s => s.divN nNeurons)

/-- What the loop over the neurons (lines 359-398) reads and writes. -/
structure NeuronLoopState where
  network : List NeuronState_v_n_a_s
  depolarization : List Bool
  mSpikeTrain : SpikeTrain
  sN : NeuronState_v_n_a_s
deriving DecidableEq, Repr

/-- Lines 361-368: the pair `(atotExcj, atotInhj)` for neuron `n` in state `x`. -/
def selfExcluded (nExcNeurons : Nat) (atotExc atotInh : ℚ) (n : Nat)
    (x : NeuronState_v_n_a_s) : ℚ × ℚ :=
  if n < nExcNeurons then (atotExc - x.x3 * x.x2, atotInh)
  else (atotExc, atotInh - x.x3 * x.x2)

/-- Lines 361-375: the state `do_step` writes to `network[n]`, from the state
`x` it holds before. -/
def integrateNeuron (do_step : Stepper) (cfg : Config) (atotExc atotInh t : ℚ) (n : Nat)
    (x : NeuronState_v_n_a_s) : NeuronState_v_n_a_s :=
  let drive := selfExcluded cfg.nExcNeurons atotExc atotInh n x
  let iappj := cfg.iapp n
  do_step (HH_NeuronModel cfg drive.1 drive.2 iappj) x t cfg.dt

/-- Lines 360-397, the body of the loop over the neurons, for neuron `n`. -/
def neuronBody (do_step : Stepper) (cfg : Config) (atotExc atotInh t : ℚ) (n : Nat)
    (ls : NeuronLoopState) : Option NeuronLoopState :=
  match ls.network[n]?, ls.depolarization[n]? with
  | some x, some depol =>
    let v_1 := x.x0
    let x' := integrateNeuron do_step cfg atotExc atotInh t n x
    let r := detectSpike depol x'.x0 v_1 cfg.dt
    let store : Option SpikeTrain :=
      if r.2 then (ls.mSpikeTrain.addSpikeTimeToNeuron n t).2 else some ls.mSpikeTrain
    match store with
    | none => none
    | some st =>
      some { network := ls.network.set n x'
             depolarization := ls.depolarization.set n r.1
             mSpikeTrain := st
             sN := ls.sN.add x' }
  | _, _ => none

/-- The state of `main` the simulation loop reads and writes. -/
structure SimState where
  network : List NeuronState_v_n_a_s
  depolarization : List Bool
  mSpikeTrain : SpikeTrain
  activePhase : Bool
  burstCount : Nat
  t : ℚ
  ave : List NeuronState_v_n_a_s
  networkOutputs : List myArrayDouble4
deriving DecidableEq, Repr

/-- What the episode detection (lines 417-442) writes. -/
structure EpisodeState where
  activePhase : Bool
  burstCount : Nat
  networkOutputs : List myArrayDouble4
deriving DecidableEq, Repr

/-- Lines 417-442. `aExc` and `aInh` are the values `actTotalExc/nExcNeurons`
and `actTotalInh/nInhNeurons` stored in `sA[0]` and `sA[1]`. -/
def detectEpisode (e : EpisodeState) (sN2 sN_1_2 t dt aExc aInh : ℚ) : EpisodeState :=
  if episodeStartTest e.activePhase sN2 sN_1_2 dt then
    { activePhase := true
      burstCount := e.burstCount
      networkOutputs := e.networkOutputs ++ [{ x0 := aExc, x1 := aInh, x2 := t, x3 := 1 }] }
  else if episodeEndTest e.activePhase sN2 then
    { activePhase := false
      burstCount := (e.burstCount + 1) % UINT_SIZE
      networkOutputs := e.networkOutputs ++ [{ x0 := aExc, x1 := aInh, x2 := -t, x3 := 1 }] }
  else e

/-- Lines 332-448, the body of the simulation loop; `none` when a vector is
read outside its bounds. -/
def step (do_step : Stepper) (cfg : Config) (s : SimState) : Option SimState :=
  match sumDrive s.network 0 cfg.nExcNeurons,
        sumDrive s.network cfg.nExcNeurons cfg.nNeurons,
        previousMean cfg.nNeurons s.network with
  | some atotExc, some atotInh, some sN_1 =>
    match forRange (neuronBody do_step cfg atotExc atotInh s.t) 0 cfg.nNeurons
        { network := s.network
          depolarization := s.depolarization
          mSpikeTrain := s.mSpikeTrain
          sN := { x0 := 0, x1 := 0, x2 := 0, x3 := 0 } } with
    | none => none
    | some ls =>
      let sN := ls.sN.divN cfg.nNeurons
      match sumActivity ls.network 0 cfg.nExcNeurons,
            sumActivity ls.network cfg.nExcNeurons cfg.nNeurons with
      | some actTotalExc, some actTotalInh =>
        let e := detectEpisode
          { activePhase := s.activePhase
            burstCount := s.burstCount
            networkOutputs := s.networkOutputs }
          sN.x2 sN_1.x2 s.t cfg.dt
          (actTotalExc / (cfg.nExcNeurons : ℚ)) (actTotalInh / (cfg.nInhNeurons : ℚ))
        some { network := ls.network
               depolarization := ls.depolarization
               mSpikeTrain := ls.mSpikeTrain
               activePhase := e.activePhase
               burstCount := e.burstCount
               t := s.t + cfg.dt
               ave := s.ave ++ [sN]
               networkOutputs := e.networkOutputs }
      | _, _ => none
  | _, _, _ => none

/-- Lines 179-186 and 323-325 with the store of line 101: the state in which
the loop is entered. -/
def initState (cfg : Config) : Option SimState :=
  (SpikeTrain.new cfg.nNeurons).map fun st =>
    { network := List.replicate cfg.nNeurons { x0 := 0.0, x1 := 0.0, x2 := 0.01, x3 := 0.25 }
      depolarization := List.replicate cfg.nNeurons false
      mSpikeTrain := st
      activePhase := false
      t := 0.0
      burstCount := 0
      ave := []
      networkOutputs := [] }

/-- Line 330, the condition of the `while`. -/
def loopCond (cfg : Config) (s : SimState) : Bool :=
  decide (s.burstCount < cfg.maxNumBurst) && decide (s.t ≤ cfg.maxTimeSimulation)

/-- One evaluation of the `while`: the body when the condition holds, the
state as it is once the loop has stopped. -/
def whileIter (do_step : Stepper) (cfg : Config) (s : SimState) : Option SimState :=
  if loopCond cfg s then step do_step cfg s else some s

/-- The state after `k` evaluations of the `while`, from `s`. -/
def iterLoop (do_step : Stepper) (cfg : Config) : Nat → SimState → Option SimState
  | 0, s => some s
  | k + 1, s => (iterLoop do_step cfg k s).bind (whileIter do_step cfg)

/-- The state of the run after `k` evaluations of the `while`. -/
def simulate (do_step : Stepper) (cfg : Config) (k : Nat) : Option SimState :=
  (initState cfg).bind (iterLoop do_step cfg k)

/-- The bounds the loop relies on: the three arrays have `nNeurons` entries. -/
def SimState.wf (cfg : Config) (s : SimState) : Prop :=
  s.network.length = cfg.nNeurons ∧ s.depolarization.length = cfg.nNeurons ∧
    s.mSpikeTrain.mSpikeTrain.length = cfg.nNeurons

/-! ## Quantities the statements about runs are written with -/

/-- The number of records of `networkOutputs` written at a phase end: those
whose element 2 (`-t`) is negative. -/
def phaseEndRecords (outputs : List myArrayDouble4) : Nat :=
  (outputs.filter (fun r => decide (r.x2 < 0))).length

/-- One neuron, the time step of the source, two bursts at most. -/
def exampleConfig : Config :=
  { nNeurons := 1, nNeurons_int := by decide, dt := 0.01, maxTimeSimulation := 10,
    pExcNeurons := 1, maxNumBurst := 2, vInh := -12, iapp := fun _ => 0, exp := fun _ => 0 }

/-- A state of `exampleConfig` with the given flag, voltage and phase. -/
def exampleState (depol : Bool) (v : ℚ) (active : Bool) : SimState :=
  { network := [{ x0 := v, x1 := 0, x2 := 0.01, x3 := 0.25 }]
    depolarization := [depol]
    mSpikeTrain := { nNeurons := 1, mSpikeTrain := [[]] }
    activePhase := active
    burstCount := 0
    t := 1
    ave := []
    networkOutputs := [] }

/-- A stepper that writes the voltage `v` and keeps the rest of the state. -/
def exampleVoltage (v : ℚ) : Stepper := fun _ x _ _ => { x with x0 := v }

/-- A stepper that leaves the state as it is. -/
def exampleHold : Stepper := fun _ x _ _ => x

/-! ## The right-hand side as the specification writes it -/

/-- The synaptic activation in the words of the specification:
`1/(1+exp((Vthresh - v)/kv))`. -/
def fsyn_spec (exp : ℚ → ℚ) (v : ℚ) : ℚ := 1 / (1 + exp ((Vthresh - v) / kv))

/-- The derivative `(dv, dn, da, ds)` in the words of the specification, for
the state `(v, n, a, s)`. -/
def HH_NeuronModel_spec (cfg : Config) (atotExcj atotInhj iappj : ℚ) (v n a s : ℚ) :
    myArrayDouble4 :=
  { x0 := -gl * (v - vl) - gnabar * (minf cfg.exp v) ^ 3 * (h0 - n) * (v - vna)
          - gkbar * n ^ 4 * (v - vk) - cfg.gsyn * atotExcj * (v - vExc)
          - cfg.gsyn * atotInhj * (v - cfg.vInh) + iappj
    x1 := an cfg.exp v - (an cfg.exp v + bn cfg.exp v) * n
    x2 := fsyn_spec cfg.exp v * (1 - a) / tauf - a / taus
    x3 := alphad * (1 - s) - betad * fsyn_spec cfg.exp v * s }

/-! ## More small configurations -/

/-- Four neurons, three of them excitatory, with a coarse time step. -/
def exampleMixedConfig : Config :=
  { nNeurons := 4, nNeurons_int := by decide, dt := 0.1, maxTimeSimulation := 10,
    pExcNeurons := 0.75, maxNumBurst := 2, vInh := -12, iapp := fun n => (n : ℚ) - 2,
    exp := fun _ => 0 }

/-- A state of `exampleMixedConfig` with distinct neurons. -/
def exampleMixedState : SimState :=
  { network := [{ x0 := 0, x1 := 0, x2 := 0.01, x3 := 0.25 },
                { x0 := 1, x1 := 0, x2 := 0.02, x3 := 0.5 },
                { x0 := 2, x1 := 0, x2 := 0.03, x3 := 0.75 },
                { x0 := 3, x1 := 0, x2 := 0.04, x3 := 1 }]
    depolarization := [false, false, false, false]
    mSpikeTrain := { nNeurons := 4, mSpikeTrain := [[], [], [], []] }
    activePhase := false
    burstCount := 0
    t := 1
    ave := []
    networkOutputs := [] }

/-! ## Quantities the statements about the coupling are written with -/

/-- The product `a_j*s_j` of neuron `j` of a network (0 for an index outside
it). -/
def driveOf (network : List NeuronState_v_n_a_s) (j : Nat) : ℚ :=
  match network[j]? with
  | some x => x.x2 * x.x3
  | none => 0

/-- The body of the neuron loop executed for the indices of `order`, in that
order, instead of `0, 1, ..., nNeurons-1`. -/
def neuronLoopIn (do_step : Stepper) (cfg : Config) (atotExc atotInh t : ℚ)
    (order : List Nat) (ls : NeuronLoopState) : Option NeuronLoopState :=
  order.foldlM (fun acc n => neuronBody do_step cfg atotExc atotInh t n acc) ls

/-! ## Quantities the statements about the rate functions and the records are written with -/

/-- The denominator of `am(v)`: `exp(.1*(25-v))-1`. -/
def amDenominator (exp : ℚ → ℚ) (v : ℚ) : ℚ := exp (0.1 * (25 - v)) - 1

/-- The denominator of `an(v)`: `exp(.1*(10-v))-1.0`. -/
def anDenominator (exp : ℚ → ℚ) (v : ℚ) : ℚ := exp (0.1 * (10 - v)) - 1.0

/-- The synaptic drive `a_j` of neuron `j` of a network (0 for an index outside
it). -/
def activityOf (network : List NeuronState_v_n_a_s) (j : Nat) : ℚ :=
  match network[j]? with
  | some x => x.x2
  | none => 0

/-- A stand-in for `exp` on the rationals: positive, increasing, with the
value 1 at 0 and nowhere else. -/
def exampleExp (x : ℚ) : ℚ := if x ≤ 0 then 1 / (1 - x) else 1 + x

/-- The constants of the source and the defaults of its parameters: a hundred
neurons, all excitatory. -/
def exampleDefaultConfig : Config :=
  { nNeurons := 100, nNeurons_int := by decide, dt := 0.01, maxTimeSimulation := 8000,
    pExcNeurons := 1, maxNumBurst := 200, vInh := -12, iapp := fun _ => 0, exp := exampleExp }

/-- One excitatory neuron and a coarse time step, so that the first phase
start comes in the second step. -/
def exampleCoarseConfig : Config :=
  { nNeurons := 1, nNeurons_int := by decide, dt := 0.1, maxTimeSimulation := 10,
    pExcNeurons := 1, maxNumBurst := 2, vInh := -12, iapp := fun _ => 0, exp := fun _ => 0 }

/-! ## HH_BBT2017_doubleP.cpp: the command line -/

/-- A `double` as `strtod` returns it: a number, an infinity or NaN. The
validation of the parameters compares such values before any arithmetic is
done with them, so these are kept apart here. -/
inductive ParsedDouble where
  | finite (q : ℚ)
  | posInf
  | negInf
  | nan
deriving DecidableEq, Repr

/-- The comparison `x < y` of two `double`: false as soon as one is NaN. -/
def ParsedDouble.lt : ParsedDouble → ParsedDouble → Bool
  | .nan, _ => false
  | _, .nan => false
  | .finite a, .finite b => decide (a < b)
  | .posInf, _ => false
  | _, .negInf => false
  | .negInf, _ => true
  | .finite _, .posInf => true

/-- The comparison `x <= y` of two `double`: false as soon as one is NaN. -/
def ParsedDouble.le : ParsedDouble → ParsedDouble → Bool
  | .nan, _ => false
  | _, .nan => false
  | .finite a, .finite b => decide (a ≤ b)
  | .negInf, _ => true
  | _, .posInf => true
  | .posInf, _ => false
  | .finite _, .negInf => false

/-- Conversion of a `double` to `unsigned int`; `none` where the value has no
`unsigned int` (the conversion is then undefined). -/
def ParsedDouble.toUnsigned? : ParsedDouble → Option Nat
  | .finite q => if -1 < q ∧ q < (UINT_SIZE : ℚ) then some ⌊q⌋.toNat else none
  | _ => none

/-- The globals `parseParameters` writes. -/
structure Parameters where
  vInh : ParsedDouble
  maxNumBurst : Option Nat
  pExcNeurons : ParsedDouble
deriving DecidableEq, Repr

/-- The initial values of lines 39, 42 and 68. -/
def Parameters.initial : Parameters :=
  { vInh := .finite (-12), maxNumBurst := some 200, pExcNeurons := .finite 1 }

/-- Lines 248-259, the block of `-vInh`, for `argv[i] = opt` and `argv[i+1] =
val` (`none` when `i + 1 < argc` fails). `Except.error` is `return -1`, with
the globals as they are then. -/
def parseVInh (strtod : String → ParsedDouble) (opt : String) (val : Option String)
    (g : Parameters) : Except Parameters Parameters :=
  if opt = "-vInh" then
    match val with
    | some v =>
      let g' := { g with vInh := strtod v }
      if g'.vInh.lt (.finite (-12.0)) || (ParsedDouble.finite 70.0).lt g'.vInh then
        .error g'
      else .ok g'
    | none => .error g
  else .ok g

/-- Lines 260-267, the block of `-nBurst`. -/
def parseNBurst (strtod : String → ParsedDouble) (opt : String) (val : Option String)
    (g : Parameters) : Except Parameters Parameters :=
  if opt = "-nBurst" then
    match val with
    | some v => .ok { g with maxNumBurst := (strtod v).toUnsigned? }
    | none => .error g
  else .ok g

/-- Lines 268-279, the block of `-pExcN`. -/
def parsePExcN (strtod : String → ParsedDouble) (opt : String) (val : Option String)
    (g : Parameters) : Except Parameters Parameters :=
  if opt = "-pExcN" then
    match val with
    | some v =>
      let g' := { g with pExcNeurons := strtod v }
      if g'.pExcNeurons.le (.finite 0) || (ParsedDouble.finite 1).lt g'.pExcNeurons then
        .error g'
      else .ok g'
    | none => .error g
  else .ok g

/-- Lines 247-280, the loop `for (i = 1; i < argc; i+=2)` on the arguments from
`argv[i]` on. -/
def parseLoop (strtod : String → ParsedDouble) :
    List String → Parameters → Except Parameters Parameters
  | [], g => .ok g
  | [opt], g =>
    (parseVInh strtod opt none g).bind fun g1 =>
    (parseNBurst strtod opt none g1).bind fun g2 =>
    parsePExcN strtod opt none g2
  | opt :: val :: rest, g =>
    (parseVInh strtod opt (some val) g).bind fun g1 =>
    (parseNBurst strtod opt (some val) g1).bind fun g2 =>
    (parsePExcN strtod opt (some val) g2).bind fun g3 =>
    parseLoop strtod rest g3

/-- The function `parseParameters(argc, argv)`, with `argv` as a list (so
`argc` is its length) and the library function `strtod` as an argument: the
value returned and the globals after the call. -/
def parseParameters (strtod : String → ParsedDouble) (argv : List String) (g : Parameters) :
    Int × Parameters :=
  if argv.length < 2 then (-1, g)
  else
    match parseLoop strtod (argv.drop 1) g with
    | .ok g' => (1, g')
    | .error g' => (-1, g')

/-- Lines 300-301 of `main`: the simulation is started unless
`parseParameters` returns a negative value. -/
def mainStartsSimulation (strtod : String → ParsedDouble) (argv : List String) : Bool :=
  !decide ((parseParameters strtod argv Parameters.initial).1 < 0)

/-- The values of `strtod` on the strings of the examples: NaN for `nan`, the
infinity for `inf`, the number for `100` and `0.5`, and 0 for text that is not
a number. -/
def exampleStrtod (s : String) : ParsedDouble :=
  if s = "nan" then .nan
  else if s = "inf" then .posInf
  else if s = "100" then .finite 100
  else if s = "0.5" then .finite 0.5
  else .finite 0

/-- What the range test of `-vInh` lets through: a number of `[-12, 70]`, or
NaN. -/
def ParsedDouble.passesVInhTest (x : ParsedDouble) : Prop :=
  x = .nan ∨ ∃ q, x = .finite q ∧ -12 ≤ q ∧ q ≤ 70

/-- What the range test of `-pExcN` lets through: a number of `]0, 1]`, or
NaN. -/
def ParsedDouble.passesPExcNTest (x : ParsedDouble) : Prop :=
  x = .nan ∨ ∃ q, x = .finite q ∧ 0 < q ∧ q ≤ 1

/-! ## Quantities the statements about the spike trains of a run are written with -/

/-- The number of evaluations of the `while`, among the first `k` of the run,
in which the flag `depolarization[n]` goes from true to false. -/
def repolarizations (do_step : Stepper) (cfg : Config) (n : Nat) : Nat → Nat
  | 0 => 0
  | k + 1 =>
    repolarizations do_step cfg n k +
      (match simulate do_step cfg k, simulate do_step cfg (k + 1) with
        | some a, some b =>
          if a.depolarization[n]? = some true ∧ b.depolarization[n]? = some false then 1 else 0
        | _, _ => 0)

/-! ## Configurations and states in which a transition is taken -/

/-- The constants of the source with the fraction `p` given on the command
line: `pExcNeurons` is the `double` nearest to `p`, which `strtod` returns. -/
def exampleFractionConfig (p : ℚ) : Config :=
  { nNeurons := 100, nNeurons_int := by decide, dt := 0.01, maxTimeSimulation := 8000,
    pExcNeurons := roundDouble p, maxNumBurst := 200, vInh := -12, iapp := fun _ => 0,
    exp := exampleExp }

/-- A state of `exampleCoarseConfig` whose drive `a` is 0.1: one step of the
Runge-Kutta stepper takes the mean activity above `thA`. -/
def exampleRisingState : SimState :=
  { network := [{ x0 := 0, x1 := 0, x2 := 0.1, x3 := 0.25 }]
    depolarization := [false]
    mSpikeTrain := { nNeurons := 1, mSpikeTrain := [[]] }
    activePhase := false
    burstCount := 0
    t := 1
    ave := []
    networkOutputs := [] }

/-- A stepper that writes the voltage 41 in the step taken at time 0 and the
voltage 0 in every later step: one spike, recorded in the second step. -/
def exampleSpike : Stepper := fun _ x t _ => { x with x0 := if t = 0 then 41 else 0 }

/-- The state `exampleMixedState` in an active phase. -/
def exampleMixedActiveState : SimState := { exampleMixedState with activePhase := true }

/-! # Theorems -/

/-! ### Lemmas on the store -/

theorem SpikeTrain.new_buffer (n : Nat) :
    (List.range n).foldl (fun (buf : List (List ℚ)) _ => buf ++ [[]]) []
      = List.replicate n [] := by
  induction n with
  | zero => rfl
  | succ k ih =>
    rw [List.range_succ, List.foldl_append, ih]
    simp [List.replicate_succ']

theorem SpikeTrain.new_eq (n : Nat) (hn : 0 < n) :
    SpikeTrain.new n = some { nNeurons := n, mSpikeTrain := List.replicate n [] } := by
  unfold SpikeTrain.new
  rw [if_neg (by omega), SpikeTrain.new_buffer]

theorem List.get_length_sub_one_eq_getLast (row : List ℚ) (h : row.length - 1 < row.length)
    (hne : row ≠ []) : row.get ⟨row.length - 1, h⟩ = row.getLast hne := by
  rw [List.getLast_eq_getElem]
  rfl

/-- What one in-range call does, in terms of the last stored time. -/
theorem SpikeTrain.addSpikeTimeToNeuron_inRange (st : SpikeTrain) (n : Nat) (t : ℚ)
    (row : List ℚ) (hrow : st.mSpikeTrain[n]? = some row) :
    st.addSpikeTimeToNeuron n t =
      if ∀ x ∈ row.getLast?, x < t then
        ([], some { st with mSpikeTrain := st.mSpikeTrain.set n (row ++ [t]) })
      else ([Diagnostic.lastSpikeTimeNotBefore], some st) := by
  have hlt : n < st.mSpikeTrain.length := by
    rcases Nat.lt_or_ge n st.mSpikeTrain.length with h | h
    · exact h
    · rw [List.getElem?_eq_none h] at hrow
      cases hrow
  unfold SpikeTrain.addSpikeTimeToNeuron
  simp only [hrow, ge_iff_le, if_neg (Nat.not_le.mpr hlt)]
  by_cases hlen : row.length = 0
  · have : row = [] := List.length_eq_zero.mp hlen
    subst this
    simp
  · have hne : row ≠ [] := fun h => hlen (by simp [h])
    rw [dif_neg hlen]
    simp only [List.get_length_sub_one_eq_getLast row _ hne]
    have hl : row.getLast? = some (row.getLast hne) := List.getLast?_eq_getLast _ hne
    simp only [hl, Option.mem_def, Option.some.injEq, forall_eq', List.nil_append]

/-- Strictly increasing rows stay so under an accepted or a dropped append. -/
theorem List.chain'_append_of_getLast_lt (row : List ℚ) (t : ℚ)
    (hrow : row.Chain' (· < ·)) (h : ∀ x ∈ row.getLast?, x < t) :
    (row ++ [t]).Chain' (· < ·) := by
  refine List.Chain'.append hrow (List.chain'_singleton t) ?_
  intro x hx y hy
  simp only [List.head?_cons, Option.mem_def, Option.some.injEq] at hy
  subst hy
  exact h x hx

theorem SpikeTrain.addSpikeTimeToNeuron_rows (st : SpikeTrain) (n : Nat) (t : ℚ)
    (row : List ℚ) (hrow : st.mSpikeTrain[n]? = some row) :
    ∃ st', (st.addSpikeTimeToNeuron n t).2 = some st' ∧
      st'.nNeurons = st.nNeurons ∧
      st'.mSpikeTrain.length = st.mSpikeTrain.length ∧
      st'.mSpikeTrain[n]? = some (if ∀ x ∈ row.getLast?, x < t then row ++ [t] else row) ∧
      (¬ (∀ x ∈ row.getLast?, x < t) → st' = st) ∧
      ∀ m, m ≠ n → st'.mSpikeTrain[m]? = st.mSpikeTrain[m]? := by
  have hlt : n < st.mSpikeTrain.length := by
    rcases Nat.lt_or_ge n st.mSpikeTrain.length with h | h
    · exact h
    · rw [List.getElem?_eq_none h] at hrow
      cases hrow
  rw [SpikeTrain.addSpikeTimeToNeuron_inRange st n t row hrow]
  by_cases hc : ∀ x ∈ row.getLast?, x < t
  · rw [if_pos hc, if_pos hc]
    refine ⟨_, rfl, rfl, by simp, ?_, fun h => absurd hc h, ?_⟩
    · simp [List.getElem?_set, hlt]
    · intro m hm
      simp [List.getElem?_set, Ne.symm hm]
  · rw [if_neg hc, if_neg hc]
    exact ⟨st, rfl, rfl, rfl, hrow, fun _ => rfl, fun _ _ => rfl⟩

theorem SpikeTrain.addSpikeTimeToNeuron_increasing (st : SpikeTrain) (n : Nat) (t : ℚ)
    (hn : n < st.mSpikeTrain.length) (hinc : st.Increasing) :
    ∃ st', (st.addSpikeTimeToNeuron n t).2 = some st' ∧
      st'.mSpikeTrain.length = st.mSpikeTrain.length ∧ st'.Increasing := by
  have hrow : st.mSpikeTrain[n]? = some (st.mSpikeTrain[n]) := List.getElem?_eq_getElem hn
  obtain ⟨st', h1, _, h3, h4, _, h6⟩ :=
    SpikeTrain.addSpikeTimeToNeuron_rows st n t _ hrow
  refine ⟨st', h1, h3, ?_⟩
  intro row hmem
  obtain ⟨m, hm, rfl⟩ := List.getElem_of_mem hmem
  by_cases hmn : m = n
  · subst hmn
    have h4' := h4
    rw [List.getElem?_eq_getElem hm, Option.some.injEq] at h4'
    rw [h4']
    have hold : (st.mSpikeTrain[m]).Chain' (· < ·) := hinc _ (List.getElem_mem _)
    split
    · next hc => exact List.chain'_append_of_getLast_lt _ t hold hc
    · exact hold
  · have h := h6 m hmn
    rw [List.getElem?_eq_getElem hm, List.getElem?_eq_getElem (h3 ▸ hm), Option.some.injEq] at h
    rw [h]
    exact hinc _ (List.getElem_mem _)

theorem SpikeTrain.addSpikeTimes_increasing (calls : List (Nat × ℚ)) :
    ∀ (st : SpikeTrain), (∀ c ∈ calls, c.1 < st.mSpikeTrain.length) → st.Increasing →
      ∃ st', st.addSpikeTimes calls = some st' ∧
        st'.mSpikeTrain.length = st.mSpikeTrain.length ∧ st'.Increasing := by
  induction calls with
  | nil => intro st _ hinc; exact ⟨st, rfl, rfl, hinc⟩
  | cons c cs ih =>
    intro st hin hinc
    obtain ⟨st1, h1, hlen, hinc1⟩ :=
      SpikeTrain.addSpikeTimeToNeuron_increasing st c.1 c.2 (hin c (List.mem_cons_self _ _)) hinc
    obtain ⟨st2, h2, hlen2, hinc2⟩ := ih st1
      (fun d hd => hlen ▸ hin d (List.mem_cons_of_mem _ hd)) hinc1
    refine ⟨st2, ?_, hlen2.trans hlen, hinc2⟩
    simp only [SpikeTrain.addSpikeTimes, h1, h2]

/-- C1. From the store built by `SpikeTrain(n)` with `n > 0`, every finite
sequence of `addSpikeTimeToNeuron` calls with indices below `n` runs to the
end, keeps `n` rows, and leaves every row strictly increasing: each entry is
greater than the one before it. -/
theorem spikeTrain_strictly_increasing (n : Nat) (calls : List (Nat × ℚ)) (hn : 0 < n)
    (hin : ∀ c ∈ calls, c.1 < n) :
    ∃ st0 st, SpikeTrain.new n = some st0 ∧ st0.addSpikeTimes calls = some st ∧
      st.mSpikeTrain.length = n ∧ ∀ row ∈ st.mSpikeTrain, row.Chain' (· < ·) := by
  have h0 := SpikeTrain.new_eq n hn
  obtain ⟨st, h1, h2, h3⟩ := SpikeTrain.addSpikeTimes_increasing calls
    { nNeurons := n, mSpikeTrain := List.replicate n [] }
    (by simpa using hin)
    (by
      intro row hrow
      rw [List.eq_of_mem_replicate hrow]
      exact List.chain'_nil)
  exact ⟨_, st, h0, h1, by simpa using h2, h3⟩

/-- Two neurons and four calls, one of them out of order. -/
theorem spikeTrain_strictly_increasing_witness :
    0 < 2 ∧ (∀ c ∈ [((0 : Nat), (1 : ℚ)), (1, 3), (0, 1 / 2), (0, 2)], c.1 < 2) ∧
      ∃ st0 st, SpikeTrain.new 2 = some st0 ∧
        st0.addSpikeTimes [((0 : Nat), (1 : ℚ)), (1, 3), (0, 1 / 2), (0, 2)] = some st ∧
        st.mSpikeTrain.length = 2 ∧ ∀ row ∈ st.mSpikeTrain, row.Chain' (· < ·) :=
  ⟨by decide, by decide,
    spikeTrain_strictly_increasing 2 [(0, 1), (1, 3), (0, 1 / 2), (0, 2)] (by decide) (by decide)⟩

/-- C2. For an index inside the store, `addSpikeTimeToNeuron(n, t)` returns the
store in which `t` is appended to row `n` exactly when the row is empty or its
last entry is smaller than `t`, and nothing is written to `cerr`; otherwise the
store is unchanged and the message of the dropped append is the only output.
In both cases the old row is a prefix of the new one, the other rows and the
number of rows are the same. -/
theorem addSpikeTimeToNeuron_append_or_drop (st : SpikeTrain) (n : Nat) (t : ℚ)
    (hn : n < st.mSpikeTrain.length) :
    ∃ row row' st', st.mSpikeTrain[n]? = some row ∧
      (st.addSpikeTimeToNeuron n t).2 = some st' ∧ st'.mSpikeTrain[n]? = some row' ∧
      (row' = row ++ [t] ↔ (row = [] ∨ ∃ last, row.getLast? = some last ∧ last < t)) ∧
      ((row = [] ∨ ∃ last, row.getLast? = some last ∧ last < t) →
        (st.addSpikeTimeToNeuron n t).1 = []) ∧
      (¬ (row = [] ∨ ∃ last, row.getLast? = some last ∧ last < t) →
        st' = st ∧ (st.addSpikeTimeToNeuron n t).1 = [Diagnostic.lastSpikeTimeNotBefore]) ∧
      row <+: row' ∧
      (∀ m, m ≠ n → st'.mSpikeTrain[m]? = st.mSpikeTrain[m]?) ∧
      st'.mSpikeTrain.length = st.mSpikeTrain.length := by
  have hrow : st.mSpikeTrain[n]? = some (st.mSpikeTrain[n]) := List.getElem?_eq_getElem hn
  generalize st.mSpikeTrain[n] = row at hrow
  have hcond : (∀ x ∈ row.getLast?, x < t) ↔
      (row = [] ∨ ∃ last, row.getLast? = some last ∧ last < t) := by
    rcases List.eq_nil_or_concat row with h | ⟨l, a, h⟩
    · subst h; simp
    · subst h; simp
  obtain ⟨st', h1, _, h3, h4, h5, h6⟩ := SpikeTrain.addSpikeTimeToNeuron_rows st n t row hrow
  have hlog := SpikeTrain.addSpikeTimeToNeuron_inRange st n t row hrow
  refine ⟨row, _, st', hrow, h1, h4, ?_, ?_, ?_, ?_, h6, h3⟩
  · rw [← hcond]
    constructor
    · intro h
      by_contra hc
      rw [if_neg hc] at h
      simpa using congrArg List.length h
    · intro hc
      rw [if_pos hc]
  · intro hc
    rw [hlog, if_pos (hcond.mpr hc)]
  · intro hc
    have hc' : ¬ ∀ x ∈ row.getLast?, x < t := fun h => hc (hcond.mp h)
    refine ⟨h5 hc', ?_⟩
    rw [hlog, if_neg hc']
  · split
    · exact List.prefix_append _ _
    · exact List.prefix_refl _

/-- The store with rows `[1, 2]` and `[5]`, and the call for neuron 0 at time 3. -/
theorem addSpikeTimeToNeuron_append_or_drop_witness :
    0 < (SpikeTrain.mk 2 [[1, 2], [5]]).mSpikeTrain.length ∧
    ∃ row row' st', (SpikeTrain.mk 2 [[1, 2], [5]]).mSpikeTrain[0]? = some row ∧
      ((SpikeTrain.mk 2 [[1, 2], [5]]).addSpikeTimeToNeuron 0 3).2 = some st' ∧
      st'.mSpikeTrain[0]? = some row' ∧
      (row' = row ++ [3] ↔ (row = [] ∨ ∃ last, row.getLast? = some last ∧ last < 3)) ∧
      ((row = [] ∨ ∃ last, row.getLast? = some last ∧ last < 3) →
        ((SpikeTrain.mk 2 [[1, 2], [5]]).addSpikeTimeToNeuron 0 3).1 = []) ∧
      (¬ (row = [] ∨ ∃ last, row.getLast? = some last ∧ last < 3) →
        st' = SpikeTrain.mk 2 [[1, 2], [5]] ∧
        ((SpikeTrain.mk 2 [[1, 2], [5]]).addSpikeTimeToNeuron 0 3).1
          = [Diagnostic.lastSpikeTimeNotBefore]) ∧
      row <+: row' ∧
      (∀ m, m ≠ 0 → st'.mSpikeTrain[m]? = (SpikeTrain.mk 2 [[1, 2], [5]]).mSpikeTrain[m]?) ∧
      st'.mSpikeTrain.length = (SpikeTrain.mk 2 [[1, 2], [5]]).mSpikeTrain.length :=
  ⟨by decide, addSpikeTimeToNeuron_append_or_drop (SpikeTrain.mk 2 [[1, 2], [5]]) 0 3 (by decide)⟩

/-! ### The tests written with `~` and `&` -/

theorem intCond_not_land_land (b c1 c2 : Bool) :
    intCond (Int.land (Int.land (Int.not (boolToInt b)) (boolToInt c1)) (boolToInt c2))
      = (!b && c1 && c2) := by
  cases b <;> cases c1 <;> cases c2 <;> decide!

theorem intCond_land_land (b c1 c2 : Bool) :
    intCond (Int.land (Int.land (boolToInt b) (boolToInt c1)) (boolToInt c2))
      = (b && c1 && c2) := by
  cases b <;> cases c1 <;> cases c2 <;> decide!

theorem intCond_land (b c1 : Bool) :
    intCond (Int.land (boolToInt b) (boolToInt c1)) = (b && c1) := by
  cases b <;> cases c1 <;> decide!

theorem depolarizationTest_iff (depol : Bool) (v v_1 dt : ℚ) :
    depolarizationTest depol v v_1 dt = true ↔
      depol = false ∧ v ≥ Vthresh ∧ (v - v_1) / dt > 0 := by
  unfold depolarizationTest
  rw [intCond_not_land_land]
  simp [and_assoc]

theorem repolarizationTest_iff (depol : Bool) (v v_1 dt : ℚ) :
    repolarizationTest depol v v_1 dt = true ↔
      depol = true ∧ v ≤ Vthresh ∧ (v - v_1) / dt < 0 := by
  unfold repolarizationTest
  rw [intCond_land_land]
  simp [and_assoc]

theorem episodeStartTest_iff (activePhase : Bool) (sN2 sN_1_2 dt : ℚ) :
    episodeStartTest activePhase sN2 sN_1_2 dt = true ↔
      activePhase = false ∧ sN2 ≥ thA ∧ (sN2 - sN_1_2) / dt > thDA := by
  unfold episodeStartTest
  rw [intCond_not_land_land]
  simp [and_assoc]

theorem episodeEndTest_iff (activePhase : Bool) (sN2 : ℚ) :
    episodeEndTest activePhase sN2 = true ↔ activePhase = true ∧ sN2 < thA := by
  unfold episodeEndTest
  rw [intCond_land]
  simp

/-- C5. The conditions written with `~` and `&` on the promoted `bool` and the
0/1 results of the comparisons are taken exactly when the logical conjunction
holds: `~b & c1 & c2` when `b` is false and `c1`, `c2` are true, `b & c1 & c2`
and `b & c1` when all operands are true; so each of the four tests
(depolarization, repolarization, episode start, episode end) is the conjunction
of its three (or two) conditions. -/
theorem bitwise_tests_are_conjunctions :
    (∀ b c1 c2 : Bool,
      intCond (Int.land (Int.land (Int.not (boolToInt b)) (boolToInt c1)) (boolToInt c2)) = true
        ↔ (b = false ∧ c1 = true ∧ c2 = true)) ∧
    (∀ b c1 c2 : Bool,
      intCond (Int.land (Int.land (boolToInt b) (boolToInt c1)) (boolToInt c2)) = true
        ↔ (b = true ∧ c1 = true ∧ c2 = true)) ∧
    (∀ b c1 : Bool,
      intCond (Int.land (boolToInt b) (boolToInt c1)) = true ↔ (b = true ∧ c1 = true)) ∧
    (∀ (depol : Bool) (v v_1 dt : ℚ), depolarizationTest depol v v_1 dt = true ↔
      depol = false ∧ v ≥ Vthresh ∧ (v - v_1) / dt > 0) ∧
    (∀ (depol : Bool) (v v_1 dt : ℚ), repolarizationTest depol v v_1 dt = true ↔
      depol = true ∧ v ≤ Vthresh ∧ (v - v_1) / dt < 0) ∧
    (∀ (activePhase : Bool) (sN2 sN_1_2 dt : ℚ),
      episodeStartTest activePhase sN2 sN_1_2 dt = true ↔
        activePhase = false ∧ sN2 ≥ thA ∧ (sN2 - sN_1_2) / dt > thDA) ∧
    (∀ (activePhase : Bool) (sN2 : ℚ),
      episodeEndTest activePhase sN2 = true ↔ activePhase = true ∧ sN2 < thA) := by
  refine ⟨?_, ?_, ?_, depolarizationTest_iff, repolarizationTest_iff, episodeStartTest_iff,
    episodeEndTest_iff⟩
  · intro b c1 c2
    rw [intCond_not_land_land]
    cases b <;> cases c1 <;> cases c2 <;> simp
  · intro b c1 c2
    rw [intCond_land_land]
    cases b <;> cases c1 <;> cases c2 <;> simp
  · intro b c1
    rw [intCond_land]
    cases b <;> cases c1 <;> simp

/-! ### The spike test of one neuron -/

theorem detectSpike_of_depolarized (v v_1 dt : ℚ) :
    detectSpike true v v_1 dt =
      if v ≤ Vthresh ∧ (v - v_1) / dt < 0 then (false, true) else (true, false) := by
  have h1 : depolarizationTest true v v_1 dt = false := by
    rw [Bool.eq_false_iff]
    intro h
    have := (depolarizationTest_iff _ _ _ _).mp h
    simp at this
  unfold detectSpike
  simp only [h1, Bool.false_eq_true, if_false]
  by_cases hc : v ≤ Vthresh ∧ (v - v_1) / dt < 0
  · rw [if_pos hc, if_pos ((repolarizationTest_iff _ _ _ _).mpr ⟨rfl, hc⟩)]
  · rw [if_neg hc, if_neg]
    intro h
    exact hc ((repolarizationTest_iff _ _ _ _).mp h).2

theorem detectSpike_of_quiescent (v v_1 dt : ℚ) :
    detectSpike false v v_1 dt =
      if v ≥ Vthresh ∧ (v - v_1) / dt > 0 then (true, false) else (false, false) := by
  unfold detectSpike
  by_cases hc : v ≥ Vthresh ∧ (v - v_1) / dt > 0
  · rw [if_pos hc, if_pos ((depolarizationTest_iff _ _ _ _).mpr ⟨rfl, hc⟩), if_neg]
    intro h
    have h2 := ((repolarizationTest_iff _ _ _ _).mp h).2.2
    exact absurd hc.2 (not_lt.mpr (le_of_lt h2))
  · have h1 : ¬ depolarizationTest false v v_1 dt = true := fun h =>
      hc ((depolarizationTest_iff _ _ _ _).mp h).2
    rw [if_neg hc, if_neg h1, if_neg]
    intro h
    have := ((repolarizationTest_iff _ _ _ _).mp h).1
    simp at this

theorem detectSpike_same_voltage (depol : Bool) (v dt : ℚ) :
    detectSpike depol v v dt = (depol, false) := by
  cases depol
  · rw [detectSpike_of_quiescent, if_neg]
    simp
  · rw [detectSpike_of_depolarized, if_neg]
    simp

/-! ### The counting loops -/

theorem forRange_empty {σ : Type} (body : Nat → σ → Option σ) (lo hi : Nat) (s : σ)
    (h : hi ≤ lo) : forRange body lo hi s = some s := by
  unfold forRange
  rw [Nat.sub_eq_zero_of_le h]
  rfl

theorem forRange_succ {σ : Type} (body : Nat → σ → Option σ) (lo hi : Nat) (s : σ)
    (h : lo ≤ hi) :
    forRange body lo (hi + 1) s = (forRange body lo hi s).bind (body hi) := by
  unfold forRange
  have e : hi + 1 - lo = (hi - lo) + 1 := by omega
  rw [e, List.range'_concat, List.foldlM_append]
  have e2 : lo + 1 * (hi - lo) = hi := by omega
  rw [e2]
  cases List.foldlM (fun acc n => body n acc) s (List.range' lo (hi - lo)) with
  | none => rfl
  | some r => simp [List.foldlM]

theorem List.take_succ_drop_of_lt {α : Type} (l : List α) (lo hi : Nat) (hlo : lo ≤ hi)
    (hhi : hi < l.length) :
    (l.take (hi + 1)).drop lo = (l.take hi).drop lo ++ [l[hi]] := by
  rw [List.take_succ, List.getElem?_eq_getElem hhi]
  simp only [Option.toList_some]
  rw [List.drop_append_of_le_length]
  rw [List.length_take]
  omega

/-- A loop that reads `l[n]` for `lo <= n < hi` inside the list folds its body
over that part of the list. -/
theorem forRange_read {α σ : Type} (l : List α) (g : σ → α → σ) (lo : Nat) :
    ∀ (hi : Nat) (s : σ), hi ≤ l.length →
      forRange (fun n acc => (l[n]?).map (fun x => g acc x)) lo hi s
        = some (((l.take hi).drop lo).foldl g s) := by
  intro hi
  induction hi with
  | zero =>
    intro s _
    rw [forRange_empty _ _ _ _ (Nat.zero_le _)]
    simp
  | succ k ih =>
    intro s hk
    rcases Nat.lt_or_ge k lo with hlt | hge
    · rw [forRange_empty _ _ _ _ hlt, List.drop_eq_nil_of_le]
      · rfl
      · rw [List.length_take]
        omega
    · rw [forRange_succ _ _ _ _ hge, ih s (by omega),
        List.take_succ_drop_of_lt l lo k hge (by omega)]
      simp [List.getElem?_eq_getElem (show k < l.length by omega)]

theorem sumDrive_eq (network : List NeuronState_v_n_a_s) (lo hi : Nat)
    (h : hi ≤ network.length) :
    sumDrive network lo hi
      = some (((network.take hi).drop lo).foldl (fun acc x => acc + x.x3 * x.x2) 0) :=
  forRange_read network (fun acc x => acc + x.x3 * x.x2) lo hi 0 h

theorem sumActivity_eq (network : List NeuronState_v_n_a_s) (lo hi : Nat)
    (h : hi ≤ network.length) :
    sumActivity network lo hi
      = some (((network.take hi).drop lo).foldl (fun acc x => acc + x.x2) 0) :=
  forRange_read network (fun acc x => acc + x.x2) lo hi 0 h

theorem previousMean_eq (network : List NeuronState_v_n_a_s) :
    previousMean network.length network
      = some ((network.foldl myArrayDouble4.add { x0 := 0, x1 := 0, x2 := 0, x3 := 0 }).divN
          network.length) := by
  unfold previousMean
  rw [forRange_read network (fun acc x => myArrayDouble4.add acc x) 0 network.length _
    (Nat.le_refl _)]
  simp

/-! ### The rounded product of line 313 -/

theorem roundHalfEven_le (z : ℚ) (k : Int) (h : z ≤ k) : roundHalfEven z ≤ k := by
  have hf : ⌊z⌋ ≤ k := by
    have := (Int.floor_le z).trans h
    exact_mod_cast this
  unfold roundHalfEven
  simp only
  by_cases h1 : z - ⌊z⌋ < 1 / 2
  · rw [if_pos h1]; exact hf
  · rw [if_neg h1]
    have hlt : ⌊z⌋ < k := by
      rcases lt_or_eq_of_le hf with h2 | h2
      · exact h2
      · exfalso; apply h1; rw [h2]; linarith
    split_ifs <;> omega

theorem le_roundHalfEven (z : ℚ) (k : Int) (h : (k : ℚ) ≤ z) : k ≤ roundHalfEven z := by
  have hf : k ≤ ⌊z⌋ := Int.le_floor.mpr h
  unfold roundHalfEven
  simp only
  split_ifs <;> omega

theorem log2Fuel_le (fuel n : Nat) (hn : n ≠ 0) : 2 ^ log2Fuel fuel n ≤ n := by
  induction fuel generalizing n with
  | zero => simp [log2Fuel]; omega
  | succ f ih =>
    unfold log2Fuel
    by_cases h : n < 2
    · rw [if_pos h]; simp; omega
    · rw [if_neg h]
      have := ih (n / 2) (by omega)
      rw [pow_succ]
      omega

theorem lt_log2Fuel (fuel n : Nat) (h : n ≤ fuel) : n < 2 ^ (log2Fuel fuel n + 1) := by
  induction fuel generalizing n with
  | zero => simp [log2Fuel]; omega
  | succ f ih =>
    unfold log2Fuel
    by_cases h2 : n < 2
    · rw [if_pos h2]; simp; omega
    · rw [if_neg h2]
      have := ih (n / 2) (by omega)
      rw [pow_succ]
      omega

theorem Rat.abs_eq_natAbs_div (x : ℚ) : |x| = (x.num.natAbs : ℚ) / (x.den : ℚ) := by
  have hd : (0 : ℚ) < x.den := by exact_mod_cast x.den_pos
  conv_lhs => rw [← Rat.num_div_den x]
  rw [abs_div, abs_of_pos hd]
  rw [Nat.cast_natAbs, Int.cast_abs]

theorem binaryExponent_spec (x : ℚ) (hx : x ≠ 0) :
    (2 : ℚ) ^ binaryExponent x ≤ |x| ∧ |x| < (2 : ℚ) ^ (binaryExponent x + 1) := by
  have hd : (0 : ℚ) < x.den := by exact_mod_cast x.den_pos
  have hn0 : x.num.natAbs ≠ 0 := by
    simpa using hx
  have a1 := log2Fuel_le x.num.natAbs x.num.natAbs hn0
  have a2 := lt_log2Fuel x.num.natAbs x.num.natAbs le_rfl
  have b1 := log2Fuel_le x.den x.den x.den_nz
  have b2 := lt_log2Fuel x.den x.den le_rfl
  have a1q : (2 : ℚ) ^ (log2Fuel x.num.natAbs x.num.natAbs) ≤ (x.num.natAbs : ℚ) := by
    exact_mod_cast a1
  have a2q : (x.num.natAbs : ℚ) < (2 : ℚ) ^ (log2Fuel x.num.natAbs x.num.natAbs + 1) := by
    exact_mod_cast a2
  have b1q : (2 : ℚ) ^ (log2Fuel x.den x.den) ≤ (x.den : ℚ) := by
    exact_mod_cast b1
  have b2q : (x.den : ℚ) < (2 : ℚ) ^ (log2Fuel x.den x.den + 1) := by
    exact_mod_cast b2
  have habs := Rat.abs_eq_natAbs_div x
  unfold binaryExponent
  simp only
  generalize log2Fuel x.num.natAbs x.num.natAbs = a at *
  generalize log2Fuel x.den x.den = b at *
  have h2 : (0 : ℚ) < 2 := by norm_num
  have e1 : (2 : ℚ) ^ ((a : Int) - (b : Int) - 1) = (2 : ℚ) ^ a / (2 : ℚ) ^ (b + 1) := by
    rw [show ((a : Int) - (b : Int) - 1) = (a : Int) - ((b + 1 : Nat) : Int) by push_cast; ring]
    rw [zpow_sub₀ (ne_of_gt h2), zpow_natCast, zpow_natCast]
  have e2 : (2 : ℚ) ^ ((a : Int) - (b : Int) + 1) = (2 : ℚ) ^ (a + 1) / (2 : ℚ) ^ b := by
    rw [show ((a : Int) - (b : Int) + 1) = ((a + 1 : Nat) : Int) - (b : Int) by push_cast; ring]
    rw [zpow_sub₀ (ne_of_gt h2), zpow_natCast, zpow_natCast]
  have hb0 : (0 : ℚ) < (2 : ℚ) ^ b := by positivity
  have hb1 : (0 : ℚ) < (2 : ℚ) ^ (b + 1) := by positivity
  by_cases hc : (2 : ℚ) ^ ((a : Int) - (b : Int)) ≤ |x|
  · rw [if_pos hc]
    refine ⟨hc, ?_⟩
    rw [e2, habs, div_lt_div_iff₀ hd hb0]
    calc (x.num.natAbs : ℚ) * 2 ^ b < 2 ^ (a + 1) * 2 ^ b := by
          exact mul_lt_mul_of_pos_right a2q hb0
      _ ≤ 2 ^ (a + 1) * (x.den : ℚ) := by
          exact mul_le_mul_of_nonneg_left b1q (by positivity)
  · rw [if_neg hc]
    refine ⟨?_, ?_⟩
    · rw [e1, habs, div_le_div_iff₀ hb1 hd]
      calc (2 : ℚ) ^ a * (x.den : ℚ) ≤ (x.num.natAbs : ℚ) * (x.den : ℚ) := by
            exact mul_le_mul_of_nonneg_right a1q (le_of_lt hd)
        _ ≤ (x.num.natAbs : ℚ) * 2 ^ (b + 1) := by
            exact mul_le_mul_of_nonneg_left (le_of_lt b2q) (by positivity)
    · rw [sub_add_cancel]; exact lt_of_not_le hc

theorem roundDouble_le_natCast (x : ℚ) (n : Nat) (hn : n < 2 ^ 53) (h : x ≤ n) :
    roundDouble x ≤ n := by
  unfold roundDouble
  by_cases hx : x = 0
  · rw [if_pos hx]; exact Nat.cast_nonneg n
  rw [if_neg hx]
  simp only
  generalize hq : max (binaryExponent x - 52) (-1074) = q
  have hpos : (0 : ℚ) < (2 : ℚ) ^ q := by positivity
  rcases lt_or_gt_of_ne hx with hneg | hxpos
  · have : roundHalfEven (x / (2 : ℚ) ^ q) ≤ 0 :=
      roundHalfEven_le _ 0 (by
        have := div_neg_of_neg_of_pos hneg hpos
        push_cast; linarith)
    have h0 : ((roundHalfEven (x / (2 : ℚ) ^ q) : Int) : ℚ) ≤ 0 := by exact_mod_cast this
    have := mul_nonpos_of_nonpos_of_nonneg h0 (le_of_lt hpos)
    exact this.trans (Nat.cast_nonneg n)
  · have hs := (binaryExponent_spec x hx).1
    rw [abs_of_pos hxpos] at hs
    have hlt : (2 : ℚ) ^ binaryExponent x < (2 : ℚ) ^ (53 : Int) := by
      calc (2 : ℚ) ^ binaryExponent x ≤ x := hs
        _ ≤ n := h
        _ < (2 : ℚ) ^ (53 : Int) := by
          have : (n : ℚ) < (2 : ℚ) ^ (53 : Nat) := by exact_mod_cast hn
          rw [show (53 : Int) = ((53 : Nat) : Int) from rfl, zpow_natCast]
          exact this
    have he : binaryExponent x < 53 := (zpow_lt_zpow_iff_right₀ (by norm_num)).mp hlt
    have hq0 : q ≤ 0 := by rw [← hq]; exact max_le (by omega) (by norm_num)
    obtain ⟨m, hm⟩ : ∃ m : Nat, q = -(m : Int) := ⟨(-q).toNat, by omega⟩
    have hk : (n : ℚ) / (2 : ℚ) ^ q = ((n * 2 ^ m : Nat) : Int) := by
      rw [hm, zpow_neg, zpow_natCast]; push_cast; field_simp
    have hr := roundHalfEven_le (x / (2 : ℚ) ^ q) ((n * 2 ^ m : Nat) : Int) (by
      rw [← hk]; exact div_le_div_of_nonneg_right h (le_of_lt hpos))
    have hr' : ((roundHalfEven (x / (2 : ℚ) ^ q) : Int) : ℚ) ≤ (((n * 2 ^ m : Nat) : Int) : ℚ) := by
      exact_mod_cast hr
    calc ((roundHalfEven (x / (2 : ℚ) ^ q) : Int) : ℚ) * (2 : ℚ) ^ q
        ≤ (((n * 2 ^ m : Nat) : Int) : ℚ) * (2 : ℚ) ^ q :=
          mul_le_mul_of_nonneg_right hr' (le_of_lt hpos)
      _ = n := by rw [← hk]; field_simp

theorem natCast_le_roundDouble (x : ℚ) (n : Nat) (hx53 : x < 2 ^ 53) (h : (n : ℚ) ≤ x) :
    (n : ℚ) ≤ roundDouble x := by
  unfold roundDouble
  by_cases hx : x = 0
  · rw [if_pos hx]; rw [hx] at h; exact h
  rw [if_neg hx]
  simp only
  generalize hq : max (binaryExponent x - 52) (-1074) = q
  have hpos : (0 : ℚ) < (2 : ℚ) ^ q := by positivity
  have hxpos : 0 < x := lt_of_le_of_ne ((Nat.cast_nonneg n).trans h) (Ne.symm hx)
  have hs := (binaryExponent_spec x hx).1
  rw [abs_of_pos hxpos] at hs
  have hlt : (2 : ℚ) ^ binaryExponent x < (2 : ℚ) ^ (53 : Int) := by
    calc (2 : ℚ) ^ binaryExponent x ≤ x := hs
      _ < (2 : ℚ) ^ (53 : Int) := by
        rw [show (53 : Int) = ((53 : Nat) : Int) from rfl, zpow_natCast]
        exact hx53
  have he : binaryExponent x < 53 := (zpow_lt_zpow_iff_right₀ (by norm_num)).mp hlt
  have hq0 : q ≤ 0 := by rw [← hq]; exact max_le (by omega) (by norm_num)
  obtain ⟨m, hm⟩ : ∃ m : Nat, q = -(m : Int) := ⟨(-q).toNat, by omega⟩
  have hk : (n : ℚ) / (2 : ℚ) ^ q = ((n * 2 ^ m : Nat) : Int) := by
    rw [hm, zpow_neg, zpow_natCast]; push_cast; field_simp
  have hr := le_roundHalfEven (x / (2 : ℚ) ^ q) ((n * 2 ^ m : Nat) : Int) (by
    rw [← hk]; exact div_le_div_of_nonneg_right h (le_of_lt hpos))
  have hr' : (((n * 2 ^ m : Nat) : Int) : ℚ) ≤ ((roundHalfEven (x / (2 : ℚ) ^ q) : Int) : ℚ) := by
    exact_mod_cast hr
  calc (n : ℚ) = (((n * 2 ^ m : Nat) : Int) : ℚ) * (2 : ℚ) ^ q := by rw [← hk]; field_simp
    _ ≤ ((roundHalfEven (x / (2 : ℚ) ^ q) : Int) : ℚ) * (2 : ℚ) ^ q :=
        mul_le_mul_of_nonneg_right hr' (le_of_lt hpos)

theorem toInt_eq (n : Nat) (h : n < 2 ^ 31) : toInt n = (n : Int) := by
  unfold toInt UINT_SIZE
  have e : n % 2 ^ 32 = n := Nat.mod_eq_of_lt (by omega)
  rw [e, if_pos h]

theorem Config.nExcNeurons_eq (cfg : Config) :
    cfg.nExcNeurons = ⌊roundDouble ((cfg.nNeurons : ℚ) * cfg.pExcNeurons)⌋.toNat := by
  unfold Config.nExcNeurons toUnsigned
  rw [toInt_eq _ cfg.nNeurons_int, Int.cast_natCast]

theorem Config.nExcNeurons_le (cfg : Config) (hp : cfg.pExcNeurons ≤ 1) :
    cfg.nExcNeurons ≤ cfg.nNeurons := by
  rw [cfg.nExcNeurons_eq]
  have h1 : (cfg.nNeurons : ℚ) * cfg.pExcNeurons ≤ (cfg.nNeurons : ℚ) := by
    have hN : (0 : ℚ) ≤ (cfg.nNeurons : ℚ) := Nat.cast_nonneg _
    nlinarith
  have h53 : cfg.nNeurons < 2 ^ 53 := by
    have := cfg.nNeurons_int
    omega
  have h2 := roundDouble_le_natCast _ cfg.nNeurons h53 h1
  have h3 : ⌊roundDouble ((cfg.nNeurons : ℚ) * cfg.pExcNeurons)⌋ ≤ (cfg.nNeurons : ℤ) := by
    have := (Int.floor_le _).trans h2
    exact_mod_cast this
  omega

theorem roundDouble_natCast (n : Nat) (hn : n < 2 ^ 53) : roundDouble (n : ℚ) = (n : ℚ) := by
  apply le_antisymm
  · exact roundDouble_le_natCast _ n hn le_rfl
  · exact natCast_le_roundDouble _ n (by exact_mod_cast hn) le_rfl

theorem Config.nExcNeurons_of_one (cfg : Config) (hp : cfg.pExcNeurons = 1) :
    cfg.nExcNeurons = cfg.nNeurons := by
  have h53 : cfg.nNeurons < 2 ^ 53 := by
    have := cfg.nNeurons_int
    omega
  rw [cfg.nExcNeurons_eq, hp, mul_one, roundDouble_natCast _ h53, Int.floor_natCast,
    Int.toNat_ofNat]

theorem Config.nInhNeurons_eq (cfg : Config) (hp : cfg.pExcNeurons ≤ 1) :
    cfg.nInhNeurons = cfg.nNeurons - cfg.nExcNeurons := by
  have hle := cfg.nExcNeurons_le hp
  have hN := cfg.nNeurons_int
  unfold Config.nInhNeurons
  have e : cfg.nNeurons + UINT_SIZE - cfg.nExcNeurons
      = (cfg.nNeurons - cfg.nExcNeurons) + UINT_SIZE := by omega
  rw [e, Nat.add_mod_right]
  exact Nat.mod_eq_of_lt (by unfold UINT_SIZE; omega)

/-! ### The loop over the neurons -/

theorem List.take_succ_set_self {α : Type} (l : List α) (k : Nat) (a : α) (hk : k < l.length) :
    (l.set k a).take (k + 1) = l.take k ++ [a] := by
  rw [List.take_succ, List.getElem?_set_self hk]
  simp only [Option.toList_some]
  congr 1
  apply List.ext_getElem?
  intro i
  rw [List.getElem?_take, List.getElem?_take]
  split
  · next h => rw [List.getElem?_set_ne (by omega)]
  · rfl

/-- The store the body of the neuron loop works with after the spike test. -/
theorem neuronBody_store (st : SpikeTrain) (k : Nat) (t : ℚ) (call : Bool) (row : List ℚ)
    (hrow : st.mSpikeTrain[k]? = some row) :
    ∃ st', (if call then (st.addSpikeTimeToNeuron k t).2 else some st) = some st' ∧
      st'.nNeurons = st.nNeurons ∧
      st'.mSpikeTrain.length = st.mSpikeTrain.length ∧
      st'.mSpikeTrain[k]? =
        some (if call = true ∧ ∀ y ∈ row.getLast?, y < t then row ++ [t] else row) ∧
      ∀ m, m ≠ k → st'.mSpikeTrain[m]? = st.mSpikeTrain[m]? := by
  cases call with
  | false => exact ⟨st, by simp, rfl, rfl, by simpa using hrow, fun _ _ => rfl⟩
  | true =>
    obtain ⟨st', h1, h2, h3, h4, _, h6⟩ := SpikeTrain.addSpikeTimeToNeuron_rows st k t row hrow
    exact ⟨st', by simpa using h1, h2, h3, by simpa using h4, h6⟩

/-- The state of the neuron loop after the neurons below `k`: these hold their
new state, flag and spike row, the others are untouched, and `sN` has
accumulated the new states. -/
theorem neuronLoop_prefix (do_step : Stepper) (cfg : Config) (atotExc atotInh t : ℚ)
    (ls0 : NeuronLoopState) (N : Nat) (h1 : ls0.network.length = N)
    (h2 : ls0.depolarization.length = N) (h3 : ls0.mSpikeTrain.mSpikeTrain.length = N) :
    ∀ k, k ≤ N → ∃ ls,
      forRange (neuronBody do_step cfg atotExc atotInh t) 0 k ls0 = some ls ∧
      ls.network.length = N ∧ ls.depolarization.length = N ∧
      ls.mSpikeTrain.mSpikeTrain.length = N ∧
      ls.mSpikeTrain.nNeurons = ls0.mSpikeTrain.nNeurons ∧
      (∀ n, k ≤ n → ls.network[n]? = ls0.network[n]? ∧
        ls.depolarization[n]? = ls0.depolarization[n]? ∧
        ls.mSpikeTrain.mSpikeTrain[n]? = ls0.mSpikeTrain.mSpikeTrain[n]?) ∧
      (∀ n, n < k → ∀ x d row, ls0.network[n]? = some x → ls0.depolarization[n]? = some d →
        ls0.mSpikeTrain.mSpikeTrain[n]? = some row →
        ls.network[n]? = some (integrateNeuron do_step cfg atotExc atotInh t n x) ∧
        ls.depolarization[n]? = some
          (detectSpike d (integrateNeuron do_step cfg atotExc atotInh t n x).x0 x.x0 cfg.dt).1 ∧
        ls.mSpikeTrain.mSpikeTrain[n]? = some
          (if (detectSpike d (integrateNeuron do_step cfg atotExc atotInh t n x).x0 x.x0
                cfg.dt).2 = true ∧ ∀ y ∈ row.getLast?, y < t
            then row ++ [t] else row)) ∧
      ls.sN = (ls.network.take k).foldl myArrayDouble4.add ls0.sN := by
  intro k
  induction k with
  | zero =>
    intro _
    refine ⟨ls0, forRange_empty _ _ _ _ (Nat.le_refl _), h1, h2, h3, rfl,
      fun n _ => ⟨rfl, rfl, rfl⟩, fun n hn => absurd hn (Nat.not_lt_zero n), by simp⟩
  | succ k ih =>
    intro hk
    obtain ⟨ls, hrun, l1, l2, l3, l4, htodo, hdone, hsN⟩ := ih (by omega)
    have hkN : k < N := by omega
    obtain ⟨e1, e2, e3⟩ := htodo k (Nat.le_refl k)
    have hx : ls.network[k]? = some (ls.network[k]) := List.getElem?_eq_getElem (by omega)
    have hd : ls.depolarization[k]? = some (ls.depolarization[k]) :=
      List.getElem?_eq_getElem (by omega)
    have hr : ls.mSpikeTrain.mSpikeTrain[k]? = some (ls.mSpikeTrain.mSpikeTrain[k]) :=
      List.getElem?_eq_getElem (by omega)
    generalize ls.network[k] = x at hx
    generalize ls.depolarization[k] = d at hd
    generalize ls.mSpikeTrain.mSpikeTrain[k] = row at hr
    obtain ⟨st', s1, s2, s3, s4, s5⟩ := neuronBody_store ls.mSpikeTrain k t
      (detectSpike d (integrateNeuron do_step cfg atotExc atotInh t k x).x0 x.x0 cfg.dt).2 row hr
    have hbody : neuronBody do_step cfg atotExc atotInh t k ls = some
        { network := ls.network.set k (integrateNeuron do_step cfg atotExc atotInh t k x)
          depolarization := ls.depolarization.set k
            (detectSpike d (integrateNeuron do_step cfg atotExc atotInh t k x).x0 x.x0 cfg.dt).1
          mSpikeTrain := st'
          sN := ls.sN.add (integrateNeuron do_step cfg atotExc atotInh t k x) } := by
      unfold neuronBody
      simp only [hx, hd]
      rw [s1]
    refine ⟨{ network := ls.network.set k (integrateNeuron do_step cfg atotExc atotInh t k x)
              depolarization := ls.depolarization.set k
                (detectSpike d (integrateNeuron do_step cfg atotExc atotInh t k x).x0 x.x0
                  cfg.dt).1
              mSpikeTrain := st'
              sN := ls.sN.add (integrateNeuron do_step cfg atotExc atotInh t k x) },
      ?_, ?_, ?_, ?_, ?_, ?_, ?_, ?_⟩
    · rw [forRange_succ _ _ _ _ (Nat.zero_le k), hrun]
      exact hbody
    · simp [l1]
    · simp [l2]
    · exact s3.trans l3
    · exact s2.trans l4
    · intro n hn
      have hne : k ≠ n := by omega
      obtain ⟨t1, t2, t3⟩ := htodo n (by omega)
      refine ⟨?_, ?_, ?_⟩
      · simp only [List.getElem?_set_ne hne, t1]
      · simp only [List.getElem?_set_ne hne, t2]
      · rw [s5 n (Ne.symm hne), t3]
    · intro n hn x0 d0 row0 hx0 hd0 hrow0
      rcases Nat.lt_or_ge n k with hlt | hge
      · have hne : k ≠ n := by omega
        obtain ⟨t1, t2, t3⟩ := hdone n hlt x0 d0 row0 hx0 hd0 hrow0
        refine ⟨?_, ?_, ?_⟩
        · simp only [List.getElem?_set_ne hne, t1]
        · simp only [List.getElem?_set_ne hne, t2]
        · rw [s5 n (Ne.symm hne), t3]
      · have hnk : n = k := by omega
        subst hnk
        rw [e1] at hx
        rw [e2] at hd
        rw [e3] at hr
        rw [hx0, Option.some.injEq] at hx
        rw [hd0, Option.some.injEq] at hd
        rw [hrow0, Option.some.injEq] at hr
        subst hx hd hr
        refine ⟨?_, ?_, s4⟩
        · simp only [List.getElem?_set_self (show n < ls.network.length by omega)]
        · simp only [List.getElem?_set_self (show n < ls.depolarization.length by omega)]
    · simp only
      rw [List.take_succ_set_self _ _ _ (by omega), List.foldl_append, ← hsN]
      rfl

/-! ### One execution of the loop body -/

/-- The body of the simulation loop on a state whose arrays have `nNeurons`
entries: it returns a state, and every part of that state is described from
the state before. -/
theorem step_spec (do_step : Stepper) (cfg : Config) (s : SimState) (hwf : s.wf cfg)
    (hp : cfg.pExcNeurons ≤ 1) :
    ∃ atotExc atotInh sN_1 actTotalExc actTotalInh s',
      step do_step cfg s = some s' ∧
      sumDrive s.network 0 cfg.nExcNeurons = some atotExc ∧
      sumDrive s.network cfg.nExcNeurons cfg.nNeurons = some atotInh ∧
      previousMean cfg.nNeurons s.network = some sN_1 ∧
      s'.wf cfg ∧
      s'.t = s.t + cfg.dt ∧
      s'.ave = s.ave ++
        [(s'.network.foldl myArrayDouble4.add { x0 := 0, x1 := 0, x2 := 0, x3 := 0 }).divN
          cfg.nNeurons] ∧
      sumActivity s'.network 0 cfg.nExcNeurons = some actTotalExc ∧
      sumActivity s'.network cfg.nExcNeurons cfg.nNeurons = some actTotalInh ∧
      EpisodeState.mk s'.activePhase s'.burstCount s'.networkOutputs =
        detectEpisode (EpisodeState.mk s.activePhase s.burstCount s.networkOutputs)
          ((s'.network.foldl myArrayDouble4.add { x0 := 0, x1 := 0, x2 := 0, x3 := 0 }).divN
            cfg.nNeurons).x2
          sN_1.x2 s.t cfg.dt
          (actTotalExc / (cfg.nExcNeurons : ℚ)) (actTotalInh / (cfg.nInhNeurons : ℚ)) ∧
      s'.mSpikeTrain.nNeurons = s.mSpikeTrain.nNeurons ∧
      ∀ n x d row, s.network[n]? = some x → s.depolarization[n]? = some d →
        s.mSpikeTrain.mSpikeTrain[n]? = some row →
        s'.network[n]? = some (integrateNeuron do_step cfg atotExc atotInh s.t n x) ∧
        s'.depolarization[n]? = some
          (detectSpike d (integrateNeuron do_step cfg atotExc atotInh s.t n x).x0 x.x0
            cfg.dt).1 ∧
        s'.mSpikeTrain.mSpikeTrain[n]? = some
          (if (detectSpike d (integrateNeuron do_step cfg atotExc atotInh s.t n x).x0 x.x0
                cfg.dt).2 = true ∧ ∀ y ∈ row.getLast?, y < s.t
            then row ++ [s.t] else row) := by
  obtain ⟨w1, w2, w3⟩ := hwf
  have hle := cfg.nExcNeurons_le hp
  obtain ⟨atotExc, a1⟩ : ∃ v, sumDrive s.network 0 cfg.nExcNeurons = some v :=
    ⟨_, sumDrive_eq s.network 0 cfg.nExcNeurons (by omega)⟩
  obtain ⟨atotInh, a2⟩ : ∃ v, sumDrive s.network cfg.nExcNeurons cfg.nNeurons = some v :=
    ⟨_, sumDrive_eq s.network cfg.nExcNeurons cfg.nNeurons (by omega)⟩
  obtain ⟨sN_1, a3⟩ : ∃ v, previousMean cfg.nNeurons s.network = some v := by
    rw [← w1]
    exact ⟨_, previousMean_eq s.network⟩
  obtain ⟨ls, hrun, l1, l2, l3, l4, _, hdone, hsN⟩ :=
    neuronLoop_prefix do_step cfg atotExc atotInh s.t
      { network := s.network
        depolarization := s.depolarization
        mSpikeTrain := s.mSpikeTrain
        sN := { x0 := 0, x1 := 0, x2 := 0, x3 := 0 } }
      cfg.nNeurons w1 w2 w3 cfg.nNeurons (Nat.le_refl _)
  obtain ⟨actTotalExc, b1⟩ : ∃ v, sumActivity ls.network 0 cfg.nExcNeurons = some v :=
    ⟨_, sumActivity_eq ls.network 0 cfg.nExcNeurons (by omega)⟩
  obtain ⟨actTotalInh, b2⟩ :
      ∃ v, sumActivity ls.network cfg.nExcNeurons cfg.nNeurons = some v :=
    ⟨_, sumActivity_eq ls.network cfg.nExcNeurons cfg.nNeurons (by omega)⟩
  have hsN' : ls.sN =
      ls.network.foldl myArrayDouble4.add { x0 := 0, x1 := 0, x2 := 0, x3 := 0 } := by
    rw [hsN, List.take_of_length_le (by omega)]
  refine ⟨atotExc, atotInh, sN_1, actTotalExc, actTotalInh, ?_⟩
  unfold step
  simp only [a1, a2, a3, hrun, b1, b2]
  refine ⟨_, rfl, trivial, trivial, trivial, ⟨l1, l2, l3⟩, rfl, ?_, b1, b2, ?_, l4, ?_⟩
  · simp only [hsN']
  · simp only [hsN']
  · intro n x d row hx hd hrow
    rcases Nat.lt_or_ge n cfg.nNeurons with hn | hn
    · exact hdone n hn x d row hx hd hrow
    · rw [List.getElem?_eq_none (by omega)] at hx
      cases hx

/-! ### SpikeDetector -/

theorem SimState.wf_getElem? (cfg : Config) (s : SimState) (hwf : s.wf cfg) (n : Nat)
    (hn : n < cfg.nNeurons) :
    ∃ x d row, s.network[n]? = some x ∧ s.depolarization[n]? = some d ∧
      s.mSpikeTrain.mSpikeTrain[n]? = some row := by
  obtain ⟨w1, w2, w3⟩ := hwf
  exact ⟨_, _, _, List.getElem?_eq_getElem (by omega), List.getElem?_eq_getElem (by omega),
    List.getElem?_eq_getElem (by omega)⟩

/-- One step, seen from neuron `n`: its new state, and its flag and spike row
as the spike test on the old and new voltage leaves them. -/
theorem step_neuron (do_step : Stepper) (cfg : Config) (s : SimState) (n : Nat)
    (hwf : s.wf cfg) (hp : cfg.pExcNeurons ≤ 1) (hn : n < cfg.nNeurons) :
    ∃ s' x x' d row, step do_step cfg s = some s' ∧ s'.wf cfg ∧
      s.network[n]? = some x ∧ s'.network[n]? = some x' ∧
      s.depolarization[n]? = some d ∧
      s'.depolarization[n]? = some (detectSpike d x'.x0 x.x0 cfg.dt).1 ∧
      s.mSpikeTrain.mSpikeTrain[n]? = some row ∧
      s'.mSpikeTrain.mSpikeTrain[n]? = some
        (if (detectSpike d x'.x0 x.x0 cfg.dt).2 = true ∧ ∀ y ∈ row.getLast?, y < s.t
          then row ++ [s.t] else row) := by
  obtain ⟨x, d, row, hx, hd, hrow⟩ := SimState.wf_getElem? cfg s hwf n hn
  obtain ⟨atotExc, atotInh, _, _, _, s', h1, _, _, _, h5, _, _, _, _, _, _, h12⟩ :=
    step_spec do_step cfg s hwf hp
  obtain ⟨n1, n2, n3⟩ := h12 n x d row hx hd hrow
  exact ⟨s', x, _, d, row, h1, h5, hx, n1, hd, n2, hrow, n3⟩

/-- C3. In a step, for every neuron `n` whose flag is set before the spike
test, the flag is cleared if and only if the new voltage is at most `Vthresh`
and the slope `(v_new - v_old)/dt` is negative; and for every neuron, the call
`addSpikeTimeToNeuron(n, t)` with the time `t` of the step is made exactly in
that case: then the spike row of `n` after the step is the one the call leaves
on the store of before the step, otherwise the row is the old one. -/
theorem repolarization_rule (do_step : Stepper) (cfg : Config) (s : SimState) (n : Nat)
    (hwf : s.wf cfg) (hp : cfg.pExcNeurons ≤ 1) (hn : n < cfg.nNeurons) :
    ∃ s' x x' d d' row row', step do_step cfg s = some s' ∧
      s.network[n]? = some x ∧ s'.network[n]? = some x' ∧
      s.depolarization[n]? = some d ∧ s'.depolarization[n]? = some d' ∧
      s.mSpikeTrain.mSpikeTrain[n]? = some row ∧
      s'.mSpikeTrain.mSpikeTrain[n]? = some row' ∧
      (d = true → (d' = false ↔ x'.x0 ≤ Vthresh ∧ (x'.x0 - x.x0) / cfg.dt < 0)) ∧
      ((d = true ∧ d' = false) →
        ∃ st, (s.mSpikeTrain.addSpikeTimeToNeuron n s.t).2 = some st ∧
          st.mSpikeTrain[n]? = some row') ∧
      (¬ (d = true ∧ d' = false) → row' = row) := by
  obtain ⟨s', x, x', d, row, h1, _, hx, hx', hd, hd', hrow, hrow'⟩ :=
    step_neuron do_step cfg s n hwf hp hn
  refine ⟨s', x, x', d, _, row, _, h1, hx, hx', hd, hd', hrow, hrow', ?_, ?_, ?_⟩
  · intro hdt
    subst hdt
    rw [detectSpike_of_depolarized]
    by_cases hc : x'.x0 ≤ Vthresh ∧ (x'.x0 - x.x0) / cfg.dt < 0
    · simp [hc]
    · simp [hc]
  · rintro ⟨hdt, hd2⟩
    subst hdt
    rw [detectSpike_of_depolarized] at hd2 ⊢
    by_cases hc : x'.x0 ≤ Vthresh ∧ (x'.x0 - x.x0) / cfg.dt < 0
    · obtain ⟨st, e1, _, _, e4, _, _⟩ :=
        SpikeTrain.addSpikeTimeToNeuron_rows s.mSpikeTrain n s.t row hrow
      refine ⟨st, e1, ?_⟩
      rw [e4]
      simp [hc]
    · rw [if_neg hc] at hd2
      cases hd2
  · intro hnot
    cases d with
    | false =>
      rw [detectSpike_of_quiescent]
      by_cases hc : x'.x0 ≥ Vthresh ∧ (x'.x0 - x.x0) / cfg.dt > 0
      · simp [hc]
      · simp [hc]
    | true =>
      rw [detectSpike_of_depolarized] at hnot ⊢
      by_cases hc : x'.x0 ≤ Vthresh ∧ (x'.x0 - x.x0) / cfg.dt < 0
      · rw [if_pos hc] at hnot
        exact absurd ⟨rfl, rfl⟩ hnot
      · simp [hc]

/-- One neuron with its flag set, whose voltage falls from 41 to 39. -/
theorem repolarization_rule_witness :
    (exampleState true 41 false).wf exampleConfig ∧ exampleConfig.pExcNeurons ≤ 1 ∧
    0 < exampleConfig.nNeurons ∧
    ∃ s' x x' d d' row row',
      step (exampleVoltage 39) exampleConfig (exampleState true 41 false) = some s' ∧
      (exampleState true 41 false).network[0]? = some x ∧ s'.network[0]? = some x' ∧
      (exampleState true 41 false).depolarization[0]? = some d ∧
      s'.depolarization[0]? = some d' ∧
      (exampleState true 41 false).mSpikeTrain.mSpikeTrain[0]? = some row ∧
      s'.mSpikeTrain.mSpikeTrain[0]? = some row' ∧
      (d = true → (d' = false ↔ x'.x0 ≤ Vthresh ∧ (x'.x0 - x.x0) / exampleConfig.dt < 0)) ∧
      ((d = true ∧ d' = false) →
        ∃ st, ((exampleState true 41 false).mSpikeTrain.addSpikeTimeToNeuron 0
            (exampleState true 41 false).t).2 = some st ∧
          st.mSpikeTrain[0]? = some row') ∧
      (¬ (d = true ∧ d' = false) → row' = row) :=
  ⟨⟨rfl, rfl, rfl⟩, by decide!, by decide,
    repolarization_rule (exampleVoltage 39) exampleConfig (exampleState true 41 false) 0
      ⟨rfl, rfl, rfl⟩ (by decide!) (by decide)⟩

/-- C4, as stated, fails at the threshold itself: with the flag clear, the old
voltage 39 and the new voltage exactly `Vthresh = 40`, the step sets the flag
although the new voltage does not exceed the threshold. -/
theorem strict_threshold_counterexample :
    (exampleState false 39 false).depolarization = [false] ∧
    (step (exampleVoltage 40) exampleConfig (exampleState false 39 false)).map
        (fun s' => (s'.network.map (fun x => x.x0), s'.depolarization))
      = some ([40], [true]) ∧
    ¬ ((40 : ℚ) > Vthresh ∧ ((40 : ℚ) - 39) / exampleConfig.dt > 0) := by
  refine ⟨rfl, ?_, ?_⟩
  · decide!
  · decide!

/-- C4, amended. In a step, for every neuron `n` whose flag is clear before the
spike test, the flag is set if and only if the new voltage is at least
`Vthresh` (equality included) and the slope `(v_new - v_old)/dt` is positive;
and in a step where the flag goes from clear to set the spike row of the
neuron is unchanged. -/
theorem depolarization_rule (do_step : Stepper) (cfg : Config) (s : SimState) (n : Nat)
    (hwf : s.wf cfg) (hp : cfg.pExcNeurons ≤ 1) (hn : n < cfg.nNeurons) :
    ∃ s' x x' d d' row row', step do_step cfg s = some s' ∧
      s.network[n]? = some x ∧ s'.network[n]? = some x' ∧
      s.depolarization[n]? = some d ∧ s'.depolarization[n]? = some d' ∧
      s.mSpikeTrain.mSpikeTrain[n]? = some row ∧
      s'.mSpikeTrain.mSpikeTrain[n]? = some row' ∧
      (d = false → (d' = true ↔ x'.x0 ≥ Vthresh ∧ (x'.x0 - x.x0) / cfg.dt > 0)) ∧
      ((d = false ∧ d' = true) → row' = row) := by
  obtain ⟨s', x, x', d, row, h1, _, hx, hx', hd, hd', hrow, hrow'⟩ :=
    step_neuron do_step cfg s n hwf hp hn
  refine ⟨s', x, x', d, _, row, _, h1, hx, hx', hd, hd', hrow, hrow', ?_, ?_⟩
  · intro hdf
    subst hdf
    rw [detectSpike_of_quiescent]
    by_cases hc : x'.x0 ≥ Vthresh ∧ (x'.x0 - x.x0) / cfg.dt > 0
    · simp [hc]
    · simp [hc]
  · rintro ⟨hdf, _⟩
    subst hdf
    rw [detectSpike_of_quiescent]
    by_cases hc : x'.x0 ≥ Vthresh ∧ (x'.x0 - x.x0) / cfg.dt > 0
    · simp [hc]
    · simp [hc]

/-- One neuron with its flag clear, whose voltage rises from 39 to 40. -/
theorem depolarization_rule_witness :
    (exampleState false 39 false).wf exampleConfig ∧ exampleConfig.pExcNeurons ≤ 1 ∧
    0 < exampleConfig.nNeurons ∧
    ∃ s' x x' d d' row row',
      step (exampleVoltage 40) exampleConfig (exampleState false 39 false) = some s' ∧
      (exampleState false 39 false).network[0]? = some x ∧ s'.network[0]? = some x' ∧
      (exampleState false 39 false).depolarization[0]? = some d ∧
      s'.depolarization[0]? = some d' ∧
      (exampleState false 39 false).mSpikeTrain.mSpikeTrain[0]? = some row ∧
      s'.mSpikeTrain.mSpikeTrain[0]? = some row' ∧
      (d = false → (d' = true ↔ x'.x0 ≥ Vthresh ∧ (x'.x0 - x.x0) / exampleConfig.dt > 0)) ∧
      ((d = false ∧ d' = true) → row' = row) :=
  ⟨⟨rfl, rfl, rfl⟩, by decide!, by decide,
    depolarization_rule (exampleVoltage 40) exampleConfig (exampleState false 39 false) 0
      ⟨rfl, rfl, rfl⟩ (by decide!) (by decide)⟩

/-! ### Runs of the loop -/

theorem whileIter_wf (do_step : Stepper) (cfg : Config) (s : SimState) (hwf : s.wf cfg)
    (hp : cfg.pExcNeurons ≤ 1) :
    ∃ s', whileIter do_step cfg s = some s' ∧ s'.wf cfg := by
  unfold whileIter
  by_cases hc : loopCond cfg s = true
  · rw [if_pos hc]
    obtain ⟨_, _, _, _, _, s', h1, _, _, _, h5, _⟩ := step_spec do_step cfg s hwf hp
    exact ⟨s', h1, h5⟩
  · rw [if_neg hc]
    exact ⟨s, rfl, hwf⟩

theorem iterLoop_succ_of_some (do_step : Stepper) (cfg : Config) (s0 sk : SimState) (k : Nat)
    (h : iterLoop do_step cfg k s0 = some sk) :
    iterLoop do_step cfg (k + 1) s0 = whileIter do_step cfg sk := by
  show (iterLoop do_step cfg k s0).bind (whileIter do_step cfg) = _
  rw [h]
  rfl

theorem iterLoop_wf (do_step : Stepper) (cfg : Config) (s0 : SimState) (hwf : s0.wf cfg)
    (hp : cfg.pExcNeurons ≤ 1) :
    ∀ k, ∃ sk, iterLoop do_step cfg k s0 = some sk ∧ sk.wf cfg := by
  intro k
  induction k with
  | zero => exact ⟨s0, rfl, hwf⟩
  | succ k ih =>
    obtain ⟨sk, h1, h2⟩ := ih
    obtain ⟨s', h3, h4⟩ := whileIter_wf do_step cfg sk h2 hp
    exact ⟨s', (iterLoop_succ_of_some do_step cfg s0 sk k h1).trans h3, h4⟩

theorem step_same_voltage (do_step : Stepper) (cfg : Config) (s : SimState) (n : Nat)
    (hwf : s.wf cfg) (hp : cfg.pExcNeurons ≤ 1) (hn : n < cfg.nNeurons) :
    ∃ s', step do_step cfg s = some s' ∧
      ((s'.network[n]?).map (fun x => x.x0) = (s.network[n]?).map (fun x => x.x0) →
        s'.depolarization[n]? = s.depolarization[n]? ∧
        s'.mSpikeTrain.mSpikeTrain[n]? = s.mSpikeTrain.mSpikeTrain[n]?) := by
  obtain ⟨s', x, x', d, row, h1, _, hx, hx', hd, hd', hrow, hrow'⟩ :=
    step_neuron do_step cfg s n hwf hp hn
  refine ⟨s', h1, ?_⟩
  intro hv
  rw [hx, hx'] at hv
  simp only [Option.map_some', Option.some.injEq] at hv
  rw [hv, detectSpike_same_voltage] at hd' hrow'
  rw [hd, hd', hrow, hrow']
  simp

/-- C6. A step that leaves the voltage of neuron `n` as it was leaves its flag
and its spike row as they were, whatever the flag and the voltage are; and in a
run of the loop in which the voltage of neuron `n` is the same after each of
the first `k` evaluations as before it, the flag and the spike row of `n` are,
after each of them, those of the start. -/
theorem constant_voltage_no_transition (do_step : Stepper) (cfg : Config) (s0 : SimState)
    (n k : Nat) (hwf : s0.wf cfg) (hp : cfg.pExcNeurons ≤ 1) (hn : n < cfg.nNeurons)
    (hconst : ∀ j < k,
      (iterLoop do_step cfg (j + 1) s0).bind (fun a => (a.network[n]?).map (fun x => x.x0))
        = (iterLoop do_step cfg j s0).bind (fun a => (a.network[n]?).map (fun x => x.x0))) :
    (∃ s', step do_step cfg s0 = some s' ∧
      ((s'.network[n]?).map (fun x => x.x0) = (s0.network[n]?).map (fun x => x.x0) →
        s'.depolarization[n]? = s0.depolarization[n]? ∧
        s'.mSpikeTrain.mSpikeTrain[n]? = s0.mSpikeTrain.mSpikeTrain[n]?)) ∧
    ∀ j ≤ k, ∃ sj, iterLoop do_step cfg j s0 = some sj ∧
      sj.depolarization[n]? = s0.depolarization[n]? ∧
      sj.mSpikeTrain.mSpikeTrain[n]? = s0.mSpikeTrain.mSpikeTrain[n]? := by
  refine ⟨step_same_voltage do_step cfg s0 n hwf hp hn, ?_⟩
  intro j
  induction j with
  | zero => intro _; exact ⟨s0, rfl, rfl, rfl⟩
  | succ j ih =>
    intro hj
    obtain ⟨sj, e1, e2, e3⟩ := ih (by omega)
    obtain ⟨sj', w1, w2⟩ := iterLoop_wf do_step cfg s0 hwf hp j
    rw [e1, Option.some.injEq] at w1
    subst w1
    have hc := hconst j (by omega)
    have hnext : iterLoop do_step cfg (j + 1) s0 = whileIter do_step cfg sj :=
      iterLoop_succ_of_some do_step cfg s0 sj j e1
    rw [hnext, e1] at hc
    rw [hnext]
    unfold whileIter at hc ⊢
    by_cases hl : loopCond cfg sj = true
    · rw [if_pos hl] at hc ⊢
      obtain ⟨s', f1, f2⟩ := step_same_voltage do_step cfg sj n w2 hp hn
      rw [f1] at hc
      obtain ⟨g1, g2⟩ := f2 hc
      exact ⟨s', f1, g1.trans e2, g2.trans e3⟩
    · rw [if_neg hl]
      exact ⟨sj, rfl, e2, e3⟩

/-- One neuron with its flag set, held at 41 for two evaluations of the loop. -/
theorem constant_voltage_no_transition_witness :
    (exampleState true 41 false).wf exampleConfig ∧ exampleConfig.pExcNeurons ≤ 1 ∧
    0 < exampleConfig.nNeurons ∧
    (∀ j < 2,
      (iterLoop exampleHold exampleConfig (j + 1) (exampleState true 41 false)).bind
          (fun a => (a.network[0]?).map (fun x => x.x0))
        = (iterLoop exampleHold exampleConfig j (exampleState true 41 false)).bind
          (fun a => (a.network[0]?).map (fun x => x.x0))) ∧
    (∃ s', step exampleHold exampleConfig (exampleState true 41 false) = some s' ∧
      ((s'.network[0]?).map (fun x => x.x0)
          = ((exampleState true 41 false).network[0]?).map (fun x => x.x0) →
        s'.depolarization[0]? = (exampleState true 41 false).depolarization[0]? ∧
        s'.mSpikeTrain.mSpikeTrain[0]?
          = (exampleState true 41 false).mSpikeTrain.mSpikeTrain[0]?)) ∧
    ∀ j ≤ 2, ∃ sj, iterLoop exampleHold exampleConfig j (exampleState true 41 false) = some sj ∧
      sj.depolarization[0]? = (exampleState true 41 false).depolarization[0]? ∧
      sj.mSpikeTrain.mSpikeTrain[0]?
        = (exampleState true 41 false).mSpikeTrain.mSpikeTrain[0]? :=
  ⟨⟨rfl, rfl, rfl⟩, by decide!, by decide, by decide!,
    constant_voltage_no_transition exampleHold exampleConfig (exampleState true 41 false) 0 2
      ⟨rfl, rfl, rfl⟩ (by decide!) (by decide) (by decide!)⟩

/-! ### EpisodeDetector -/

theorem detectEpisode_of_inactive (e : EpisodeState) (sN2 sN_1_2 t dt aExc aInh : ℚ)
    (h : e.activePhase = false) :
    detectEpisode e sN2 sN_1_2 t dt aExc aInh =
      if sN2 ≥ thA ∧ (sN2 - sN_1_2) / dt > thDA then
        { activePhase := true
          burstCount := e.burstCount
          networkOutputs := e.networkOutputs ++ [{ x0 := aExc, x1 := aInh, x2 := t, x3 := 1 }] }
      else e := by
  unfold detectEpisode
  have hend : ¬ episodeEndTest e.activePhase sN2 = true := by
    rw [episodeEndTest_iff, h]
    simp
  by_cases hc : sN2 ≥ thA ∧ (sN2 - sN_1_2) / dt > thDA
  · rw [if_pos hc, if_pos ((episodeStartTest_iff _ _ _ _).mpr ⟨h, hc⟩)]
  · have hstart : ¬ episodeStartTest e.activePhase sN2 sN_1_2 dt = true := fun hh =>
      hc ((episodeStartTest_iff _ _ _ _).mp hh).2
    rw [if_neg hc, if_neg hstart, if_neg hend]

theorem detectEpisode_of_active (e : EpisodeState) (sN2 sN_1_2 t dt aExc aInh : ℚ)
    (h : e.activePhase = true) :
    detectEpisode e sN2 sN_1_2 t dt aExc aInh =
      if sN2 < thA then
        { activePhase := false
          burstCount := (e.burstCount + 1) % UINT_SIZE
          networkOutputs := e.networkOutputs ++ [{ x0 := aExc, x1 := aInh, x2 := -t, x3 := 1 }] }
      else e := by
  unfold detectEpisode
  have hstart : ¬ episodeStartTest e.activePhase sN2 sN_1_2 dt = true := by
    rw [episodeStartTest_iff, h]
    simp
  rw [if_neg hstart]
  by_cases hc : sN2 < thA
  · rw [if_pos hc, if_pos ((episodeEndTest_iff _ _).mpr ⟨h, hc⟩)]
  · rw [if_neg hc, if_neg]
    intro hh
    exact hc ((episodeEndTest_iff _ _).mp hh).2

/-- One step, seen from the episode detector: the mean `sN` appended to `ave`
is the mean of the new network, and the phase flag, the burst count and the
records are what `detectEpisode` makes of them. -/
theorem step_episode (do_step : Stepper) (cfg : Config) (s : SimState) (hwf : s.wf cfg)
    (hp : cfg.pExcNeurons ≤ 1) :
    ∃ s' sN_1 sN aExc aInh, step do_step cfg s = some s' ∧ s'.wf cfg ∧
      previousMean cfg.nNeurons s.network = some sN_1 ∧
      s'.ave = s.ave ++ [sN] ∧
      sN = (s'.network.foldl myArrayDouble4.add { x0 := 0, x1 := 0, x2 := 0, x3 := 0 }).divN
        cfg.nNeurons ∧
      s'.t = s.t + cfg.dt ∧
      EpisodeState.mk s'.activePhase s'.burstCount s'.networkOutputs =
        detectEpisode (EpisodeState.mk s.activePhase s.burstCount s.networkOutputs)
          sN.x2 sN_1.x2 s.t cfg.dt aExc aInh := by
  obtain ⟨_, _, sN_1, actTotalExc, actTotalInh, s', h1, _, _, h4, h5, h6, h7, _, _, h10, _⟩ :=
    step_spec do_step cfg s hwf hp
  exact ⟨s', sN_1, _, _, _, h1, h5, h4, h7, rfl, h6, h10⟩

/-- C7. In a step that starts with `activePhase` false, the phase becomes
active if and only if the mean activity `sN[2]` of the step (the mean of `a`
over the new network, appended to `ave`) is at least `thA` and
`(sN[2] - sN_1[2])/dt`, with `sN_1` the mean before the step, exceeds `thDA`.
When it does, exactly one record is appended to `networkOutputs`, with the
time `t` of the step as element 2, and `burstCount` is unchanged; when it does
not, the records and `burstCount` are unchanged. -/
theorem episode_start_rule (do_step : Stepper) (cfg : Config) (s : SimState)
    (hwf : s.wf cfg) (hp : cfg.pExcNeurons ≤ 1) (hin : s.activePhase = false) :
    ∃ s' sN_1 sN, step do_step cfg s = some s' ∧
      previousMean cfg.nNeurons s.network = some sN_1 ∧
      s'.ave = s.ave ++ [sN] ∧
      sN = (s'.network.foldl myArrayDouble4.add { x0 := 0, x1 := 0, x2 := 0, x3 := 0 }).divN
        cfg.nNeurons ∧
      (s'.activePhase = true ↔ sN.x2 ≥ thA ∧ (sN.x2 - sN_1.x2) / cfg.dt > thDA) ∧
      (s'.activePhase = true →
        ∃ r, s'.networkOutputs = s.networkOutputs ++ [r] ∧ r.x2 = s.t ∧
          s'.burstCount = s.burstCount) ∧
      (s'.activePhase = false →
        s'.networkOutputs = s.networkOutputs ∧ s'.burstCount = s.burstCount) := by
  obtain ⟨s', sN_1, sN, aExc, aInh, h1, _, h3, h4, h5, _, h7⟩ :=
    step_episode do_step cfg s hwf hp
  refine ⟨s', sN_1, sN, h1, h3, h4, h5, ?_⟩
  rw [detectEpisode_of_inactive _ _ _ _ _ _ _ hin] at h7
  by_cases hc : sN.x2 ≥ thA ∧ (sN.x2 - sN_1.x2) / cfg.dt > thDA
  · rw [if_pos hc] at h7
    simp only [EpisodeState.mk.injEq] at h7
    obtain ⟨e1, e2, e3⟩ := h7
    refine ⟨?_, ?_, ?_⟩
    · simp [e1, hc]
    · intro _
      exact ⟨_, e3, rfl, e2⟩
    · intro hf
      rw [e1] at hf
      cases hf
  · rw [if_neg hc] at h7
    simp only [EpisodeState.mk.injEq] at h7
    obtain ⟨e1, e2, e3⟩ := h7
    refine ⟨?_, ?_, ?_⟩
    · simp [e1, hin, hc]
    · intro ht
      rw [e1, hin] at ht
      cases ht
    · intro _
      exact ⟨e3, e2⟩

/-- One Runge-Kutta step with the coarse time step from an inactive phase with
the drive at 0.1: the mean activity of the step is at least `thA` and its slope
exceeds `thDA`, the phase starts, and the one record appended has the time 1 of
the step as element 2. -/
theorem episode_start_rule_witness :
    exampleRisingState.wf exampleCoarseConfig ∧ exampleCoarseConfig.pExcNeurons ≤ 1 ∧
    exampleRisingState.activePhase = false ∧
    (step runge_kutta4_do_step exampleCoarseConfig exampleRisingState).map
        (fun s => (s.activePhase, s.networkOutputs.map (fun r => r.x2), s.burstCount))
      = some (true, [1], 0) ∧
    ∃ s' sN_1 sN,
      step runge_kutta4_do_step exampleCoarseConfig exampleRisingState = some s' ∧
      previousMean exampleCoarseConfig.nNeurons exampleRisingState.network = some sN_1 ∧
      s'.ave = exampleRisingState.ave ++ [sN] ∧
      sN = (s'.network.foldl myArrayDouble4.add { x0 := 0, x1 := 0, x2 := 0, x3 := 0 }).divN
        exampleCoarseConfig.nNeurons ∧
      (s'.activePhase = true ↔
        sN.x2 ≥ thA ∧ (sN.x2 - sN_1.x2) / exampleCoarseConfig.dt > thDA) ∧
      (s'.activePhase = true →
        ∃ r, s'.networkOutputs = exampleRisingState.networkOutputs ++ [r] ∧
          r.x2 = exampleRisingState.t ∧
          s'.burstCount = exampleRisingState.burstCount) ∧
      (s'.activePhase = false →
        s'.networkOutputs = exampleRisingState.networkOutputs ∧
        s'.burstCount = exampleRisingState.burstCount) :=
  ⟨⟨rfl, rfl, rfl⟩, by decide!, rfl, by decide!,
    episode_start_rule runge_kutta4_do_step exampleCoarseConfig exampleRisingState
      ⟨rfl, rfl, rfl⟩ (by decide!) rfl⟩

/-- C8. In a step of the loop that starts with `activePhase` true, the phase
becomes inactive if and only if the mean activity `sN[2]` of the step is below
`thA`. When it does, exactly one record is appended to `networkOutputs`, with
`-t` as element 2 for the time `t` of the step, and `burstCount` grows by
exactly 1; when it does not, the records and `burstCount` are unchanged. -/
theorem episode_end_rule (do_step : Stepper) (cfg : Config) (s : SimState)
    (hwf : s.wf cfg) (hp : cfg.pExcNeurons ≤ 1) (hmax : cfg.maxNumBurst < UINT_SIZE)
    (hloop : loopCond cfg s = true) (hact : s.activePhase = true) :
    ∃ s' sN, step do_step cfg s = some s' ∧
      s'.ave = s.ave ++ [sN] ∧
      sN = (s'.network.foldl myArrayDouble4.add { x0 := 0, x1 := 0, x2 := 0, x3 := 0 }).divN
        cfg.nNeurons ∧
      (s'.activePhase = false ↔ sN.x2 < thA) ∧
      (s'.activePhase = false →
        ∃ r, s'.networkOutputs = s.networkOutputs ++ [r] ∧ r.x2 = -s.t ∧
          s'.burstCount = s.burstCount + 1) ∧
      (s'.activePhase = true →
        s'.networkOutputs = s.networkOutputs ∧ s'.burstCount = s.burstCount) := by
  obtain ⟨s', sN_1, sN, aExc, aInh, h1, _, _, h4, h5, _, h7⟩ :=
    step_episode do_step cfg s hwf hp
  refine ⟨s', sN, h1, h4, h5, ?_⟩
  have hb : s.burstCount < cfg.maxNumBurst := by
    unfold loopCond at hloop
    simp only [Bool.and_eq_true, decide_eq_true_eq] at hloop
    exact hloop.1
  have hmod : (s.burstCount + 1) % UINT_SIZE = s.burstCount + 1 :=
    Nat.mod_eq_of_lt (by omega)
  rw [detectEpisode_of_active _ _ _ _ _ _ _ hact] at h7
  by_cases hc : sN.x2 < thA
  · rw [if_pos hc] at h7
    simp only [EpisodeState.mk.injEq] at h7
    obtain ⟨e1, e2, e3⟩ := h7
    refine ⟨?_, ?_, ?_⟩
    · simp [e1, hc]
    · intro _
      exact ⟨_, e3, rfl, e2.trans hmod⟩
    · intro ht
      rw [e1] at ht
      cases ht
  · rw [if_neg hc] at h7
    simp only [EpisodeState.mk.injEq] at h7
    obtain ⟨e1, e2, e3⟩ := h7
    refine ⟨?_, ?_, ?_⟩
    · simp [e1, hact, hc]
    · intro hf
      rw [e1, hact] at hf
      cases hf
    · intro _
      exact ⟨e3, e2⟩

/-- One step of the example configuration from an active phase. -/
theorem episode_end_rule_witness :
    (exampleState false 0 true).wf exampleConfig ∧ exampleConfig.pExcNeurons ≤ 1 ∧
    exampleConfig.maxNumBurst < UINT_SIZE ∧
    loopCond exampleConfig (exampleState false 0 true) = true ∧
    (exampleState false 0 true).activePhase = true ∧
    ∃ s' sN,
      step runge_kutta4_do_step exampleConfig (exampleState false 0 true) = some s' ∧
      s'.ave = (exampleState false 0 true).ave ++ [sN] ∧
      sN = (s'.network.foldl myArrayDouble4.add { x0 := 0, x1 := 0, x2 := 0, x3 := 0 }).divN
        exampleConfig.nNeurons ∧
      (s'.activePhase = false ↔ sN.x2 < thA) ∧
      (s'.activePhase = false →
        ∃ r, s'.networkOutputs = (exampleState false 0 true).networkOutputs ++ [r] ∧
          r.x2 = -(exampleState false 0 true).t ∧
          s'.burstCount = (exampleState false 0 true).burstCount + 1) ∧
      (s'.activePhase = true →
        s'.networkOutputs = (exampleState false 0 true).networkOutputs ∧
        s'.burstCount = (exampleState false 0 true).burstCount) :=
  ⟨⟨rfl, rfl, rfl⟩, by decide!, by decide, by decide!, rfl,
    episode_end_rule runge_kutta4_do_step exampleConfig (exampleState false 0 true)
      ⟨rfl, rfl, rfl⟩ (by decide!) (by decide) (by decide!) rfl⟩

/-! ### The synaptic drive under the Runge-Kutta stepper -/

theorem fsyn_bounds (exp : ℚ → ℚ) (hexp : ∀ y, 0 ≤ exp y) (v : ℚ) :
    0 ≤ fsyn exp v ∧ fsyn exp v ≤ 1 := by
  unfold fsyn
  have h := hexp (Vthresh - v)
  have hpos : (0 : ℚ) < 1 + exp (Vthresh - v) := by linarith
  constructor
  · positivity
  · rw [div_le_one hpos]
    norm_num
    exact h

theorem activity_slope_bounds (f a : ℚ) (hf0 : 0 ≤ f) (hf1 : f ≤ 1) (ha0 : -(1 / 100) ≤ a)
    (ha1 : a ≤ 1) :
    -(1 / 10) ≤ f * (1 - a) / tauf - a / taus ∧ f * (1 - a) / tauf - a / taus ≤ 1011 / 1000 := by
  unfold tauf taus
  have h1 : 0 ≤ f * (1 - a) := mul_nonneg hf0 (by linarith)
  have h2 : 0 ≤ (1 - f) * (1 - a) := mul_nonneg (by linarith) (by linarith)
  constructor
  · linarith
  · linarith

theorem activity_stage_bounds (a c k : ℚ) (ha0 : 0 ≤ a) (ha1 : a ≤ 1 / 100) (hc0 : 0 ≤ c)
    (hc1 : c ≤ 1 / 10) (hk0 : -(1 / 10) ≤ k) (hk1 : k ≤ 1011 / 1000) :
    -(1 / 100) ≤ a + c * k ∧ a + c * k ≤ 1 := by
  have h1 : 0 ≤ c * (k + 1 / 10) := mul_nonneg hc0 (by linarith)
  have h2 : 0 ≤ c * (1011 / 1000 - k) := mul_nonneg hc0 (by linarith)
  constructor
  · nlinarith
  · nlinarith

theorem runge_kutta4_activity_bound (cfg : Config) (atotExcj atotInhj iappj : ℚ)
    (x : NeuronState_v_n_a_s) (t dt : ℚ) (hexp : ∀ y, 0 ≤ cfg.exp y) (hdt0 : 0 ≤ dt)
    (hdt1 : dt ≤ 1 / 10) (ha0 : 0 ≤ x.x2) (ha1 : x.x2 ≤ 1 / 100) :
    (runge_kutta4_do_step (HH_NeuronModel cfg atotExcj atotInhj iappj) x t dt).x2
      ≤ 1111 / 10000 := by
  have hF : ∀ (y : NeuronState_v_n_a_s) (u : ℚ), -(1 / 100) ≤ y.x2 → y.x2 ≤ 1 →
      -(1 / 10) ≤ (HH_NeuronModel cfg atotExcj atotInhj iappj y u).x2 ∧
      (HH_NeuronModel cfg atotExcj atotInhj iappj y u).x2 ≤ 1011 / 1000 := by
    intro y u h0 h1
    obtain ⟨f0, f1⟩ := fsyn_bounds cfg.exp hexp y.x0
    exact activity_slope_bounds _ _ f0 f1 h0 h1
  obtain ⟨k1l, k1u⟩ := hF x t (by linarith) (by linarith)
  obtain ⟨a2l, a2u⟩ := activity_stage_bounds x.x2 (dt / 2) _ ha0 ha1 (by linarith) (by linarith)
    k1l k1u
  obtain ⟨k2l, k2u⟩ := hF (x.axpy (dt / 2) (HH_NeuronModel cfg atotExcj atotInhj iappj x t))
    (t + dt / 2) a2l a2u
  obtain ⟨a3l, a3u⟩ := activity_stage_bounds x.x2 (dt / 2) _ ha0 ha1 (by linarith) (by linarith)
    k2l k2u
  obtain ⟨k3l, k3u⟩ := hF (x.axpy (dt / 2) (HH_NeuronModel cfg atotExcj atotInhj iappj
    (x.axpy (dt / 2) (HH_NeuronModel cfg atotExcj atotInhj iappj x t)) (t + dt / 2)))
    (t + dt / 2) a3l a3u
  obtain ⟨a4l, a4u⟩ := activity_stage_bounds x.x2 dt _ ha0 ha1 hdt0 hdt1 k3l k3u
  obtain ⟨k4l, k4u⟩ := hF (x.axpy dt (HH_NeuronModel cfg atotExcj atotInhj iappj
    (x.axpy (dt / 2) (HH_NeuronModel cfg atotExcj atotInhj iappj
      (x.axpy (dt / 2) (HH_NeuronModel cfg atotExcj atotInhj iappj x t)) (t + dt / 2)))
    (t + dt / 2))) (t + dt) a4l a4u
  simp only [runge_kutta4_do_step, myArrayDouble4.axpy] at k1u k2u k3u k4u ⊢
  have p1 := mul_nonneg hdt0 (sub_nonneg.mpr k1u)
  have p2 := mul_nonneg hdt0 (sub_nonneg.mpr k2u)
  have p3 := mul_nonneg hdt0 (sub_nonneg.mpr k3u)
  have p4 := mul_nonneg hdt0 (sub_nonneg.mpr k4u)
  nlinarith

theorem myArrayDouble4.foldl_add_x2 (l : List myArrayDouble4) :
    ∀ z : myArrayDouble4,
      (l.foldl myArrayDouble4.add z).x2 = z.x2 + (l.map (fun x => x.x2)).sum := by
  induction l with
  | nil => intro z; simp
  | cons a l ih =>
    intro z
    rw [List.foldl_cons, ih]
    simp only [myArrayDouble4.add, List.map_cons, List.sum_cons]
    ring

theorem List.sum_le_length_mul (l : List ℚ) (c : ℚ) (h : ∀ x ∈ l, x ≤ c) :
    l.sum ≤ (l.length : ℚ) * c := by
  induction l with
  | nil => simp
  | cons a l ih =>
    have h1 := h a (List.mem_cons_self _ _)
    have h2 := ih (fun x hx => h x (List.mem_cons_of_mem _ hx))
    simp only [List.sum_cons, List.length_cons, Nat.cast_add, Nat.cast_one]
    linarith

/-- Under the Runge-Kutta stepper, from a network in which every synaptic
drive `a` is between 0 and 0.01, the mean activity after one step is below
`thA`. -/
theorem step_mean_activity_lt (cfg : Config) (s s' : SimState) (hwf : s.wf cfg)
    (hp : cfg.pExcNeurons ≤ 1) (hexp : ∀ y, 0 ≤ cfg.exp y) (hdt0 : 0 ≤ cfg.dt)
    (hdt1 : cfg.dt ≤ 1 / 10) (ha : ∀ x ∈ s.network, 0 ≤ x.x2 ∧ x.x2 ≤ 1 / 100)
    (hstep : step runge_kutta4_do_step cfg s = some s') :
    ((s'.network.foldl myArrayDouble4.add { x0 := 0, x1 := 0, x2 := 0, x3 := 0 }).divN
      cfg.nNeurons).x2 < thA := by
  obtain ⟨atotExc, atotInh, _, _, _, s'', h1, _, _, _, h5, _, _, _, _, _, _, h12⟩ :=
    step_spec runge_kutta4_do_step cfg s hwf hp
  rw [hstep, Option.some.injEq] at h1
  subst h1
  obtain ⟨w1, w2, w3⟩ := hwf
  have hall : ∀ y ∈ (s'.network.map (fun x => x.x2)), y ≤ 1111 / 10000 := by
    intro y hy
    rw [List.mem_map] at hy
    obtain ⟨x', hx', rfl⟩ := hy
    obtain ⟨n, hn, rfl⟩ := List.getElem_of_mem hx'
    have hnN : n < cfg.nNeurons := by rw [← h5.1]; exact hn
    obtain ⟨m1, _, _⟩ := h12 n (s.network[n]) (s.depolarization[n]) (s.mSpikeTrain.mSpikeTrain[n])
      (List.getElem?_eq_getElem (by omega)) (List.getElem?_eq_getElem (by omega))
      (List.getElem?_eq_getElem (by omega))
    rw [List.getElem?_eq_getElem hn, Option.some.injEq] at m1
    rw [m1]
    obtain ⟨b0, b1⟩ := ha (s.network[n]) (List.getElem_mem _)
    exact runge_kutta4_activity_bound cfg _ _ _ _ _ _ hexp hdt0 hdt1 b0 b1
  have hsum := List.sum_le_length_mul _ _ hall
  rw [List.length_map, h5.1] at hsum
  simp only [myArrayDouble4.divN]
  rw [myArrayDouble4.foldl_add_x2]
  simp only [zero_add]
  unfold thA
  rcases Nat.eq_zero_or_pos cfg.nNeurons with hz | hpos
  · rw [hz]
    norm_num
  · have hN : (0 : ℚ) < (cfg.nNeurons : ℚ) := by exact_mod_cast hpos
    rw [div_lt_iff₀ hN]
    nlinarith

/-! ### The episode state along a run -/

theorem phaseEndRecords_append (outputs : List myArrayDouble4) (r : myArrayDouble4) :
    phaseEndRecords (outputs ++ [r]) = phaseEndRecords outputs + (if r.x2 < 0 then 1 else 0) := by
  unfold phaseEndRecords
  rw [List.filter_append, List.length_append]
  by_cases h : r.x2 < 0
  · simp [List.filter, h]
  · simp [List.filter, h]

/-- One step of the loop, seen from the episode detector, on a state in which
the time is not negative and is positive while the phase is active. -/
theorem step_episode_count (do_step : Stepper) (cfg : Config) (s : SimState)
    (hwf : s.wf cfg) (hp : cfg.pExcNeurons ≤ 1)
    (hmax : cfg.maxNumBurst < UINT_SIZE) (ht0 : 0 ≤ s.t)
    (hact : s.activePhase = true → 0 < s.t) (hb : s.burstCount < cfg.maxNumBurst) :
    ∃ s' sN, step do_step cfg s = some s' ∧ s'.wf cfg ∧ s'.t = s.t + cfg.dt ∧
      sN = (s'.network.foldl myArrayDouble4.add { x0 := 0, x1 := 0, x2 := 0, x3 := 0 }).divN
        cfg.nNeurons ∧
      s'.burstCount = s.burstCount + (if s.activePhase && !s'.activePhase then 1 else 0) ∧
      phaseEndRecords s'.networkOutputs =
        phaseEndRecords s.networkOutputs + (if s.activePhase && !s'.activePhase then 1 else 0) ∧
      (s'.networkOutputs = s.networkOutputs ∨
        ∃ r, s'.networkOutputs = s.networkOutputs ++ [r] ∧
          ((s.activePhase = false ∧ s'.activePhase = true ∧ r.x2 = s.t ∧ sN.x2 ≥ thA) ∨
           (s.activePhase = true ∧ s'.activePhase = false ∧ r.x2 = -s.t ∧ r.x2 < 0))) := by
  obtain ⟨s', sN_1, sN, aExc, aInh, h1, h2, _, _, h5, h6, h7⟩ :=
    step_episode do_step cfg s hwf hp
  refine ⟨s', sN, h1, h2, h6, h5, ?_⟩
  have hmod : (s.burstCount + 1) % UINT_SIZE = s.burstCount + 1 :=
    Nat.mod_eq_of_lt (by omega)
  cases hph : s.activePhase with
  | false =>
    rw [detectEpisode_of_inactive _ _ _ _ _ _ _ hph] at h7
    by_cases hc : sN.x2 ≥ thA ∧ (sN.x2 - sN_1.x2) / cfg.dt > thDA
    · rw [if_pos hc] at h7
      simp only [EpisodeState.mk.injEq] at h7
      obtain ⟨e1, e2, e3⟩ := h7
      refine ⟨by simp [e2], ?_, Or.inr ⟨_, e3, Or.inl ⟨rfl, e1, rfl, hc.1⟩⟩⟩
      rw [e3, phaseEndRecords_append]
      simp [not_lt.mpr ht0]
    · rw [if_neg hc] at h7
      simp only [EpisodeState.mk.injEq] at h7
      obtain ⟨_, e2, e3⟩ := h7
      exact ⟨by simp [e2], by simp [e3], Or.inl e3⟩
  | true =>
    have hpos := hact hph
    rw [detectEpisode_of_active _ _ _ _ _ _ _ hph] at h7
    by_cases hc : sN.x2 < thA
    · rw [if_pos hc] at h7
      simp only [EpisodeState.mk.injEq] at h7
      obtain ⟨e1, e2, e3⟩ := h7
      have hneg : -s.t < 0 := by linarith
      refine ⟨by simp [e1, e2, hmod], ?_, Or.inr ⟨_, e3, Or.inr ⟨rfl, e1, rfl, hneg⟩⟩⟩
      rw [e3, phaseEndRecords_append]
      simp [e1, hneg]
    · rw [if_neg hc] at h7
      simp only [EpisodeState.mk.injEq] at h7
      obtain ⟨e1, e2, e3⟩ := h7
      rw [hph] at e1
      exact ⟨by simp [e1, e2], by simp [e1, e3], Or.inl e3⟩

/-- What holds of the state after every number of evaluations of the `while`,
from a state `s0` with time 0, inactive phase and no burst counted. -/
theorem iterLoop_invariant (do_step : Stepper) (cfg : Config) (s0 : SimState)
    (hwf : s0.wf cfg) (hp : cfg.pExcNeurons ≤ 1) (hdt : 0 < cfg.dt)
    (hmax : cfg.maxNumBurst < UINT_SIZE) (ht : s0.t = 0) (hph : s0.activePhase = false)
    (hbc : s0.burstCount = 0) (hout : s0.networkOutputs = []) :
    ∀ k, ∃ sk, iterLoop do_step cfg k s0 = some sk ∧ sk.wf cfg ∧
      (sk = s0 ∨ 0 < sk.t) ∧ (sk.activePhase = true → 0 < sk.t) ∧
      sk.burstCount ≤ cfg.maxNumBurst ∧
      sk.burstCount = phaseEndRecords sk.networkOutputs := by
  intro k
  induction k with
  | zero =>
    refine ⟨s0, rfl, hwf, Or.inl rfl, ?_, ?_, ?_⟩
    · intro h
      rw [hph] at h
      cases h
    · omega
    · rw [hbc, hout]
      rfl
  | succ k ih =>
    obtain ⟨sk, i1, i2, i3, i4, i5, i6⟩ := ih
    rw [iterLoop_succ_of_some do_step cfg s0 sk k i1]
    unfold whileIter
    by_cases hl : loopCond cfg sk = true
    · rw [if_pos hl]
      have hb : sk.burstCount < cfg.maxNumBurst := by
        unfold loopCond at hl
        simp only [Bool.and_eq_true, decide_eq_true_eq] at hl
        exact hl.1
      have ht0 : 0 ≤ sk.t := by
        rcases i3 with h | h
        · rw [h, ht]
        · exact le_of_lt h
      obtain ⟨s', _, j1, j2, j3, _, j5, j6, _⟩ :=
        step_episode_count do_step cfg sk i2 hp hmax ht0 i4 hb
      have hpos : 0 < s'.t := by rw [j3]; linarith
      refine ⟨s', j1, j2, Or.inr hpos, fun _ => hpos, ?_, ?_⟩
      · rw [j5]
        split <;> omega
      · rw [j5, j6, i6]
    · rw [if_neg hl]
      exact ⟨sk, rfl, i2, i3, i4, i5, i6⟩

theorem initState_eq (cfg : Config) (hN : 0 < cfg.nNeurons) :
    ∃ s0, initState cfg = some s0 ∧ s0.wf cfg ∧ s0.t = 0 ∧ s0.activePhase = false ∧
      s0.burstCount = 0 ∧ s0.networkOutputs = [] ∧
      s0.network = List.replicate cfg.nNeurons { x0 := 0.0, x1 := 0.0, x2 := 0.01, x3 := 0.25 } ∧
      s0.depolarization = List.replicate cfg.nNeurons false ∧
      s0.mSpikeTrain.mSpikeTrain = List.replicate cfg.nNeurons [] := by
  unfold initState
  rw [SpikeTrain.new_eq cfg.nNeurons hN]
  refine ⟨_, rfl, ⟨by simp, by simp, by simp⟩, by norm_num, rfl, rfl, rfl, rfl, rfl, rfl⟩

theorem simulate_eq (do_step : Stepper) (cfg : Config) (s0 : SimState)
    (h0 : initState cfg = some s0) (k : Nat) :
    simulate do_step cfg k = iterLoop do_step cfg k s0 := by
  unfold simulate
  rw [h0]
  rfl

/-- One evaluation of the `while` on a state of a run: the burst count and the
number of phase-end records grow by one exactly when the phase goes from active
to inactive, and a record is appended only on a change of phase. -/
theorem whileIter_count (do_step : Stepper) (cfg : Config) (s : SimState)
    (hwf : s.wf cfg) (hp : cfg.pExcNeurons ≤ 1)
    (hmax : cfg.maxNumBurst < UINT_SIZE) (ht0 : 0 ≤ s.t)
    (hact : s.activePhase = true → 0 < s.t) :
    ∃ s', whileIter do_step cfg s = some s' ∧
      s'.burstCount = s.burstCount + (if s.activePhase && !s'.activePhase then 1 else 0) ∧
      (s'.networkOutputs = s.networkOutputs ∨
        ∃ r, s'.networkOutputs = s.networkOutputs ++ [r] ∧
          ((s.activePhase = false ∧ s'.activePhase = true ∧ r.x2 = s.t ∧
              step do_step cfg s = some s' ∧
              ((s'.network.foldl myArrayDouble4.add
                { x0 := 0, x1 := 0, x2 := 0, x3 := 0 }).divN cfg.nNeurons).x2 ≥ thA) ∨
           (s.activePhase = true ∧ s'.activePhase = false ∧ r.x2 = -s.t ∧ r.x2 < 0))) := by
  unfold whileIter
  by_cases hl : loopCond cfg s = true
  · rw [if_pos hl]
    have hb : s.burstCount < cfg.maxNumBurst := by
      unfold loopCond at hl
      simp only [Bool.and_eq_true, decide_eq_true_eq] at hl
      exact hl.1
    obtain ⟨s', sN, j1, _, _, j4, j5, _, j7⟩ :=
      step_episode_count do_step cfg s hwf hp hmax ht0 hact hb
    refine ⟨s', j1, j5, ?_⟩
    rcases j7 with h | ⟨r, hr, h⟩
    · exact Or.inl h
    · refine Or.inr ⟨r, hr, ?_⟩
      rcases h with ⟨a1, a2, a3, a4⟩ | h
      · exact Or.inl ⟨a1, a2, a3, j1, j4 ▸ a4⟩
      · exact Or.inr h
  · rw [if_neg hl]
    refine ⟨s, rfl, ?_, Or.inl rfl⟩
    cases s.activePhase <;> simp

/-- C9. In a run under the Runge-Kutta stepper with a time step of at most 0.1
(the source has 0.01), each evaluation of the `while` leaves `networkOutputs`
as it is or appends one record; a record appended when the phase goes from
inactive to active has a positive element 2, a record appended when the phase
goes from active to inactive has a negative element 2. -/
theorem record_sign_encodes_transition (cfg : Config) (k : Nat) (hN : 0 < cfg.nNeurons)
    (hp : cfg.pExcNeurons ≤ 1) (hdt : 0 < cfg.dt) (hdt1 : cfg.dt ≤ 1 / 10)
    (hmax : cfg.maxNumBurst < UINT_SIZE) (hexp : ∀ y, 0 ≤ cfg.exp y) :
    ∃ a b, simulate runge_kutta4_do_step cfg k = some a ∧
      simulate runge_kutta4_do_step cfg (k + 1) = some b ∧
      (b.networkOutputs = a.networkOutputs ∨
        ∃ r, b.networkOutputs = a.networkOutputs ++ [r] ∧
          ((a.activePhase = false ∧ b.activePhase = true ∧ 0 < r.x2) ∨
           (a.activePhase = true ∧ b.activePhase = false ∧ r.x2 < 0))) := by
  obtain ⟨s0, h0, w0, t0, p0, b0, o0, n0, _⟩ := initState_eq cfg hN
  obtain ⟨a, r1, r2, r3, r4, _, _⟩ :=
    iterLoop_invariant runge_kutta4_do_step cfg s0 w0 hp hdt hmax t0 p0 b0 o0 k
  have ht0 : 0 ≤ a.t := by
    rcases r3 with h | h
    · rw [h, t0]
    · exact le_of_lt h
  obtain ⟨b, c1, _, c3⟩ := whileIter_count runge_kutta4_do_step cfg a r2 hp hmax ht0 r4
  refine ⟨a, b, ?_, ?_, ?_⟩
  · rw [simulate_eq _ cfg s0 h0]
    exact r1
  · rw [simulate_eq _ cfg s0 h0, iterLoop_succ_of_some _ cfg s0 a k r1]
    exact c1
  · rcases c3 with h | ⟨r, hr, h⟩
    · exact Or.inl h
    · refine Or.inr ⟨r, hr, ?_⟩
      rcases h with ⟨a1, a2, a3, a4, a5⟩ | ⟨a1, a2, _, a4⟩
      · refine Or.inl ⟨a1, a2, ?_⟩
        rw [a3]
        rcases r3 with h | h
        · exfalso
          subst h
          have hlt := step_mean_activity_lt cfg a b w0 hp hexp (le_of_lt hdt) hdt1
            (by
              intro x hx
              rw [n0] at hx
              rw [List.eq_of_mem_replicate hx]
              norm_num) a4
          exact absurd a5 (not_le.mpr hlt)
        · exact h
      · exact Or.inr ⟨a1, a2, a4⟩

/-- The second evaluation of the loop in the run of one neuron with the coarse
time step: the phase goes from inactive to active and the one record appended
has the time 0.1 of the step, a positive number, as element 2. -/
theorem record_sign_encodes_transition_witness :
    0 < exampleCoarseConfig.nNeurons ∧ exampleCoarseConfig.pExcNeurons ≤ 1 ∧
    0 < exampleCoarseConfig.dt ∧ exampleCoarseConfig.dt ≤ 1 / 10 ∧
    exampleCoarseConfig.maxNumBurst < UINT_SIZE ∧ (∀ y, 0 ≤ exampleCoarseConfig.exp y) ∧
    (simulate runge_kutta4_do_step exampleCoarseConfig 1).map
        (fun s => (s.activePhase, s.networkOutputs.map (fun r => r.x2))) = some (false, []) ∧
    (simulate runge_kutta4_do_step exampleCoarseConfig (1 + 1)).map
        (fun s => (s.activePhase, s.networkOutputs.map (fun r => r.x2)))
      = some (true, [1 / 10]) ∧
    ∃ a b, simulate runge_kutta4_do_step exampleCoarseConfig 1 = some a ∧
      simulate runge_kutta4_do_step exampleCoarseConfig (1 + 1) = some b ∧
      (b.networkOutputs = a.networkOutputs ∨
        ∃ r, b.networkOutputs = a.networkOutputs ++ [r] ∧
          ((a.activePhase = false ∧ b.activePhase = true ∧ 0 < r.x2) ∨
           (a.activePhase = true ∧ b.activePhase = false ∧ r.x2 < 0))) :=
  ⟨by decide, by decide!, by decide!, by decide!, by decide, fun _ => le_refl 0,
    by decide!, by decide!,
    record_sign_encodes_transition exampleCoarseConfig 1 (by decide) (by decide!) (by decide!)
      (by decide!) (by decide) (fun _ => le_refl 0)⟩

/-! ### The condition of the loop -/

theorem detectEpisode_burstCount_le (e : EpisodeState) (sN2 sN_1_2 t dt aExc aInh : ℚ) :
    (detectEpisode e sN2 sN_1_2 t dt aExc aInh).burstCount ≤ e.burstCount + 1 := by
  unfold detectEpisode
  split
  · exact Nat.le_succ _
  · split
    · exact Nat.mod_le _ _
    · exact Nat.le_succ _

theorem loopCond_iff (cfg : Config) (s : SimState) :
    loopCond cfg s = true ↔ s.burstCount < cfg.maxNumBurst ∧ s.t ≤ cfg.maxTimeSimulation := by
  unfold loopCond
  simp only [Bool.and_eq_true, decide_eq_true_eq]

/-- After every number of evaluations of the `while` the run has a state, its
arrays have `nNeurons` entries and `burstCount` is at most `maxNumBurst`. -/
theorem simulate_burstCount_le (do_step : Stepper) (cfg : Config) (hN : 0 < cfg.nNeurons)
    (hp : cfg.pExcNeurons ≤ 1) :
    ∀ k, ∃ a, simulate do_step cfg k = some a ∧ a.wf cfg ∧
      a.burstCount ≤ cfg.maxNumBurst := by
  obtain ⟨s0, h0, w0, _, _, b0, _⟩ := initState_eq cfg hN
  intro k
  rw [simulate_eq do_step cfg s0 h0]
  induction k with
  | zero => exact ⟨s0, rfl, w0, by omega⟩
  | succ k ih =>
    obtain ⟨a, i1, i2, i3⟩ := ih
    rw [iterLoop_succ_of_some do_step cfg s0 a k i1]
    unfold whileIter
    by_cases hl : loopCond cfg a = true
    · rw [if_pos hl]
      obtain ⟨s', sN_1, sN, aExc, aInh, h1, h2, _, _, _, _, h7⟩ :=
        step_episode do_step cfg a i2 hp
      refine ⟨s', h1, h2, ?_⟩
      have hle := detectEpisode_burstCount_le
        (EpisodeState.mk a.activePhase a.burstCount a.networkOutputs) sN.x2 sN_1.x2 a.t cfg.dt
        aExc aInh
      rw [← h7] at hle
      have hb := ((loopCond_iff cfg a).mp hl).1
      simp only at hle
      omega
    · rw [if_neg hl]
      exact ⟨a, rfl, i2, i3⟩

/-- C11. After every number of evaluations of the `while`, the next evaluation
executes the body exactly when `burstCount < maxNumBurst` and
`t <= maxTimeSimulation`; when that condition is false the loop has stopped
(the state stays as it is) and `burstCount = maxNumBurst` or
`t > maxTimeSimulation`; and `burstCount` is never above `maxNumBurst`,
whatever `maxNumBurst` is. -/
theorem loop_stops_at_burst_or_time_limit (do_step : Stepper) (cfg : Config) (k : Nat)
    (hN : 0 < cfg.nNeurons) (hp : cfg.pExcNeurons ≤ 1) :
    ∃ a, simulate do_step cfg k = some a ∧
      (loopCond cfg a = true ↔
        a.burstCount < cfg.maxNumBurst ∧ a.t ≤ cfg.maxTimeSimulation) ∧
      (loopCond cfg a = true → whileIter do_step cfg a = step do_step cfg a) ∧
      (loopCond cfg a = false →
        whileIter do_step cfg a = some a ∧
        (a.burstCount = cfg.maxNumBurst ∨ a.t > cfg.maxTimeSimulation)) ∧
      a.burstCount ≤ cfg.maxNumBurst := by
  obtain ⟨a, h1, _, h3⟩ := simulate_burstCount_le do_step cfg hN hp k
  refine ⟨a, h1, loopCond_iff cfg a, ?_, ?_, h3⟩
  · intro hl
    unfold whileIter
    rw [if_pos hl]
  · intro hl
    refine ⟨?_, ?_⟩
    · unfold whileIter
      rw [if_neg (by simp [hl])]
    · have hn : ¬ (a.burstCount < cfg.maxNumBurst ∧ a.t ≤ cfg.maxTimeSimulation) := by
        rw [← loopCond_iff, hl]
        simp
      by_cases hb : a.burstCount < cfg.maxNumBurst
      · right
        by_contra ht
        exact hn ⟨hb, not_lt.mp ht⟩
      · left
        omega

/-- The run of the example configuration after four evaluations of the loop. -/
theorem loop_stops_at_burst_or_time_limit_witness :
    0 < exampleConfig.nNeurons ∧ exampleConfig.pExcNeurons ≤ 1 ∧
    ∃ a, simulate runge_kutta4_do_step exampleConfig 4 = some a ∧
      (loopCond exampleConfig a = true ↔
        a.burstCount < exampleConfig.maxNumBurst ∧ a.t ≤ exampleConfig.maxTimeSimulation) ∧
      (loopCond exampleConfig a = true →
        whileIter runge_kutta4_do_step exampleConfig a = step runge_kutta4_do_step exampleConfig a) ∧
      (loopCond exampleConfig a = false →
        whileIter runge_kutta4_do_step exampleConfig a = some a ∧
        (a.burstCount = exampleConfig.maxNumBurst ∨ a.t > exampleConfig.maxTimeSimulation)) ∧
      a.burstCount ≤ exampleConfig.maxNumBurst :=
  ⟨by decide, by decide!,
    loop_stops_at_burst_or_time_limit runge_kutta4_do_step exampleConfig 4 (by decide)
      (by decide!)⟩

/-! ### The partition into excitatory and inhibitory neurons -/

/-- C13, as stated, fails: the product of line 313 is a product of two
`double`, rounded before its fractional part is discarded. For the fraction
0.35 on the command line `pExcNeurons` is the `double` just below 0.35, the
exact product with 100 is below 35 and has the integer part 34, but it rounds
to 35.0 and `nExcNeurons` is 35. (Read with the decimal fraction instead of the
`double`, the statement fails at 0.29: `nExcNeurons` is 28 and
`floor(100 * 0.29)` is 29.) -/
theorem rounded_product_counterexample :
    0 < (exampleFractionConfig 0.35).pExcNeurons ∧
    (exampleFractionConfig 0.35).pExcNeurons ≤ 1 ∧
    (exampleFractionConfig 0.35).pExcNeurons = 6305039478318694 / 2 ^ 54 ∧
    ((exampleFractionConfig 0.35).nNeurons : ℚ) * (exampleFractionConfig 0.35).pExcNeurons
      < 35 ∧
    ⌊((exampleFractionConfig 0.35).nNeurons : ℚ) * (exampleFractionConfig 0.35).pExcNeurons⌋
      = 34 ∧
    roundDouble
        (((exampleFractionConfig 0.35).nNeurons : ℚ) * (exampleFractionConfig 0.35).pExcNeurons)
      = 35 ∧
    (exampleFractionConfig 0.35).nExcNeurons = 35 ∧
    (exampleFractionConfig 0.35).nInhNeurons = 65 ∧
    0 < (exampleFractionConfig 0.29).pExcNeurons ∧
    (exampleFractionConfig 0.29).pExcNeurons ≤ 1 ∧
    (exampleFractionConfig 0.29).pExcNeurons = 5224175567749775 / 2 ^ 54 ∧
    (exampleFractionConfig 0.29).nExcNeurons = 28 ∧
    ⌊((exampleFractionConfig 0.29).nNeurons : ℚ) * (29 / 100)⌋ = 29 := by
  refine ⟨?_, ?_, ?_, ?_, ?_, ?_, ?_, ?_, ?_, ?_, ?_, ?_, ?_⟩ <;> decide!

/-- C13, amended. For an excitatory fraction `p` with `0 < p <= 1`,
`nExcNeurons` is the integer part of the product `nNeurons * p` rounded to the
nearest `double`. It is `floor(nNeurons * p)` or one more, and one more exactly
when the product rounds up to the next integer. It is at most `nNeurons`,
`nInhNeurons` is `nNeurons - nExcNeurons` (the subtraction on `unsigned int`
does not wrap), and the two add up to `nNeurons`. Both are functions of the
configuration alone: the body of the loop has no assignment to them, and no
state of the loop holds them. -/
theorem partition_sizes (cfg : Config) (hp0 : 0 < cfg.pExcNeurons)
    (hp1 : cfg.pExcNeurons ≤ 1) :
    (cfg.nExcNeurons : ℤ) = ⌊roundDouble ((cfg.nNeurons : ℚ) * cfg.pExcNeurons)⌋ ∧
    ⌊(cfg.nNeurons : ℚ) * cfg.pExcNeurons⌋ ≤ (cfg.nExcNeurons : ℤ) ∧
    (cfg.nExcNeurons : ℤ) ≤ ⌊(cfg.nNeurons : ℚ) * cfg.pExcNeurons⌋ + 1 ∧
    ((cfg.nExcNeurons : ℤ) = ⌊(cfg.nNeurons : ℚ) * cfg.pExcNeurons⌋ + 1 ↔
      roundDouble ((cfg.nNeurons : ℚ) * cfg.pExcNeurons)
        = ((⌊(cfg.nNeurons : ℚ) * cfg.pExcNeurons⌋ + 1 : ℤ) : ℚ)) ∧
    cfg.nExcNeurons ≤ cfg.nNeurons ∧
    cfg.nInhNeurons = cfg.nNeurons - cfg.nExcNeurons ∧
    cfg.nExcNeurons + cfg.nInhNeurons = cfg.nNeurons := by
  have hle := cfg.nExcNeurons_le hp1
  have hN31 := cfg.nNeurons_int
  have hx0 : 0 ≤ (cfg.nNeurons : ℚ) * cfg.pExcNeurons :=
    mul_nonneg (Nat.cast_nonneg _) (le_of_lt hp0)
  have hxN : (cfg.nNeurons : ℚ) * cfg.pExcNeurons ≤ (cfg.nNeurons : ℚ) := by
    have hN : (0 : ℚ) ≤ (cfg.nNeurons : ℚ) := Nat.cast_nonneg _
    nlinarith
  have hN53 : (cfg.nNeurons : ℚ) < 2 ^ 53 := by
    have : cfg.nNeurons < 2 ^ 53 := by omega
    exact_mod_cast this
  generalize hx : (cfg.nNeurons : ℚ) * cfg.pExcNeurons = x at *
  have hfloor : 0 ≤ ⌊x⌋ := Int.floor_nonneg.mpr hx0
  obtain ⟨m, hm⟩ : ∃ m : Nat, ⌊x⌋ = (m : Int) := ⟨⌊x⌋.toNat, (Int.toNat_of_nonneg hfloor).symm⟩
  have hmx : (m : ℚ) ≤ x := by
    have := Int.floor_le x
    rw [hm] at this
    exact_mod_cast this
  have hxm : x < (m : ℚ) + 1 := by
    have := Int.lt_floor_add_one x
    rw [hm] at this
    exact_mod_cast this
  have hmN : m ≤ cfg.nNeurons := by
    have : (m : ℚ) ≤ (cfg.nNeurons : ℚ) := hmx.trans hxN
    exact_mod_cast this
  have l1 : (m : ℚ) ≤ roundDouble x :=
    natCast_le_roundDouble x m (lt_of_le_of_lt hxN hN53) hmx
  have l2 : roundDouble x ≤ ((m + 1 : Nat) : ℚ) :=
    roundDouble_le_natCast x (m + 1) (by omega) (by push_cast; exact le_of_lt hxm)
  have f1 : (m : Int) ≤ ⌊roundDouble x⌋ := Int.le_floor.mpr (by exact_mod_cast l1)
  have f2 : ⌊roundDouble x⌋ ≤ (m : Int) + 1 := by
    have := (Int.floor_le (roundDouble x)).trans l2
    exact_mod_cast this
  have hn : (cfg.nExcNeurons : ℤ) = ⌊roundDouble x⌋ := by
    rw [cfg.nExcNeurons_eq, hx]
    exact Int.toNat_of_nonneg (by omega)
  have hinh := cfg.nInhNeurons_eq hp1
  refine ⟨hn, ?_, ?_, ?_, hle, hinh, ?_⟩
  · rw [hn, hm]; exact f1
  · rw [hn, hm]; exact f2
  · rw [hn, hm]
    constructor
    · intro h
      apply le_antisymm
      · exact_mod_cast l2
      · have := Int.floor_le (roundDouble x)
        rw [h] at this
        exact this
    · intro h
      rw [h]
      exact Int.floor_intCast _
  · rw [hinh]
    omega

/-- A hundred neurons with the fraction 0.35 on the command line: 35
excitatory and 65 inhibitory neurons, one more excitatory neuron than the
integer part 34 of the exact product. -/
theorem partition_sizes_witness :
    0 < (exampleFractionConfig 0.35).pExcNeurons ∧
    (exampleFractionConfig 0.35).pExcNeurons ≤ 1 ∧
    (exampleFractionConfig 0.35).nExcNeurons = 35 ∧
    (exampleFractionConfig 0.35).nInhNeurons = 65 ∧
    ((((exampleFractionConfig 0.35).nExcNeurons : ℤ)
      = ⌊roundDouble
          (((exampleFractionConfig 0.35).nNeurons : ℚ)
            * (exampleFractionConfig 0.35).pExcNeurons)⌋) ∧
    ⌊((exampleFractionConfig 0.35).nNeurons : ℚ) * (exampleFractionConfig 0.35).pExcNeurons⌋
      ≤ ((exampleFractionConfig 0.35).nExcNeurons : ℤ) ∧
    ((exampleFractionConfig 0.35).nExcNeurons : ℤ)
      ≤ ⌊((exampleFractionConfig 0.35).nNeurons : ℚ) * (exampleFractionConfig 0.35).pExcNeurons⌋
        + 1 ∧
    (((exampleFractionConfig 0.35).nExcNeurons : ℤ)
        = ⌊((exampleFractionConfig 0.35).nNeurons : ℚ) * (exampleFractionConfig 0.35).pExcNeurons⌋
          + 1 ↔
      roundDouble
          (((exampleFractionConfig 0.35).nNeurons : ℚ) * (exampleFractionConfig 0.35).pExcNeurons)
        = ((⌊((exampleFractionConfig 0.35).nNeurons : ℚ)
              * (exampleFractionConfig 0.35).pExcNeurons⌋ + 1 : ℤ) : ℚ)) ∧
    (exampleFractionConfig 0.35).nExcNeurons ≤ (exampleFractionConfig 0.35).nNeurons ∧
    (exampleFractionConfig 0.35).nInhNeurons
      = (exampleFractionConfig 0.35).nNeurons - (exampleFractionConfig 0.35).nExcNeurons ∧
    (exampleFractionConfig 0.35).nExcNeurons + (exampleFractionConfig 0.35).nInhNeurons
      = (exampleFractionConfig 0.35).nNeurons) :=
  ⟨by decide!, by decide!, by decide!, by decide!,
    partition_sizes (exampleFractionConfig 0.35) (by decide!) (by decide!)⟩

/-! ### The neuron model -/

theorem fsyn_eq_fsyn_spec (exp : ℚ → ℚ) (v : ℚ) : fsyn exp v = fsyn_spec exp v := by
  unfold fsyn fsyn_spec kv
  norm_num

/-- C15. For every state `(v, n, a, s)`, drives, applied current and time,
`HH_NeuronModel` returns the four derivatives the specification writes, with
`fsyn(v) = 1/(1+exp((Vthresh - v)/kv))`, `Vthresh = 40` and `kv = 1`; and the
result is the same for every time argument. -/
theorem HH_NeuronModel_refines_spec (cfg : Config) (atotExcj atotInhj iappj : ℚ)
    (x : NeuronState_v_n_a_s) (t : ℚ) :
    HH_NeuronModel cfg atotExcj atotInhj iappj x t
      = HH_NeuronModel_spec cfg atotExcj atotInhj iappj x.x0 x.x1 x.x2 x.x3 ∧
    Vthresh = 40 ∧ kv = 1 ∧
    ∀ t', HH_NeuronModel cfg atotExcj atotInhj iappj x t'
      = HH_NeuronModel cfg atotExcj atotInhj iappj x t := by
  refine ⟨?_, rfl, rfl, fun _ => rfl⟩
  simp only [HH_NeuronModel, HH_NeuronModel_spec, fsyn_eq_fsyn_spec]

/-! ### An index outside the store -/

theorem SpikeTrain.addSpikeTimeToNeuron_outOfRange (st : SpikeTrain) (n : Nat) (t : ℚ)
    (hn : st.mSpikeTrain.length ≤ n) :
    st.addSpikeTimeToNeuron n t = ([Diagnostic.neuronIndexOutOfRange], none) := by
  unfold SpikeTrain.addSpikeTimeToNeuron
  simp only [List.getElem?_eq_none hn, ge_iff_le, if_pos hn]

/-- C18 fails on the code. On the store built by `SpikeTrain(1)`, the call
`addSpikeTimeToNeuron(1, 0.5)` writes the message of the range test and then,
having no `return`, goes on to read `mSpikeTrain[1]`, outside the vector: the
call has no defined result. -/
theorem addSpikeTimeToNeuron_index_out_of_range :
    (SpikeTrain.new 1).map (fun st => st.mSpikeTrain.length) = some 1 ∧
    (SpikeTrain.new 1).map (fun st => st.addSpikeTimeToNeuron 1 0.5)
      = some ([Diagnostic.neuronIndexOutOfRange], none) := by
  constructor
  · decide
  · decide!

/-! ### The mean of the step before -/

theorem myArrayDouble4.foldl_add_replicate (x : myArrayDouble4) (n : Nat) :
    ∀ z : myArrayDouble4, (List.replicate n x).foldl myArrayDouble4.add z =
      { x0 := z.x0 + (n : ℚ) * x.x0, x1 := z.x1 + (n : ℚ) * x.x1,
        x2 := z.x2 + (n : ℚ) * x.x2, x3 := z.x3 + (n : ℚ) * x.x3 } := by
  induction n with
  | zero => intro z; simp
  | succ k ih =>
    intro z
    rw [List.replicate_succ, List.foldl_cons, ih]
    simp only [myArrayDouble4.add, Nat.cast_add, Nat.cast_one, myArrayDouble4.mk.injEq]
    refine ⟨?_, ?_, ?_, ?_⟩ <;> ring

theorem previousMean_replicate (x : myArrayDouble4) (n : Nat) (hn : 0 < n) :
    previousMean n (List.replicate n x) = some x := by
  have h := previousMean_eq (List.replicate n x)
  rw [List.length_replicate] at h
  rw [h, myArrayDouble4.foldl_add_replicate]
  have hn' : (n : ℚ) ≠ 0 := by exact_mod_cast (Nat.pos_iff_ne_zero.mp hn)
  simp only [myArrayDouble4.divN, zero_add, Option.some.injEq]
  cases x
  simp only [myArrayDouble4.mk.injEq]
  refine ⟨?_, ?_, ?_, ?_⟩ <;> field_simp

/-- C19. The mean `sN_1` is computed from the network at the start of each
step. When the loop is entered it is the initial state `(0, 0, 0.01, 0.25)`
of every neuron. After a step that appended the mean `sN` to `ave`, the mean
`sN_1` of the next step is that `sN`, element by element, and it is the value
the episode test of the next step takes as previous mean. -/
theorem previous_mean_is_last_average (do_step : Stepper) (cfg : Config) (s : SimState)
    (hN : 0 < cfg.nNeurons) (hwf : s.wf cfg) (hp : cfg.pExcNeurons ≤ 1) :
    (∃ s0, initState cfg = some s0 ∧
      previousMean cfg.nNeurons s0.network
        = some { x0 := 0, x1 := 0, x2 := 0.01, x3 := 0.25 }) ∧
    ∃ s' s'' sN sN' aExc aInh, step do_step cfg s = some s' ∧ s'.ave = s.ave ++ [sN] ∧
      previousMean cfg.nNeurons s'.network = some sN ∧
      step do_step cfg s' = some s'' ∧ s''.ave = s'.ave ++ [sN'] ∧
      EpisodeState.mk s''.activePhase s''.burstCount s''.networkOutputs =
        detectEpisode (EpisodeState.mk s'.activePhase s'.burstCount s'.networkOutputs)
          sN'.x2 sN.x2 s'.t cfg.dt aExc aInh := by
  constructor
  · obtain ⟨s0, h0, _, _, _, _, _, n0, _⟩ := initState_eq cfg hN
    refine ⟨s0, h0, ?_⟩
    rw [n0, previousMean_replicate _ _ hN]
    norm_num
  · obtain ⟨s', _, sN, _, _, h1, h2, _, h4, h5, _, _⟩ := step_episode do_step cfg s hwf hp
    obtain ⟨s'', sN_1', sN', aExc, aInh, g1, _, g3, g4, _, _, g7⟩ :=
      step_episode do_step cfg s' h2 hp
    have hprev : previousMean cfg.nNeurons s'.network = some sN := by
      have h := previousMean_eq s'.network
      rw [h2.1] at h
      rw [h, h5]
    rw [hprev, Option.some.injEq] at g3
    subst g3
    exact ⟨s', s'', sN, sN', aExc, aInh, h1, h4, hprev, g1, g4, g7⟩

/-- Two steps of the example configuration. -/
theorem previous_mean_is_last_average_witness :
    0 < exampleConfig.nNeurons ∧ (exampleState false 0 false).wf exampleConfig ∧
    exampleConfig.pExcNeurons ≤ 1 ∧
    (∃ s0, initState exampleConfig = some s0 ∧
      previousMean exampleConfig.nNeurons s0.network
        = some { x0 := 0, x1 := 0, x2 := 0.01, x3 := 0.25 }) ∧
    ∃ s' s'' sN sN' aExc aInh,
      step runge_kutta4_do_step exampleConfig (exampleState false 0 false) = some s' ∧
      s'.ave = (exampleState false 0 false).ave ++ [sN] ∧
      previousMean exampleConfig.nNeurons s'.network = some sN ∧
      step runge_kutta4_do_step exampleConfig s' = some s'' ∧ s''.ave = s'.ave ++ [sN'] ∧
      EpisodeState.mk s''.activePhase s''.burstCount s''.networkOutputs =
        detectEpisode (EpisodeState.mk s'.activePhase s'.burstCount s'.networkOutputs)
          sN'.x2 sN.x2 s'.t exampleConfig.dt aExc aInh :=
  ⟨by decide, ⟨rfl, rfl, rfl⟩, by decide!,
    previous_mean_is_last_average runge_kutta4_do_step exampleConfig
      (exampleState false 0 false) (by decide) ⟨rfl, rfl, rfl⟩ (by decide!)⟩

/-! ### Termination -/

/-- In a run, as long as the condition of the `while` holds the time is the
number of evaluations so far times `dt`. -/
theorem simulate_time (do_step : Stepper) (cfg : Config) (hN : 0 < cfg.nNeurons)
    (hp : cfg.pExcNeurons ≤ 1) :
    ∀ k, ∃ a, simulate do_step cfg k = some a ∧ a.wf cfg ∧
      (loopCond cfg a = true → a.t = (k : ℚ) * cfg.dt) := by
  obtain ⟨s0, h0, w0, t0, _⟩ := initState_eq cfg hN
  intro k
  rw [simulate_eq do_step cfg s0 h0]
  induction k with
  | zero => exact ⟨s0, rfl, w0, fun _ => by rw [t0]; simp⟩
  | succ k ih =>
    obtain ⟨a, i1, i2, i3⟩ := ih
    rw [iterLoop_succ_of_some do_step cfg s0 a k i1]
    unfold whileIter
    by_cases hl : loopCond cfg a = true
    · rw [if_pos hl]
      obtain ⟨s', _, _, _, _, h1, h2, _, _, _, h6, _⟩ := step_episode do_step cfg a i2 hp
      refine ⟨s', h1, h2, fun _ => ?_⟩
      rw [h6, i3 hl]
      push_cast
      ring
    · rw [if_neg hl]
      exact ⟨a, rfl, i2, fun h => absurd h hl⟩

theorem simulate_stopped (do_step : Stepper) (cfg : Config) (k : Nat) (a : SimState)
    (h : simulate do_step cfg k = some a) (hl : loopCond cfg a = false) :
    ∀ j, simulate do_step cfg (k + j) = some a := by
  intro j
  induction j with
  | zero => exact h
  | succ j ih =>
    cases h0 : initState cfg with
    | none =>
      unfold simulate at h
      rw [h0] at h
      cases h
    | some s0 =>
      rw [simulate_eq do_step cfg s0 h0] at ih ⊢
      rw [← Nat.add_assoc, iterLoop_succ_of_some do_step cfg s0 a (k + j) ih]
      unfold whileIter
      rw [if_neg (by simp [hl])]

/-- C20. For `dt > 0` and `maxTimeSimulation >= 0`, whatever the stepper and
`maxNumBurst` are: at the start of the evaluation number `k` (counted from 0)
in which the body is executed the time is `k*dt`; after
`floor(maxTimeSimulation/dt) + 1` evaluations the condition of the `while` is
false; once it is false the state does not change any more; and with
`maxNumBurst = 0` the state is the initial one after every number of
evaluations: no step is executed. -/
theorem loop_terminates (do_step : Stepper) (cfg : Config) (hN : 0 < cfg.nNeurons)
    (hp : cfg.pExcNeurons ≤ 1) (hdt : 0 < cfg.dt) (hT : 0 ≤ cfg.maxTimeSimulation) :
    (∀ k, ∃ a, simulate do_step cfg k = some a ∧
      (loopCond cfg a = true → a.t = (k : ℚ) * cfg.dt)) ∧
    (∃ a, simulate do_step cfg (⌊cfg.maxTimeSimulation / cfg.dt⌋.toNat + 1) = some a ∧
      loopCond cfg a = false ∧
      ∀ j, simulate do_step cfg (⌊cfg.maxTimeSimulation / cfg.dt⌋.toNat + 1 + j) = some a) ∧
    (cfg.maxNumBurst = 0 → ∀ k, simulate do_step cfg k = initState cfg) := by
  refine ⟨?_, ?_, ?_⟩
  · intro k
    obtain ⟨a, h1, _, h3⟩ := simulate_time do_step cfg hN hp k
    exact ⟨a, h1, h3⟩
  · obtain ⟨a, h1, _, h3⟩ :=
      simulate_time do_step cfg hN hp (⌊cfg.maxTimeSimulation / cfg.dt⌋.toNat + 1)
    have hstop : loopCond cfg a = false := by
      rw [Bool.eq_false_iff]
      intro hl
      have ht := h3 hl
      have hle := ((loopCond_iff cfg a).mp hl).2
      have hq : 0 ≤ cfg.maxTimeSimulation / cfg.dt := div_nonneg hT (le_of_lt hdt)
      have hfl : (0 : ℤ) ≤ ⌊cfg.maxTimeSimulation / cfg.dt⌋ := Int.floor_nonneg.mpr hq
      have hlt := Int.lt_floor_add_one (cfg.maxTimeSimulation / cfg.dt)
      have hcast : ((⌊cfg.maxTimeSimulation / cfg.dt⌋.toNat : ℕ) : ℚ)
          = ((⌊cfg.maxTimeSimulation / cfg.dt⌋ : ℤ) : ℚ) := by
        have := Int.toNat_of_nonneg hfl
        exact_mod_cast this
      rw [ht] at hle
      push_cast at hle
      rw [hcast] at hle
      rw [div_lt_iff₀ hdt] at hlt
      linarith
    exact ⟨a, h1, hstop, simulate_stopped do_step cfg _ a h1 hstop⟩
  · intro hz k
    obtain ⟨s0, h0, _⟩ := initState_eq cfg hN
    have hl : loopCond cfg s0 = false := by
      rw [Bool.eq_false_iff]
      intro hl
      have := ((loopCond_iff cfg s0).mp hl).1
      omega
    have hs0 : simulate do_step cfg 0 = some s0 := by
      rw [simulate_eq do_step cfg s0 h0]
      rfl
    have := simulate_stopped do_step cfg 0 s0 hs0 hl k
    rw [Nat.zero_add] at this
    rw [this, h0]

/-- The run of the example configuration: 1001 evaluations at most. -/
theorem loop_terminates_witness :
    0 < exampleConfig.nNeurons ∧ exampleConfig.pExcNeurons ≤ 1 ∧ 0 < exampleConfig.dt ∧
    0 ≤ exampleConfig.maxTimeSimulation ∧
    (∀ k, ∃ a, simulate exampleHold exampleConfig k = some a ∧
      (loopCond exampleConfig a = true → a.t = (k : ℚ) * exampleConfig.dt)) ∧
    (∃ a, simulate exampleHold exampleConfig
        (⌊exampleConfig.maxTimeSimulation / exampleConfig.dt⌋.toNat + 1) = some a ∧
      loopCond exampleConfig a = false ∧
      ∀ j, simulate exampleHold exampleConfig
        (⌊exampleConfig.maxTimeSimulation / exampleConfig.dt⌋.toNat + 1 + j) = some a) ∧
    (exampleConfig.maxNumBurst = 0 →
      ∀ k, simulate exampleHold exampleConfig k = initState exampleConfig) :=
  ⟨by decide, by decide!, by decide!, by decide!,
    loop_terminates exampleHold exampleConfig (by decide) (by decide!) (by decide!)
      (by decide!)⟩

/-! ### The coupling -/

theorem foldl_drive_eq_sum (l : List NeuronState_v_n_a_s) (lo : Nat) :
    ∀ hi, hi ≤ l.length →
      ((l.take hi).drop lo).foldl (fun acc x => acc + x.x3 * x.x2) 0
        = ∑ j in Finset.Ico lo hi, driveOf l j := by
  intro hi
  induction hi with
  | zero => intro _; simp
  | succ k ih =>
    intro hk
    rcases Nat.lt_or_ge k lo with hlt | hge
    · rw [List.drop_eq_nil_of_le (by rw [List.length_take]; omega),
        Finset.Ico_eq_empty_of_le (by omega)]
      simp
    · rw [List.take_succ_drop_of_lt l lo k hge (by omega), List.foldl_append, ih (by omega),
        Finset.sum_Ico_succ_top hge]
      simp only [List.foldl_cons, List.foldl_nil, driveOf,
        List.getElem?_eq_getElem (show k < l.length by omega)]
      ring

theorem sumDrive_eq_sum (network : List NeuronState_v_n_a_s) (lo hi : Nat)
    (h : hi ≤ network.length) :
    sumDrive network lo hi = some (∑ j in Finset.Ico lo hi, driveOf network j) := by
  rw [sumDrive_eq network lo hi h, foldl_drive_eq_sum network lo hi h]

/-- Taking the own product of neuron `i` out of the sum of its class leaves the
sums over the other neurons of the two classes. -/
theorem selfExcluded_eq_sum (network : List NeuronState_v_n_a_s) (nExc N i : Nat)
    (x : NeuronState_v_n_a_s) (hi : i < N) (hx : network[i]? = some x) :
    selfExcluded nExc (∑ j in Finset.Ico 0 nExc, driveOf network j)
        (∑ j in Finset.Ico nExc N, driveOf network j) i x
      = (∑ j in (Finset.range nExc).erase i, driveOf network j,
         ∑ j in (Finset.Ico nExc N).erase i, driveOf network j) := by
  have hd : driveOf network i = x.x3 * x.x2 := by
    simp only [driveOf, hx]
    ring
  unfold selfExcluded
  rw [← Finset.range_eq_Ico]
  by_cases hc : i < nExc
  · rw [if_pos hc, Finset.sum_erase_eq_sub (Finset.mem_range.mpr hc), hd,
      Finset.erase_eq_of_not_mem (by simp; omega)]
  · rw [if_neg hc, Finset.sum_erase_eq_sub (Finset.mem_Ico.mpr ⟨by omega, hi⟩), hd,
      Finset.erase_eq_of_not_mem (by simp; omega)]

/-- The body of the neuron loop for one neuron inside the arrays: it returns,
and the network it returns has the new state of that neuron in its place. -/
theorem neuronBody_network (do_step : Stepper) (cfg : Config) (atotExc atotInh t : ℚ)
    (ls : NeuronLoopState) (N n : Nat) (h1 : ls.network.length = N)
    (h2 : ls.depolarization.length = N) (h3 : ls.mSpikeTrain.mSpikeTrain.length = N)
    (hn : n < N) :
    ∃ ls' x, neuronBody do_step cfg atotExc atotInh t n ls = some ls' ∧
      ls.network[n]? = some x ∧
      ls'.network = ls.network.set n (integrateNeuron do_step cfg atotExc atotInh t n x) ∧
      ls'.network.length = N ∧ ls'.depolarization.length = N ∧
      ls'.mSpikeTrain.mSpikeTrain.length = N := by
  have hx : ls.network[n]? = some (ls.network[n]) := List.getElem?_eq_getElem (by omega)
  have hd : ls.depolarization[n]? = some (ls.depolarization[n]) :=
    List.getElem?_eq_getElem (by omega)
  have hr : ls.mSpikeTrain.mSpikeTrain[n]? = some (ls.mSpikeTrain.mSpikeTrain[n]) :=
    List.getElem?_eq_getElem (by omega)
  generalize ls.network[n] = x at hx
  generalize ls.depolarization[n] = d at hd
  generalize ls.mSpikeTrain.mSpikeTrain[n] = row at hr
  obtain ⟨st', s1, _, s3, _, _⟩ := neuronBody_store ls.mSpikeTrain n t
    (detectSpike d (integrateNeuron do_step cfg atotExc atotInh t n x).x0 x.x0 cfg.dt).2 row hr
  refine ⟨{ network := ls.network.set n (integrateNeuron do_step cfg atotExc atotInh t n x)
            depolarization := ls.depolarization.set n
              (detectSpike d (integrateNeuron do_step cfg atotExc atotInh t n x).x0 x.x0
                cfg.dt).1
            mSpikeTrain := st'
            sN := ls.sN.add (integrateNeuron do_step cfg atotExc atotInh t n x) },
    x, ?_, hx, rfl, by simp [h1], by simp [h2], s3.trans h3⟩
  unfold neuronBody
  simp only [hx, hd]
  rw [s1]

/-- The neuron loop taken in any order without repetition: every neuron of the
order ends with the new state computed from the state it had before the loop,
the others keep theirs. -/
theorem neuronLoopIn_network (do_step : Stepper) (cfg : Config) (atotExc atotInh t : ℚ)
    (N : Nat) (order : List Nat) :
    ∀ ls0 : NeuronLoopState, order.Nodup → (∀ n ∈ order, n < N) → ls0.network.length = N →
      ls0.depolarization.length = N → ls0.mSpikeTrain.mSpikeTrain.length = N →
      ∃ ls, neuronLoopIn do_step cfg atotExc atotInh t order ls0 = some ls ∧
        ls.network.length = N ∧
        ∀ n, ls.network[n]? =
          if n ∈ order then (ls0.network[n]?).map (integrateNeuron do_step cfg atotExc atotInh t n)
          else ls0.network[n]? := by
  induction order with
  | nil =>
    intro ls0 _ _ h1 _ _
    exact ⟨ls0, rfl, h1, fun n => by simp⟩
  | cons m rest ih =>
    intro ls0 hnd hlt h1 h2 h3
    obtain ⟨ls1, x, b1, b2, b3, b4, b5, b6⟩ :=
      neuronBody_network do_step cfg atotExc atotInh t ls0 N m h1 h2 h3
        (hlt m (List.mem_cons_self _ _))
    obtain ⟨hm, hnd'⟩ := List.nodup_cons.mp hnd
    have hmN : m < ls0.network.length := by
      rw [h1]
      exact hlt m (List.mem_cons_self _ _)
    obtain ⟨ls, c1, c2, c3⟩ := ih ls1 hnd' (fun n hn => hlt n (List.mem_cons_of_mem _ hn))
      b4 b5 b6
    refine ⟨ls, ?_, c2, ?_⟩
    · unfold neuronLoopIn at c1 ⊢
      rw [List.foldlM_cons, b1]
      exact c1
    · intro n
      rw [c3 n, b3]
      by_cases hnm : n = m
      · subst hnm
        rw [if_neg hm, if_pos (List.mem_cons_self _ _),
          List.getElem?_set_self hmN, b2]
        rfl
      · have hne : m ≠ n := fun h => hnm h.symm
        rw [List.getElem?_set_ne hne]
        by_cases hr : n ∈ rest
        · rw [if_pos hr, if_pos (List.mem_cons_of_mem _ hr)]
        · rw [if_neg hr, if_neg (by simp [hnm, hr])]

/-- C12. In a step, for every neuron `i`, the pair `(atotExcj, atotInhj)` the
integration of neuron `i` is run with is the sum of `a_j*s_j` over the
excitatory neurons `j` other than `i` and the sum over the inhibitory neurons
other than `i`, all taken in the network as it is at the start of the step,
although the loop has by then overwritten the neurons below `i`. So the new
state of neuron `i` is the stepper applied to its state of before the step,
these two sums and `iapp[i]`; and the loop taken over the neurons in any other
order leaves the same network. -/
theorem self_excluded_coupling (do_step : Stepper) (cfg : Config) (s : SimState) (i : Nat)
    (hwf : s.wf cfg) (hp : cfg.pExcNeurons ≤ 1) (hi : i < cfg.nNeurons) :
    ∃ s' x atotExc atotInh, step do_step cfg s = some s' ∧ s.network[i]? = some x ∧
      sumDrive s.network 0 cfg.nExcNeurons = some atotExc ∧
      sumDrive s.network cfg.nExcNeurons cfg.nNeurons = some atotInh ∧
      selfExcluded cfg.nExcNeurons atotExc atotInh i x
        = (∑ j in (Finset.range cfg.nExcNeurons).erase i, driveOf s.network j,
           ∑ j in (Finset.Ico cfg.nExcNeurons cfg.nNeurons).erase i, driveOf s.network j) ∧
      s'.network[i]? = some
        (do_step
          (HH_NeuronModel cfg
            (∑ j in (Finset.range cfg.nExcNeurons).erase i, driveOf s.network j)
            (∑ j in (Finset.Ico cfg.nExcNeurons cfg.nNeurons).erase i, driveOf s.network j)
            (cfg.iapp i))
          x s.t cfg.dt) ∧
      ∀ order : List Nat, order.Perm (List.range cfg.nNeurons) →
        ∃ ls, neuronLoopIn do_step cfg atotExc atotInh s.t order
            { network := s.network
              depolarization := s.depolarization
              mSpikeTrain := s.mSpikeTrain
              sN := { x0 := 0, x1 := 0, x2 := 0, x3 := 0 } } = some ls ∧
          ls.network = s'.network := by
  obtain ⟨x, d, row, hx, hd, hrow⟩ := SimState.wf_getElem? cfg s hwf i hi
  obtain ⟨atotExc, atotInh, _, _, _, s', h1, h2, h3, _, h5, _, _, _, _, _, _, h12⟩ :=
    step_spec do_step cfg s hwf hp
  obtain ⟨w1, w2, w3⟩ := hwf
  have hle := cfg.nExcNeurons_le hp
  have e2 := sumDrive_eq_sum s.network 0 cfg.nExcNeurons (by omega)
  have e3 := sumDrive_eq_sum s.network cfg.nExcNeurons cfg.nNeurons (by omega)
  rw [h2, Option.some.injEq] at e2
  rw [h3, Option.some.injEq] at e3
  have hself := selfExcluded_eq_sum s.network cfg.nExcNeurons cfg.nNeurons i x hi hx
  rw [← e2, ← e3] at hself
  obtain ⟨n1, _, _⟩ := h12 i x d row hx hd hrow
  refine ⟨s', x, atotExc, atotInh, h1, hx, h2, h3, hself, ?_, ?_⟩
  · rw [n1]
    unfold integrateNeuron
    simp only [hself]
  · intro order hperm
    have hnd : order.Nodup := hperm.nodup_iff.mpr (List.nodup_range _)
    have hmem : ∀ n, n ∈ order ↔ n < cfg.nNeurons := fun n => by
      rw [hperm.mem_iff, List.mem_range]
    obtain ⟨ls, c1, c2, c3⟩ := neuronLoopIn_network do_step cfg atotExc atotInh s.t
      cfg.nNeurons order
      { network := s.network
        depolarization := s.depolarization
        mSpikeTrain := s.mSpikeTrain
        sN := { x0 := 0, x1 := 0, x2 := 0, x3 := 0 } }
      hnd (fun n hn => (hmem n).mp hn) w1 w2 w3
    refine ⟨ls, c1, ?_⟩
    apply List.ext_getElem?
    intro n
    rw [c3 n]
    by_cases hn : n < cfg.nNeurons
    · rw [if_pos ((hmem n).mpr hn)]
      obtain ⟨y, dy, ry, hy, hdy, hry⟩ := SimState.wf_getElem? cfg s ⟨w1, w2, w3⟩ n hn
      obtain ⟨m1, _, _⟩ := h12 n y dy ry hy hdy hry
      rw [m1, hy]
      rfl
    · rw [if_neg (fun h => hn ((hmem n).mp h))]
      rw [List.getElem?_eq_none (show s.network.length ≤ n by omega),
        List.getElem?_eq_none (by rw [h5.1]; omega)]

/-- Neuron 1 of four, three of them excitatory. -/
theorem self_excluded_coupling_witness :
    exampleMixedState.wf exampleMixedConfig ∧ exampleMixedConfig.pExcNeurons ≤ 1 ∧
    1 < exampleMixedConfig.nNeurons ∧
    ∃ s' x atotExc atotInh,
      step runge_kutta4_do_step exampleMixedConfig exampleMixedState = some s' ∧
      exampleMixedState.network[1]? = some x ∧
      sumDrive exampleMixedState.network 0 exampleMixedConfig.nExcNeurons = some atotExc ∧
      sumDrive exampleMixedState.network exampleMixedConfig.nExcNeurons
        exampleMixedConfig.nNeurons = some atotInh ∧
      selfExcluded exampleMixedConfig.nExcNeurons atotExc atotInh 1 x
        = (∑ j in (Finset.range exampleMixedConfig.nExcNeurons).erase 1,
             driveOf exampleMixedState.network j,
           ∑ j in (Finset.Ico exampleMixedConfig.nExcNeurons
               exampleMixedConfig.nNeurons).erase 1,
             driveOf exampleMixedState.network j) ∧
      s'.network[1]? = some
        (runge_kutta4_do_step
          (HH_NeuronModel exampleMixedConfig
            (∑ j in (Finset.range exampleMixedConfig.nExcNeurons).erase 1,
              driveOf exampleMixedState.network j)
            (∑ j in (Finset.Ico exampleMixedConfig.nExcNeurons
                exampleMixedConfig.nNeurons).erase 1,
              driveOf exampleMixedState.network j)
            (exampleMixedConfig.iapp 1))
          x exampleMixedState.t exampleMixedConfig.dt) ∧
      ∀ order : List Nat, order.Perm (List.range exampleMixedConfig.nNeurons) →
        ∃ ls, neuronLoopIn runge_kutta4_do_step exampleMixedConfig atotExc atotInh
            exampleMixedState.t order
            { network := exampleMixedState.network
              depolarization := exampleMixedState.depolarization
              mSpikeTrain := exampleMixedState.mSpikeTrain
              sN := { x0 := 0, x1 := 0, x2 := 0, x3 := 0 } } = some ls ∧
          ls.network = s'.network :=
  ⟨⟨rfl, rfl, rfl⟩, by decide!, by decide,
    self_excluded_coupling runge_kutta4_do_step exampleMixedConfig exampleMixedState 1
      ⟨rfl, rfl, rfl⟩ (by decide!) (by decide)⟩

/-! ### The singular points of the rate functions -/

theorem am_eq_div (exp : ℚ → ℚ) (v : ℚ) :
    am exp v = 0.1 * (25 - v) / amDenominator exp v := rfl

theorem an_eq_div (exp : ℚ → ℚ) (v : ℚ) :
    an exp v = 0.01 * (10 - v) / anDenominator exp v := rfl

theorem exampleExp_eq_one (x : ℚ) (h : exampleExp x = 1) : x = 0 := by
  unfold exampleExp at h
  split_ifs at h with hx
  · have hpos : (1 - x) ≠ 0 := by linarith
    field_simp at h
    linarith
  · linarith

/-- C14, as stated, fails at the singular points: at `v = 25` the denominator
of `am` and at `v = 10` the denominator of `an` are zero (the stand-in for
`exp` has the value 1 at 0, as `exp` has), the functions have no other branch,
and the quotients `0/0` they evaluate are not the limits 1 and 0.1. -/
theorem rate_functions_singular_counterexample :
    amDenominator exampleExp 25 = 0 ∧ anDenominator exampleExp 10 = 0 ∧
    am exampleExp 25 = 0.1 * (25 - 25) / amDenominator exampleExp 25 ∧
    an exampleExp 10 = 0.01 * (10 - 10) / anDenominator exampleExp 10 ∧
    am exampleExp 25 ≠ 1 ∧ an exampleExp 10 ≠ 0.1 := by
  refine ⟨?_, ?_, rfl, rfl, ?_, ?_⟩ <;> decide!

/-- C14, amended. With `exp(0) = 1` and `exp(x) = 1` for no other `x` (exact
arithmetic), the denominator of `am(v)` is zero exactly at `v = 25` and the
denominator of `an(v)` exactly at `v = 10`; `am` and `an` are the plain
quotients by these denominators, with no guard, so at the singular points they
evaluate `0/0` and at every other voltage they divide by a non-zero number. -/
theorem rate_functions_denominators (exp : ℚ → ℚ) (h0 : exp 0 = 1)
    (h1 : ∀ x, exp x = 1 → x = 0) :
    (∀ v, amDenominator exp v = 0 ↔ v = 25) ∧
    (∀ v, anDenominator exp v = 0 ↔ v = 10) ∧
    (∀ v, am exp v = 0.1 * (25 - v) / amDenominator exp v) ∧
    (∀ v, an exp v = 0.01 * (10 - v) / anDenominator exp v) ∧
    0.1 * ((25 : ℚ) - 25) = 0 ∧ 0.01 * ((10 : ℚ) - 10) = 0 := by
  refine ⟨?_, ?_, am_eq_div exp, an_eq_div exp, by norm_num, by norm_num⟩
  · intro v
    unfold amDenominator
    constructor
    · intro h
      have := h1 _ (sub_eq_zero.mp h)
      linarith
    · intro h
      subst h
      norm_num [h0]
  · intro v
    unfold anDenominator
    constructor
    · intro h
      have e : exp (0.1 * (10 - v)) = 1 := by
        have := sub_eq_zero.mp h
        rw [this]
        norm_num
      have := h1 _ e
      linarith
    · intro h
      subst h
      norm_num [h0]

/-- The stand-in for `exp`. -/
theorem rate_functions_denominators_witness :
    exampleExp 0 = 1 ∧ (∀ x, exampleExp x = 1 → x = 0) ∧
    (∀ v, amDenominator exampleExp v = 0 ↔ v = 25) ∧
    (∀ v, anDenominator exampleExp v = 0 ↔ v = 10) ∧
    (∀ v, am exampleExp v = 0.1 * (25 - v) / amDenominator exampleExp v) ∧
    (∀ v, an exampleExp v = 0.01 * (10 - v) / anDenominator exampleExp v) ∧
    0.1 * ((25 : ℚ) - 25) = 0 ∧ 0.01 * ((10 : ℚ) - 10) = 0 :=
  ⟨by decide!, exampleExp_eq_one,
    rate_functions_denominators exampleExp (by decide!) exampleExp_eq_one⟩

/-! ### The means of the two classes in a record -/

theorem foldl_activity_eq_sum (l : List NeuronState_v_n_a_s) (lo : Nat) :
    ∀ hi, hi ≤ l.length →
      ((l.take hi).drop lo).foldl (fun acc x => acc + x.x2) 0
        = ∑ j in Finset.Ico lo hi, activityOf l j := by
  intro hi
  induction hi with
  | zero => intro _; simp
  | succ k ih =>
    intro hk
    rcases Nat.lt_or_ge k lo with hlt | hge
    · rw [List.drop_eq_nil_of_le (by rw [List.length_take]; omega),
        Finset.Ico_eq_empty_of_le (by omega)]
      simp
    · rw [List.take_succ_drop_of_lt l lo k hge (by omega), List.foldl_append, ih (by omega),
        Finset.sum_Ico_succ_top hge]
      simp only [List.foldl_cons, List.foldl_nil, activityOf,
        List.getElem?_eq_getElem (show k < l.length by omega)]

theorem sumActivity_eq_sum (network : List NeuronState_v_n_a_s) (lo hi : Nat)
    (h : hi ≤ network.length) :
    sumActivity network lo hi = some (∑ j in Finset.Ico lo hi, activityOf network j) := by
  rw [sumActivity_eq network lo hi h, foldl_activity_eq_sum network lo hi h]

/-- The episode test leaves the records as they are, or appends one record
whose first two elements are the two quotients, and then the phase changes. -/
theorem detectEpisode_record (e : EpisodeState) (sN2 sN_1_2 t dt aExc aInh : ℚ) :
    ((detectEpisode e sN2 sN_1_2 t dt aExc aInh).networkOutputs = e.networkOutputs ∧
      (detectEpisode e sN2 sN_1_2 t dt aExc aInh).activePhase = e.activePhase) ∨
    (∃ r, (detectEpisode e sN2 sN_1_2 t dt aExc aInh).networkOutputs
        = e.networkOutputs ++ [r] ∧ r.x0 = aExc ∧ r.x1 = aInh ∧
      (detectEpisode e sN2 sN_1_2 t dt aExc aInh).activePhase ≠ e.activePhase) := by
  cases hph : e.activePhase with
  | false =>
    rw [detectEpisode_of_inactive e _ _ _ _ _ _ hph]
    split
    · exact Or.inr ⟨_, rfl, rfl, rfl, by simp⟩
    · exact Or.inl ⟨rfl, hph⟩
  | true =>
    rw [detectEpisode_of_active e _ _ _ _ _ _ hph]
    split
    · exact Or.inr ⟨_, rfl, rfl, rfl, by simp⟩
    · exact Or.inl ⟨rfl, hph⟩

/-- C17, as stated, fails for the fraction 1.0: with the constants and defaults
of the source `nInhNeurons` is 0, and so it is in the one-neuron configuration
whose run appends its first record (a phase start) in the second step: the
second element of that record is `actTotalInh/0`. -/
theorem inhibitory_mean_counterexample :
    0 < exampleDefaultConfig.pExcNeurons ∧ exampleDefaultConfig.pExcNeurons ≤ 1 ∧
    exampleDefaultConfig.nExcNeurons = 100 ∧ exampleDefaultConfig.nInhNeurons = 0 ∧
    0 < exampleCoarseConfig.pExcNeurons ∧ exampleCoarseConfig.pExcNeurons ≤ 1 ∧
    exampleCoarseConfig.nInhNeurons = 0 ∧
    (simulate runge_kutta4_do_step exampleCoarseConfig 1).map
        (fun s => (s.activePhase, s.networkOutputs.length)) = some (false, 0) ∧
    (simulate runge_kutta4_do_step exampleCoarseConfig 2).map
        (fun s => (s.activePhase, s.networkOutputs.length)) = some (true, 1) := by
  refine ⟨?_, ?_, ?_, ?_, ?_, ?_, ?_, ?_, ?_⟩ <;> decide!

/-- C17, amended. For an excitatory fraction `p <= 1`, in every step
`nInhNeurons` is `nNeurons - nExcNeurons`, and a record appended in the step
(one is appended at every change of phase) has these first two elements: when
there is an excitatory neuron (`0 < nExcNeurons`) the divisor `nExcNeurons` is
not zero and element 0 is the sum of `a` over the excitatory neurons of the new
network divided by their number; when there is an inhibitory neuron
(`nExcNeurons < nNeurons`) the divisor `nInhNeurons` is not zero and element 1
is the sum of `a` over the inhibitory neurons divided by their number. For the
fraction 1.0 every neuron is excitatory and the divisor `nInhNeurons` of
element 1 is zero. -/
theorem class_means_in_record (do_step : Stepper) (cfg : Config) (s : SimState)
    (hwf : s.wf cfg) (hp1 : cfg.pExcNeurons ≤ 1) :
    ∃ s', step do_step cfg s = some s' ∧
      cfg.nInhNeurons = cfg.nNeurons - cfg.nExcNeurons ∧
      (cfg.pExcNeurons = 1 → cfg.nExcNeurons = cfg.nNeurons ∧ cfg.nInhNeurons = 0) ∧
      ((s'.networkOutputs = s.networkOutputs ∧ s'.activePhase = s.activePhase) ∨
        (∃ r, s'.networkOutputs = s.networkOutputs ++ [r] ∧ s'.activePhase ≠ s.activePhase ∧
          (0 < cfg.nExcNeurons →
            (cfg.nExcNeurons : ℚ) ≠ 0 ∧
            r.x0 = (∑ j in Finset.range cfg.nExcNeurons, activityOf s'.network j)
              / (cfg.nExcNeurons : ℚ)) ∧
          (cfg.nExcNeurons < cfg.nNeurons →
            (cfg.nInhNeurons : ℚ) ≠ 0 ∧
            r.x1 = (∑ j in Finset.Ico cfg.nExcNeurons cfg.nNeurons, activityOf s'.network j)
              / ((cfg.nNeurons - cfg.nExcNeurons : ℕ) : ℚ)))) := by
  obtain ⟨_, _, sN_1, actTotalExc, actTotalInh, s', h1, _, _, _, h5, _, _, h8, h9, h10, _⟩ :=
    step_spec do_step cfg s hwf hp1
  have hle := cfg.nExcNeurons_le hp1
  have hinh := cfg.nInhNeurons_eq hp1
  have b1 := sumActivity_eq_sum s'.network 0 cfg.nExcNeurons (by rw [h5.1]; omega)
  have b2 := sumActivity_eq_sum s'.network cfg.nExcNeurons cfg.nNeurons (by rw [h5.1])
  rw [h8, Option.some.injEq] at b1
  rw [h9, Option.some.injEq] at b2
  rw [← Finset.range_eq_Ico] at b1
  refine ⟨s', h1, hinh, ?_, ?_⟩
  · intro hp
    have hE := cfg.nExcNeurons_of_one hp
    refine ⟨hE, ?_⟩
    rw [hinh, hE, Nat.sub_self]
  · have hrec := detectEpisode_record
      (EpisodeState.mk s.activePhase s.burstCount s.networkOutputs)
      ((s'.network.foldl myArrayDouble4.add { x0 := 0, x1 := 0, x2 := 0, x3 := 0 }).divN
        cfg.nNeurons).x2
      sN_1.x2 s.t cfg.dt
      (actTotalExc / (cfg.nExcNeurons : ℚ)) (actTotalInh / (cfg.nInhNeurons : ℚ))
    rw [← h10] at hrec
    rcases hrec with ⟨r1, r2⟩ | ⟨r, r1, r2, r3, r4⟩
    · exact Or.inl ⟨r1, r2⟩
    · refine Or.inr ⟨r, r1, r4, ?_, ?_⟩
      · intro hE
        refine ⟨?_, ?_⟩
        · exact_mod_cast (Nat.pos_iff_ne_zero.mp hE)
        · rw [r2, b1]
      · intro hI
        refine ⟨?_, ?_⟩
        · rw [hinh]
          have : cfg.nNeurons - cfg.nExcNeurons ≠ 0 := by omega
          exact_mod_cast this
        · rw [r3, b2, hinh]

/-- Two steps in which a record is appended. In a Runge-Kutta step of four
neurons, three of them excitatory, from an active phase, the phase ends and the
record holds the two means. In a Runge-Kutta step of one neuron with the
fraction 1.0 from an inactive phase, the phase starts, element 0 of the record
is the mean over the one excitatory neuron and `nInhNeurons` is 0. -/
theorem class_means_in_record_witness :
    (exampleMixedActiveState.wf exampleMixedConfig ∧ exampleMixedConfig.pExcNeurons ≤ 1 ∧
      exampleMixedConfig.nExcNeurons = 3 ∧ exampleMixedConfig.nInhNeurons = 1 ∧
      (step runge_kutta4_do_step exampleMixedConfig exampleMixedActiveState).map
          (fun s => (s.activePhase, s.networkOutputs.map (fun r => r.x2), s.burstCount))
        = some (false, [-1], 1) ∧
      ∃ s', step runge_kutta4_do_step exampleMixedConfig exampleMixedActiveState = some s' ∧
        exampleMixedConfig.nInhNeurons
          = exampleMixedConfig.nNeurons - exampleMixedConfig.nExcNeurons ∧
        (exampleMixedConfig.pExcNeurons = 1 →
          exampleMixedConfig.nExcNeurons = exampleMixedConfig.nNeurons ∧
          exampleMixedConfig.nInhNeurons = 0) ∧
        ((s'.networkOutputs = exampleMixedActiveState.networkOutputs ∧
            s'.activePhase = exampleMixedActiveState.activePhase) ∨
          (∃ r, s'.networkOutputs = exampleMixedActiveState.networkOutputs ++ [r] ∧
            s'.activePhase ≠ exampleMixedActiveState.activePhase ∧
            (0 < exampleMixedConfig.nExcNeurons →
              (exampleMixedConfig.nExcNeurons : ℚ) ≠ 0 ∧
              r.x0 = (∑ j in Finset.range exampleMixedConfig.nExcNeurons, activityOf s'.network j)
                / (exampleMixedConfig.nExcNeurons : ℚ)) ∧
            (exampleMixedConfig.nExcNeurons < exampleMixedConfig.nNeurons →
              (exampleMixedConfig.nInhNeurons : ℚ) ≠ 0 ∧
              r.x1 = (∑ j in Finset.Ico exampleMixedConfig.nExcNeurons exampleMixedConfig.nNeurons,
                  activityOf s'.network j)
                / ((exampleMixedConfig.nNeurons - exampleMixedConfig.nExcNeurons : ℕ) : ℚ))))) ∧
    (exampleRisingState.wf exampleCoarseConfig ∧ exampleCoarseConfig.pExcNeurons ≤ 1 ∧
      exampleCoarseConfig.pExcNeurons = 1 ∧
      exampleCoarseConfig.nExcNeurons = 1 ∧ exampleCoarseConfig.nInhNeurons = 0 ∧
      (step runge_kutta4_do_step exampleCoarseConfig exampleRisingState).map
          (fun s => (s.activePhase, s.networkOutputs.map (fun r => r.x2), s.burstCount))
        = some (true, [1], 0) ∧
      ∃ s', step runge_kutta4_do_step exampleCoarseConfig exampleRisingState = some s' ∧
        exampleCoarseConfig.nInhNeurons
          = exampleCoarseConfig.nNeurons - exampleCoarseConfig.nExcNeurons ∧
        (exampleCoarseConfig.pExcNeurons = 1 →
          exampleCoarseConfig.nExcNeurons = exampleCoarseConfig.nNeurons ∧
          exampleCoarseConfig.nInhNeurons = 0) ∧
        ((s'.networkOutputs = exampleRisingState.networkOutputs ∧
            s'.activePhase = exampleRisingState.activePhase) ∨
          (∃ r, s'.networkOutputs = exampleRisingState.networkOutputs ++ [r] ∧
            s'.activePhase ≠ exampleRisingState.activePhase ∧
            (0 < exampleCoarseConfig.nExcNeurons →
              (exampleCoarseConfig.nExcNeurons : ℚ) ≠ 0 ∧
              r.x0 = (∑ j in Finset.range exampleCoarseConfig.nExcNeurons, activityOf s'.network j)
                / (exampleCoarseConfig.nExcNeurons : ℚ)) ∧
            (exampleCoarseConfig.nExcNeurons < exampleCoarseConfig.nNeurons →
              (exampleCoarseConfig.nInhNeurons : ℚ) ≠ 0 ∧
              r.x1 = (∑ j in Finset.Ico exampleCoarseConfig.nExcNeurons
                    exampleCoarseConfig.nNeurons, activityOf s'.network j)
                / ((exampleCoarseConfig.nNeurons - exampleCoarseConfig.nExcNeurons : ℕ) : ℚ))))) :=
  ⟨⟨⟨rfl, rfl, rfl⟩, by decide!, by decide!, by decide!, by decide!,
      class_means_in_record runge_kutta4_do_step exampleMixedConfig exampleMixedActiveState
        ⟨rfl, rfl, rfl⟩ (by decide!)⟩,
    ⟨⟨rfl, rfl, rfl⟩, by decide!, by decide!, by decide!, by decide!, by decide!,
      class_means_in_record runge_kutta4_do_step exampleCoarseConfig exampleRisingState
        ⟨rfl, rfl, rfl⟩ (by decide!)⟩⟩

/-! ### The validation of the parameters -/

theorem parseVInh_ok (strtod : String → ParsedDouble) (opt : String) (val : Option String)
    (g g1 : Parameters) (h : parseVInh strtod opt val g = .ok g1)
    (hv : g.vInh.passesVInhTest) :
    g1.vInh.passesVInhTest ∧ g1.pExcNeurons = g.pExcNeurons := by
  unfold parseVInh at h
  split_ifs at h with ho
  · cases val with
    | none => cases h
    | some v =>
      simp only at h
      split_ifs at h with hc
      injection h with h
      subst h
      refine ⟨?_, rfl⟩
      simp only [Bool.or_eq_true, not_or, Bool.not_eq_true] at hc
      obtain ⟨c1, c2⟩ := hc
      cases hs : strtod v with
      | nan => exact Or.inl rfl
      | posInf =>
        rw [hs] at c2
        simp [ParsedDouble.lt] at c2
      | negInf =>
        rw [hs] at c1
        simp [ParsedDouble.lt] at c1
      | finite q =>
        rw [hs] at c1 c2
        simp only [ParsedDouble.lt, decide_eq_false_iff_not, not_lt] at c1 c2
        exact Or.inr ⟨q, rfl, by linarith, by linarith⟩
  · injection h with h
    subst h
    exact ⟨hv, rfl⟩

theorem parseNBurst_ok (strtod : String → ParsedDouble) (opt : String) (val : Option String)
    (g g1 : Parameters) (h : parseNBurst strtod opt val g = .ok g1) :
    g1.vInh = g.vInh ∧ g1.pExcNeurons = g.pExcNeurons := by
  unfold parseNBurst at h
  split_ifs at h with ho
  · cases val with
    | none => cases h
    | some v =>
      injection h with h
      subst h
      exact ⟨rfl, rfl⟩
  · injection h with h
    subst h
    exact ⟨rfl, rfl⟩

theorem parsePExcN_ok (strtod : String → ParsedDouble) (opt : String) (val : Option String)
    (g g1 : Parameters) (h : parsePExcN strtod opt val g = .ok g1)
    (hv : g.pExcNeurons.passesPExcNTest) :
    g1.pExcNeurons.passesPExcNTest ∧ g1.vInh = g.vInh := by
  unfold parsePExcN at h
  split_ifs at h with ho
  · cases val with
    | none => cases h
    | some v =>
      simp only at h
      split_ifs at h with hc
      injection h with h
      subst h
      refine ⟨?_, rfl⟩
      simp only [Bool.or_eq_true, not_or, Bool.not_eq_true] at hc
      obtain ⟨c1, c2⟩ := hc
      cases hs : strtod v with
      | nan => exact Or.inl rfl
      | posInf =>
        rw [hs] at c2
        simp [ParsedDouble.lt] at c2
      | negInf =>
        rw [hs] at c1
        simp [ParsedDouble.le] at c1
      | finite q =>
        rw [hs] at c1 c2
        simp only [ParsedDouble.le, ParsedDouble.lt, decide_eq_false_iff_not, not_lt,
          not_le] at c1 c2
        exact Or.inr ⟨q, rfl, c1, c2⟩
  · injection h with h
    subst h
    exact ⟨hv, rfl⟩

theorem parseBlocks_ok (strtod : String → ParsedDouble) (opt : String) (val : Option String)
    (g g3 : Parameters)
    (h : ((parseVInh strtod opt val g).bind fun g1 =>
      (parseNBurst strtod opt val g1).bind fun g2 => parsePExcN strtod opt val g2) = .ok g3)
    (hv : g.vInh.passesVInhTest) (hq : g.pExcNeurons.passesPExcNTest) :
    g3.vInh.passesVInhTest ∧ g3.pExcNeurons.passesPExcNTest := by
  cases h1 : parseVInh strtod opt val g with
  | error e => rw [h1] at h; cases h
  | ok g1 =>
    rw [h1] at h
    simp only [Except.bind] at h
    cases h2 : parseNBurst strtod opt val g1 with
    | error e => rw [h2] at h; cases h
    | ok g2 =>
      rw [h2] at h
      simp only at h
      obtain ⟨a1, a2⟩ := parseVInh_ok strtod opt val g g1 h1 hv
      obtain ⟨b1, b2⟩ := parseNBurst_ok strtod opt val g1 g2 h2
      obtain ⟨c1, c2⟩ := parsePExcN_ok strtod opt val g2 g3 h (by rw [b2, a2]; exact hq)
      exact ⟨by rw [c2, b1]; exact a1, c1⟩

theorem parseLoop_ok (strtod : String → ParsedDouble) :
    ∀ (l : List String) (g g' : Parameters), parseLoop strtod l g = .ok g' →
      g.vInh.passesVInhTest → g.pExcNeurons.passesPExcNTest →
      g'.vInh.passesVInhTest ∧ g'.pExcNeurons.passesPExcNTest
  | [], g, g', h, hv, hq => by
    unfold parseLoop at h
    injection h with h
    subst h
    exact ⟨hv, hq⟩
  | [opt], g, g', h, hv, hq => by
    unfold parseLoop at h
    exact parseBlocks_ok strtod opt none g g' h hv hq
  | opt :: val :: rest, g, g', h, hv, hq => by
    unfold parseLoop at h
    cases h3 : ((parseVInh strtod opt (some val) g).bind fun g1 =>
      (parseNBurst strtod opt (some val) g1).bind fun g2 =>
        parsePExcN strtod opt (some val) g2) with
    | error e =>
      exfalso
      cases h1 : parseVInh strtod opt (some val) g with
      | error e1 => rw [h1] at h; cases h
      | ok g1 =>
        rw [h1] at h h3
        simp only [Except.bind] at h h3
        cases h2 : parseNBurst strtod opt (some val) g1 with
        | error e2 => rw [h2] at h; cases h
        | ok g2 =>
          rw [h2] at h h3
          simp only at h h3
          rw [h3] at h
          cases h
    | ok g3 =>
      obtain ⟨a1, a2⟩ := parseBlocks_ok strtod opt (some val) g g3 h3 hv hq
      have hrest : parseLoop strtod rest g3 = .ok g' := by
        cases h1 : parseVInh strtod opt (some val) g with
        | error e1 => rw [h1] at h; cases h
        | ok g1 =>
          rw [h1] at h h3
          simp only [Except.bind] at h h3
          cases h2 : parseNBurst strtod opt (some val) g1 with
          | error e2 => rw [h2] at h; cases h
          | ok g2 =>
            rw [h2] at h h3
            simp only at h h3
            rw [h3] at h
            exact h
      exact parseLoop_ok strtod rest g3 g' hrest a1 a2

/-- What the validation does ensure: when `parseParameters` returns a
non-negative value from the initial globals, `vInh` is a number of `[-12, 70]`
or NaN and `pExcNeurons` is a number of `]0, 1]` or NaN. -/
theorem parseParameters_range_or_nan (strtod : String → ParsedDouble) (argv : List String)
    (h : 0 ≤ (parseParameters strtod argv Parameters.initial).1) :
    (parseParameters strtod argv Parameters.initial).2.vInh.passesVInhTest ∧
    (parseParameters strtod argv Parameters.initial).2.pExcNeurons.passesPExcNTest := by
  have hv : Parameters.initial.vInh.passesVInhTest :=
    Or.inr ⟨-12, rfl, by norm_num, by norm_num⟩
  have hq : Parameters.initial.pExcNeurons.passesPExcNTest :=
    Or.inr ⟨1, rfl, by norm_num, by norm_num⟩
  unfold parseParameters at h ⊢
  split_ifs at h ⊢ with hlen
  · simp at h
  · cases hl : parseLoop strtod (argv.drop 1) Parameters.initial with
    | error e =>
      rw [hl] at h
      simp at h
    | ok g' => exact parseLoop_ok strtod _ _ g' hl hv hq

/-- C16 fails on the code. With the arguments `-vInh nan` the value `strtod`
returns is NaN, both comparisons of the range test (`vInh<-12.0`,
`vInh>70.0`) are false, `parseParameters` returns 1 with `vInh` NaN, which is
not inside `[-12, 70]`, and `main` starts the simulation; `-pExcN nan` passes
the test of the fraction in the same way. -/
theorem parseParameters_accepts_nan :
    parseParameters exampleStrtod ["prog", "-vInh", "nan"] Parameters.initial
      = (1, { vInh := .nan, maxNumBurst := some 200, pExcNeurons := .finite 1 }) ∧
    mainStartsSimulation exampleStrtod ["prog", "-vInh", "nan"] = true ∧
    (ParsedDouble.finite (-12)).le .nan = false ∧
    parseParameters exampleStrtod ["prog", "-pExcN", "nan"] Parameters.initial
      = (1, { vInh := .finite (-12), maxNumBurst := some 200, pExcNeurons := .nan }) ∧
    mainStartsSimulation exampleStrtod ["prog", "-pExcN", "nan"] = true ∧
    (ParsedDouble.finite 0).lt .nan = false ∧
    parseParameters exampleStrtod ["prog", "-vInh", "100"] Parameters.initial
      = (-1, { vInh := .finite 100, maxNumBurst := some 200, pExcNeurons := .finite 1 }) := by
  refine ⟨?_, ?_, ?_, ?_, ?_, ?_, ?_⟩ <;> decide!

/-! ### The spike trains of a run -/

theorem detectSpike_call_iff (d : Bool) (v v_1 dt : ℚ) :
    (detectSpike d v v_1 dt).2 = true ↔ d = true ∧ (detectSpike d v v_1 dt).1 = false := by
  cases d with
  | false =>
    rw [detectSpike_of_quiescent]
    split <;> simp
  | true =>
    rw [detectSpike_of_depolarized]
    split <;> simp

/-- One evaluation of the `while` on a state in which every stored spike time
is earlier than the time `t`: the row of a neuron grows by `t` exactly when its
flag goes from true to false, and afterwards every stored time is earlier than
the new time. -/
theorem whileIter_spikes (do_step : Stepper) (cfg : Config) (s : SimState) (hwf : s.wf cfg)
    (hp : cfg.pExcNeurons ≤ 1) (hdt : 0 < cfg.dt)
    (hrows : ∀ (n : Nat) (row : List ℚ), s.mSpikeTrain.mSpikeTrain[n]? = some row →
      ∀ y ∈ row, y < s.t) :
    ∃ s', whileIter do_step cfg s = some s' ∧ s'.wf cfg ∧
      (loopCond cfg s = true → s'.t = s.t + cfg.dt) ∧
      (∀ (n : Nat) (row : List ℚ), s'.mSpikeTrain.mSpikeTrain[n]? = some row →
        ∀ y ∈ row, y < s'.t) ∧
      ∀ n, n < cfg.nNeurons → ∃ d d' row, s.depolarization[n]? = some d ∧
        s'.depolarization[n]? = some d' ∧ s.mSpikeTrain.mSpikeTrain[n]? = some row ∧
        s'.mSpikeTrain.mSpikeTrain[n]? = some
          (if d = true ∧ d' = false then row ++ [s.t] else row) := by
  unfold whileIter
  by_cases hl : loopCond cfg s = true
  · rw [if_pos hl]
    obtain ⟨s', _, _, _, _, h1, h2, _, _, _, h6, _⟩ := step_episode do_step cfg s hwf hp
    have hper : ∀ n, n < cfg.nNeurons → ∃ d d' row, s.depolarization[n]? = some d ∧
        s'.depolarization[n]? = some d' ∧ s.mSpikeTrain.mSpikeTrain[n]? = some row ∧
        s'.mSpikeTrain.mSpikeTrain[n]? = some
          (if d = true ∧ d' = false then row ++ [s.t] else row) := by
      intro n hn
      obtain ⟨s'', x, x', d, row, g1, _, _, _, g5, g6, g7, g8⟩ :=
        step_neuron do_step cfg s n hwf hp hn
      rw [h1, Option.some.injEq] at g1
      subst g1
      refine ⟨d, _, row, g5, g6, g7, ?_⟩
      rw [g8]
      have hlast : ∀ y ∈ row.getLast?, y < s.t := fun y hy =>
        hrows n row g7 y (List.mem_of_mem_getLast? hy)
      congr 1
      by_cases hc : (detectSpike d x'.x0 x.x0 cfg.dt).2 = true
      · rw [if_pos ⟨hc, hlast⟩, if_pos ((detectSpike_call_iff _ _ _ _).mp hc)]
      · rw [if_neg (fun h => hc h.1),
          if_neg (fun h => hc ((detectSpike_call_iff _ _ _ _).mpr h))]
    refine ⟨s', h1, h2, fun _ => h6, ?_, hper⟩
    intro n row hrow y hy
    have hn : n < cfg.nNeurons := by
      rcases Nat.lt_or_ge n cfg.nNeurons with h | h
      · exact h
      · rw [List.getElem?_eq_none (by rw [h2.2.2]; exact h)] at hrow
        cases hrow
    obtain ⟨d, d', row0, _, _, e3, e4⟩ := hper n hn
    rw [hrow, Option.some.injEq] at e4
    rw [h6]
    rw [e4] at hy
    split at hy
    · rw [List.mem_append, List.mem_singleton] at hy
      rcases hy with h | h
      · have := hrows n row0 e3 y h
        linarith
      · rw [h]
        linarith
    · have := hrows n row0 e3 y hy
      linarith
  · rw [if_neg hl]
    refine ⟨s, rfl, hwf, fun h => absurd h hl, hrows, ?_⟩
    intro n hn
    obtain ⟨_, d, row, _, hd, hrow⟩ := SimState.wf_getElem? cfg s hwf n hn
    refine ⟨d, d, row, hd, hd, hrow, ?_⟩
    rw [hrow]
    cases d <;> simp

/-- After every number of evaluations of the `while`, every stored spike time
is earlier than the time of the state, and the row of each neuron has as many
entries as its flag went from true to false. -/
theorem simulate_spikes (do_step : Stepper) (cfg : Config) (hN : 0 < cfg.nNeurons)
    (hp : cfg.pExcNeurons ≤ 1) (hdt : 0 < cfg.dt) :
    ∀ k, ∃ a, simulate do_step cfg k = some a ∧ a.wf cfg ∧
      (∀ (n : Nat) (row : List ℚ), a.mSpikeTrain.mSpikeTrain[n]? = some row →
        ∀ y ∈ row, y < a.t) ∧
      ∀ n, n < cfg.nNeurons → ∃ row, a.mSpikeTrain.mSpikeTrain[n]? = some row ∧
        row.length = repolarizations do_step cfg n k := by
  obtain ⟨s0, h0, w0, _, _, _, _, _, _, r0⟩ := initState_eq cfg hN
  intro k
  induction k with
  | zero =>
    refine ⟨s0, ?_, w0, ?_, ?_⟩
    · rw [simulate_eq do_step cfg s0 h0]
      rfl
    · intro n row hrow y hy
      rw [r0] at hrow
      have hmem := List.getElem?_mem hrow
      rw [List.eq_of_mem_replicate hmem] at hy
      cases hy
    · intro n hn
      refine ⟨[], ?_, rfl⟩
      rw [r0, List.getElem?_replicate]
      simp [hn]
  | succ k ih =>
    obtain ⟨a, i1, i2, i3, i4⟩ := ih
    obtain ⟨b, j1, j2, _, j4, j5⟩ := whileIter_spikes do_step cfg a i2 hp hdt i3
    have hb : simulate do_step cfg (k + 1) = some b := by
      rw [simulate_eq do_step cfg s0 h0] at i1 ⊢
      rw [iterLoop_succ_of_some do_step cfg s0 a k i1]
      exact j1
    refine ⟨b, hb, j2, j4, ?_⟩
    intro n hn
    obtain ⟨row, e1, e2⟩ := i4 n hn
    obtain ⟨d, d', row', f1, f2, f3, f4⟩ := j5 n hn
    rw [e1, Option.some.injEq] at f3
    subst f3
    refine ⟨_, f4, ?_⟩
    simp only [repolarizations, i1, hb, f1, f2, Option.some.injEq]
    split
    · rw [List.length_append, e2]
      rfl
    · rw [e2]
      rfl

/-- C21. In a run with `dt > 0`, the call `addSpikeTimeToNeuron(n, t)` made
when the flag of neuron `n` goes from true to false is accepted: every time
stored for `n` is earlier than the time `t` of the step, so the call returns
the store with `t` appended to the row of `n` and writes no message; when the
flag does not make that change the row is left as it is. After every number
of evaluations of the `while` the row of `n` has as many entries as the flag of
`n` went from true to false. -/
theorem spike_calls_accepted (do_step : Stepper) (cfg : Config) (k n : Nat)
    (hN : 0 < cfg.nNeurons) (hp : cfg.pExcNeurons ≤ 1) (hdt : 0 < cfg.dt)
    (hn : n < cfg.nNeurons) :
    ∃ a b d d' row row', simulate do_step cfg k = some a ∧
      simulate do_step cfg (k + 1) = some b ∧
      a.depolarization[n]? = some d ∧ b.depolarization[n]? = some d' ∧
      a.mSpikeTrain.mSpikeTrain[n]? = some row ∧ b.mSpikeTrain.mSpikeTrain[n]? = some row' ∧
      row.length = repolarizations do_step cfg n k ∧
      row'.length = repolarizations do_step cfg n (k + 1) ∧
      (∀ y ∈ row, y < a.t) ∧
      (loopCond cfg a = true → b.t = a.t + cfg.dt) ∧
      ((d = true ∧ d' = false) →
        row' = row ++ [a.t] ∧
        ∃ st, a.mSpikeTrain.addSpikeTimeToNeuron n a.t = ([], some st) ∧
          st.mSpikeTrain[n]? = some (row ++ [a.t])) ∧
      (¬ (d = true ∧ d' = false) → row' = row) := by
  obtain ⟨s0, h0, _⟩ := initState_eq cfg hN
  obtain ⟨a, i1, i2, i3, i4⟩ := simulate_spikes do_step cfg hN hp hdt k
  obtain ⟨b', k1, _, _, k4⟩ := simulate_spikes do_step cfg hN hp hdt (k + 1)
  obtain ⟨b, j1, _, j3, _, j5⟩ := whileIter_spikes do_step cfg a i2 hp hdt i3
  have hb : simulate do_step cfg (k + 1) = some b := by
    rw [simulate_eq do_step cfg s0 h0] at i1 ⊢
    rw [iterLoop_succ_of_some do_step cfg s0 a k i1]
    exact j1
  rw [hb, Option.some.injEq] at k1
  subst k1
  obtain ⟨row, e1, e2⟩ := i4 n hn
  obtain ⟨rowb, g1, g2⟩ := k4 n hn
  obtain ⟨d, d', row0, f1, f2, f3, f4⟩ := j5 n hn
  rw [e1, Option.some.injEq] at f3
  subst f3
  rw [g1, Option.some.injEq] at f4
  refine ⟨a, b, d, d', row, rowb, i1, hb, f1, f2, e1, g1, e2, g2, i3 n row e1, j3, ?_, ?_⟩
  · intro hc
    rw [if_pos hc] at f4
    refine ⟨f4, ?_⟩
    have hin := SpikeTrain.addSpikeTimeToNeuron_inRange a.mSpikeTrain n a.t row e1
    have hlast : ∀ y ∈ row.getLast?, y < a.t := fun y hy =>
      i3 n row e1 y (List.mem_of_mem_getLast? hy)
    rw [if_pos hlast] at hin
    refine ⟨_, hin, ?_⟩
    have hlt : n < a.mSpikeTrain.mSpikeTrain.length := by rw [i2.2.2]; exact hn
    simp [List.getElem?_set, hlt]
  · intro hc
    rw [if_neg hc] at f4
    exact f4

/-- Neuron 0 in the second evaluation of a run in which the voltage is 41 after
the first step and 0 after the second: the flag goes from true to false, the
call `addSpikeTimeToNeuron(0, 0.01)` is made on the empty row and its time is
stored. -/
theorem spike_calls_accepted_witness :
    0 < exampleConfig.nNeurons ∧ exampleConfig.pExcNeurons ≤ 1 ∧ 0 < exampleConfig.dt ∧
    0 < exampleConfig.nNeurons ∧
    (simulate exampleSpike exampleConfig 1).map
        (fun s => (s.depolarization, s.mSpikeTrain.mSpikeTrain, s.t))
      = some ([true], [[]], 1 / 100) ∧
    (simulate exampleSpike exampleConfig (1 + 1)).map
        (fun s => (s.depolarization, s.mSpikeTrain.mSpikeTrain, s.t))
      = some ([false], [[1 / 100]], 2 / 100) ∧
    repolarizations exampleSpike exampleConfig 0 1 = 0 ∧
    repolarizations exampleSpike exampleConfig 0 (1 + 1) = 1 ∧
    ∃ a b d d' row row', simulate exampleSpike exampleConfig 1 = some a ∧
      simulate exampleSpike exampleConfig (1 + 1) = some b ∧
      a.depolarization[0]? = some d ∧ b.depolarization[0]? = some d' ∧
      a.mSpikeTrain.mSpikeTrain[0]? = some row ∧ b.mSpikeTrain.mSpikeTrain[0]? = some row' ∧
      row.length = repolarizations exampleSpike exampleConfig 0 1 ∧
      row'.length = repolarizations exampleSpike exampleConfig 0 (1 + 1) ∧
      (∀ y ∈ row, y < a.t) ∧
      (loopCond exampleConfig a = true → b.t = a.t + exampleConfig.dt) ∧
      ((d = true ∧ d' = false) →
        row' = row ++ [a.t] ∧
        ∃ st, a.mSpikeTrain.addSpikeTimeToNeuron 0 a.t = ([], some st) ∧
          st.mSpikeTrain[0]? = some (row ++ [a.t])) ∧
      (¬ (d = true ∧ d' = false) → row' = row) :=
  ⟨by decide, by decide!, by decide!, by decide, by decide!, by decide!, by decide!, by decide!,
    spike_calls_accepted exampleSpike exampleConfig 1 0 (by decide) (by decide!)
      (by decide!) (by decide)⟩

/-! ### The order of the episode records -/

/-- What holds of the records of a run: the count, the bound on their element
2, and the signs and order of the elements 2 by position. -/
theorem whileIter_records (do_step : Stepper) (cfg : Config) (s : SimState) (hwf : s.wf cfg)
    (hp : cfg.pExcNeurons ≤ 1) (hdt : 0 < cfg.dt) (hmax : cfg.maxNumBurst < UINT_SIZE)
    (ht0 : 0 ≤ s.t) (hact : s.activePhase = true → 0 < s.t)
    (hlen : s.networkOutputs.length = 2 * s.burstCount + (if s.activePhase then 1 else 0))
    (hbound : ∀ r ∈ s.networkOutputs, r.x2 < s.t)
    (hpos : ∀ (i : Nat) (r : myArrayDouble4), s.networkOutputs[i]? = some r →
      (i % 2 = 0 → 0 ≤ r.x2) ∧
      (i % 2 = 1 → r.x2 < 0 ∧
        ∃ r0, s.networkOutputs[i - 1]? = some r0 ∧ 0 ≤ r0.x2 ∧ r0.x2 < |r.x2|)) :
    ∃ s', whileIter do_step cfg s = some s' ∧
      s'.networkOutputs.length = 2 * s'.burstCount + (if s'.activePhase then 1 else 0) ∧
      (∀ r ∈ s'.networkOutputs, r.x2 < s'.t) ∧
      (∀ (i : Nat) (r : myArrayDouble4), s'.networkOutputs[i]? = some r →
        (i % 2 = 0 → 0 ≤ r.x2) ∧
        (i % 2 = 1 → r.x2 < 0 ∧
          ∃ r0, s'.networkOutputs[i - 1]? = some r0 ∧ 0 ≤ r0.x2 ∧ r0.x2 < |r.x2|)) ∧
      (s'.networkOutputs = s.networkOutputs ∨
        ∃ r, s'.networkOutputs = s.networkOutputs ++ [r] ∧
          ((s.networkOutputs.length % 2 = 0 ∧ s.activePhase = false ∧ s'.activePhase = true ∧
              r.x2 = s.t) ∨
           (s.networkOutputs.length % 2 = 1 ∧ s.activePhase = true ∧ s'.activePhase = false ∧
              r.x2 = -s.t))) := by
  unfold whileIter
  by_cases hl : loopCond cfg s = true
  · rw [if_pos hl]
    have hb : s.burstCount < cfg.maxNumBurst := ((loopCond_iff cfg s).mp hl).1
    have hmod : (s.burstCount + 1) % UINT_SIZE = s.burstCount + 1 :=
      Nat.mod_eq_of_lt (by omega)
    obtain ⟨s', sN_1, sN, aExc, aInh, h1, _, _, _, _, h6, h7⟩ :=
      step_episode do_step cfg s hwf hp
    refine ⟨s', h1, ?_⟩
    cases hph : s.activePhase with
    | false =>
      rw [hph] at hlen
      simp only [Bool.false_eq_true, if_false, Nat.add_zero] at hlen
      rw [detectEpisode_of_inactive _ _ _ _ _ _ _ hph] at h7
      by_cases hc : sN.x2 ≥ thA ∧ (sN.x2 - sN_1.x2) / cfg.dt > thDA
      · rw [if_pos hc] at h7
        simp only [EpisodeState.mk.injEq] at h7
        obtain ⟨e1, e2, e3⟩ := h7
        refine ⟨?_, ?_, ?_, Or.inr ⟨_, e3, Or.inl ⟨by omega, rfl, e1, rfl⟩⟩⟩
        · rw [e1, e2, e3, List.length_append, hlen]
          simp
        · intro r hr
          rw [e3, List.mem_append, List.mem_singleton] at hr
          rw [h6]
          rcases hr with h | h
          · have := hbound r h
            linarith
          · rw [h]
            simp only
            linarith
        · intro i r hr
          rw [e3] at hr ⊢
          rcases Nat.lt_or_ge i s.networkOutputs.length with hi | hi
          · rw [List.getElem?_append_left hi] at hr
            obtain ⟨p1, p2⟩ := hpos i r hr
            refine ⟨p1, fun hodd => ?_⟩
            obtain ⟨q1, r0, q2, q3⟩ := p2 hodd
            refine ⟨q1, r0, ?_, q3⟩
            rw [List.getElem?_append_left (by omega)]
            exact q2
          · rcases Nat.eq_or_lt_of_le hi with hi' | hi'
            · subst hi'
              rw [List.getElem?_append_right (Nat.le_refl _)] at hr
              simp only [Nat.sub_self, List.getElem?_cons_zero, Option.some.injEq] at hr
              subst hr
              refine ⟨fun _ => ht0, fun hodd => ?_⟩
              omega
            · rw [List.getElem?_eq_none (by simp; omega)] at hr
              cases hr
      · rw [if_neg hc] at h7
        simp only [EpisodeState.mk.injEq] at h7
        obtain ⟨e1, e2, e3⟩ := h7
        refine ⟨?_, ?_, ?_, Or.inl e3⟩
        · rw [e1, e2, e3, hlen, hph]
          simp
        · intro r hr
          rw [e3] at hr
          rw [h6]
          have := hbound r hr
          linarith
        · rw [e3]
          exact hpos
    | true =>
      have htpos := hact hph
      rw [hph] at hlen
      simp only [if_true] at hlen
      rw [detectEpisode_of_active _ _ _ _ _ _ _ hph] at h7
      by_cases hc : sN.x2 < thA
      · rw [if_pos hc] at h7
        simp only [EpisodeState.mk.injEq] at h7
        obtain ⟨e1, e2, e3⟩ := h7
        refine ⟨?_, ?_, ?_, Or.inr ⟨_, e3, Or.inr ⟨by omega, rfl, e1, rfl⟩⟩⟩
        · rw [e1, e2, e3, List.length_append, hlen, hmod]
          simp
          omega
        · intro r hr
          rw [e3, List.mem_append, List.mem_singleton] at hr
          rw [h6]
          rcases hr with h | h
          · have := hbound r h
            linarith
          · rw [h]
            simp only
            linarith
        · intro i r hr
          rw [e3] at hr ⊢
          rcases Nat.lt_or_ge i s.networkOutputs.length with hi | hi
          · rw [List.getElem?_append_left hi] at hr
            obtain ⟨p1, p2⟩ := hpos i r hr
            refine ⟨p1, fun hodd => ?_⟩
            obtain ⟨q1, r0, q2, q3⟩ := p2 hodd
            refine ⟨q1, r0, ?_, q3⟩
            rw [List.getElem?_append_left (by omega)]
            exact q2
          · rcases Nat.eq_or_lt_of_le hi with hi' | hi'
            · subst hi'
              rw [List.getElem?_append_right (Nat.le_refl _)] at hr
              simp only [Nat.sub_self, List.getElem?_cons_zero, Option.some.injEq] at hr
              subst hr
              refine ⟨fun heven => by omega, fun _ => ?_⟩
              have hlast : s.networkOutputs.length - 1 < s.networkOutputs.length := by omega
              refine ⟨by simp only; linarith, s.networkOutputs[s.networkOutputs.length - 1], ?_,
                ?_, ?_⟩
              · rw [List.getElem?_append_left hlast]
                exact List.getElem?_eq_getElem hlast
              · exact (hpos _ _ (List.getElem?_eq_getElem hlast)).1 (by omega)
              · have := hbound _ (List.getElem_mem hlast)
                simp only [abs_neg, abs_of_pos htpos]
                exact this
            · rw [List.getElem?_eq_none (by simp; omega)] at hr
              cases hr
      · rw [if_neg hc] at h7
        simp only [EpisodeState.mk.injEq] at h7
        obtain ⟨e1, e2, e3⟩ := h7
        refine ⟨?_, ?_, ?_, Or.inl e3⟩
        · rw [e1, e2, e3, hlen, hph]
          simp
        · intro r hr
          rw [e3] at hr
          rw [h6]
          have := hbound r hr
          linarith
        · rw [e3]
          exact hpos
  · rw [if_neg hl]
    exact ⟨s, rfl, hlen, hbound, hpos, Or.inl rfl⟩

theorem simulate_records (do_step : Stepper) (cfg : Config) (hN : 0 < cfg.nNeurons)
    (hp : cfg.pExcNeurons ≤ 1) (hdt : 0 < cfg.dt) (hmax : cfg.maxNumBurst < UINT_SIZE) :
    ∀ k, ∃ a, simulate do_step cfg k = some a ∧ a.wf cfg ∧ 0 ≤ a.t ∧
      (a.activePhase = true → 0 < a.t) ∧
      a.networkOutputs.length = 2 * a.burstCount + (if a.activePhase then 1 else 0) ∧
      (∀ r ∈ a.networkOutputs, r.x2 < a.t) ∧
      ∀ (i : Nat) (r : myArrayDouble4), a.networkOutputs[i]? = some r →
        (i % 2 = 0 → 0 ≤ r.x2) ∧
        (i % 2 = 1 → r.x2 < 0 ∧
          ∃ r0, a.networkOutputs[i - 1]? = some r0 ∧ 0 ≤ r0.x2 ∧ r0.x2 < |r.x2|) := by
  obtain ⟨s0, h0, w0, t0, p0, b0, o0, _⟩ := initState_eq cfg hN
  have hstd : ∀ k, ∃ a, simulate do_step cfg k = some a ∧ a.wf cfg ∧ 0 ≤ a.t ∧
      (a.activePhase = true → 0 < a.t) := by
    intro k
    obtain ⟨a, r1, r2, r3, r4, _, _⟩ :=
      iterLoop_invariant do_step cfg s0 w0 hp hdt hmax t0 p0 b0 o0 k
    refine ⟨a, by rw [simulate_eq do_step cfg s0 h0]; exact r1, r2, ?_, r4⟩
    rcases r3 with h | h
    · rw [h, t0]
    · exact le_of_lt h
  intro k
  induction k with
  | zero =>
    obtain ⟨a, i1, i2, i3, i4⟩ := hstd 0
    have ha : a = s0 := by
      rw [simulate_eq do_step cfg s0 h0] at i1
      injection i1 with i1
      exact i1.symm
    subst ha
    refine ⟨a, i1, i2, i3, i4, ?_, ?_, ?_⟩
    · rw [o0, b0, p0]
      rfl
    · intro r hr
      rw [o0] at hr
      cases hr
    · intro i r hr
      rw [o0] at hr
      simp at hr
  | succ k ih =>
    obtain ⟨a, i1, i2, i3, i4, i5, i6, i7⟩ := ih
    obtain ⟨b, j1, j2, j3, j4, _⟩ :=
      whileIter_records do_step cfg a i2 hp hdt hmax i3 i4 i5 i6 i7
    obtain ⟨b', k1, k2, k3, k4⟩ := hstd (k + 1)
    have hb : simulate do_step cfg (k + 1) = some b := by
      rw [simulate_eq do_step cfg s0 h0] at i1 ⊢
      rw [iterLoop_succ_of_some do_step cfg s0 a k i1]
      exact j1
    rw [hb, Option.some.injEq] at k1
    subst k1
    exact ⟨b, hb, k2, k3, k4, j2, j3, j4⟩

/-- C22. After every number of evaluations of the `while` of a run,
`networkOutputs` has `2*burstCount` records, and one more while the phase is
active; a record at an even position (from 0) has a non-negative element 2, a
record at an odd position has a negative element 2 whose absolute value is
greater than the element 2 of the record before it; each evaluation appends at
most one record; a record appended at an even position is appended when the
phase goes from inactive to active, with the time `t` of the step as element
2, and a record appended at an odd position when the phase goes from active to
inactive, with `-t`. -/
theorem episode_records_alternate (do_step : Stepper) (cfg : Config) (k : Nat)
    (hN : 0 < cfg.nNeurons) (hp : cfg.pExcNeurons ≤ 1) (hdt : 0 < cfg.dt)
    (hmax : cfg.maxNumBurst < UINT_SIZE) :
    ∃ a b, simulate do_step cfg k = some a ∧ simulate do_step cfg (k + 1) = some b ∧
      a.networkOutputs.length = 2 * a.burstCount + (if a.activePhase then 1 else 0) ∧
      (∀ (i : Nat) (r : myArrayDouble4), a.networkOutputs[i]? = some r →
        (i % 2 = 0 → 0 ≤ r.x2) ∧
        (i % 2 = 1 → r.x2 < 0 ∧
          ∃ r0, a.networkOutputs[i - 1]? = some r0 ∧ 0 ≤ r0.x2 ∧ r0.x2 < |r.x2|)) ∧
      (b.networkOutputs = a.networkOutputs ∨
        ∃ r, b.networkOutputs = a.networkOutputs ++ [r] ∧
          ((a.networkOutputs.length % 2 = 0 ∧ a.activePhase = false ∧ b.activePhase = true ∧
              r.x2 = a.t) ∨
           (a.networkOutputs.length % 2 = 1 ∧ a.activePhase = true ∧ b.activePhase = false ∧
              r.x2 = -a.t))) := by
  obtain ⟨s0, h0, _⟩ := initState_eq cfg hN
  obtain ⟨a, i1, i2, i3, i4, i5, i6, i7⟩ := simulate_records do_step cfg hN hp hdt hmax k
  obtain ⟨b, j1, _, _, _, j5⟩ :=
    whileIter_records do_step cfg a i2 hp hdt hmax i3 i4 i5 i6 i7
  refine ⟨a, b, i1, ?_, i5, i7, j5⟩
  rw [simulate_eq do_step cfg s0 h0] at i1 ⊢
  rw [iterLoop_succ_of_some do_step cfg s0 a k i1]
  exact j1

/-- The run of one neuron with the coarse time step, whose first record is
appended in the second evaluation. -/
theorem episode_records_alternate_witness :
    0 < exampleCoarseConfig.nNeurons ∧ exampleCoarseConfig.pExcNeurons ≤ 1 ∧
    0 < exampleCoarseConfig.dt ∧ exampleCoarseConfig.maxNumBurst < UINT_SIZE ∧
    ∃ a b, simulate runge_kutta4_do_step exampleCoarseConfig 1 = some a ∧
      simulate runge_kutta4_do_step exampleCoarseConfig (1 + 1) = some b ∧
      a.networkOutputs.length = 2 * a.burstCount + (if a.activePhase then 1 else 0) ∧
      (∀ (i : Nat) (r : myArrayDouble4), a.networkOutputs[i]? = some r →
        (i % 2 = 0 → 0 ≤ r.x2) ∧
        (i % 2 = 1 → r.x2 < 0 ∧
          ∃ r0, a.networkOutputs[i - 1]? = some r0 ∧ 0 ≤ r0.x2 ∧ r0.x2 < |r.x2|)) ∧
      (b.networkOutputs = a.networkOutputs ∨
        ∃ r, b.networkOutputs = a.networkOutputs ++ [r] ∧
          ((a.networkOutputs.length % 2 = 0 ∧ a.activePhase = false ∧ b.activePhase = true ∧
              r.x2 = a.t) ∨
           (a.networkOutputs.length % 2 = 1 ∧ a.activePhase = true ∧ b.activePhase = false ∧
              r.x2 = -a.t))) :=
  ⟨by decide, by decide!, by decide!, by decide,
    episode_records_alternate runge_kutta4_do_step exampleCoarseConfig 1 (by decide)
      (by decide!) (by decide!) (by decide)⟩
